import Mathlib

/-!
# Verification of the `sicp-reg-machine` register-machine simulator

Shallow embedding of the Rust sources (`src/parser.rs`, `src/assemble.rs`,
`src/lib.rs`, `src/machine/machine.rs`, `src/machine/procedure.rs`,
`src/machine/value.rs`, `src/machine/stack.rs`, `src/machine/errors.rs`)
into Lean, together with theorems settling the specification claims.

Modelling conventions, used uniformly below:
* Rust `f64` payloads are modelled as exact rationals (`ℚ`).  The machine
  only ever adds `1.0` to small integral program counters, and the parser
  only produces values of decimal literals, so the rational model is exact
  on every execution path exercised here.
* Rust `HashMap` is modelled as an association list with replace-on-insert
  semantics (`alistInsert`); only lookups are observable.
* Rust `Vec` push/pop at the back is modelled as cons/head at the front of
  a Lean list (an observationally identical LIFO).
* Rust panics (`unreachable!()`, `unwrap()` on `Err`) are modelled either
  by the dedicated error constructor `MachineError.panicked` or, for
  `assemble`'s `parse(..).unwrap()`, by an `Option` result where `none`
  means the Rust code panicked.
* Side effects on stdout are elided (they return the same values as in the
  source); the one stdin-reading procedure installed by `make_machine` is
  passed in as an explicit function parameter.
-/

namespace RegMachine

/-! ## Association lists: the model of `std::collections::HashMap` -/

/-- Model of `HashMap<String, α>`: lookup of a key. -/
def alistLookup {α : Type} : List (String × α) → String → Option α
  | [], _ => none
  | (k, v) :: rest, key => if k = key then some v else alistLookup rest key

/-- Model of `HashMap::contains_key`. -/
def alistContains {α : Type} (m : List (String × α)) (key : String) : Bool :=
  (alistLookup m key).isSome

/-- Model of `HashMap::insert`: replaces the binding if the key is present,
otherwise appends it. -/
def alistInsert {α : Type} : List (String × α) → String → α → List (String × α)
  | [], key, v => [(key, v)]
  | (k, w) :: rest, key, v =>
    if k = key then (k, v) :: rest else (k, w) :: alistInsert rest key v

theorem alistLookup_insert_self {α : Type} (m : List (String × α)) (k : String) (v : α) :
    alistLookup (alistInsert m k v) k = some v := by
  induction m with
  | nil => simp [alistInsert, alistLookup]
  | cons hd tl ih =>
    obtain ⟨k', w⟩ := hd
    by_cases h : k' = k
    · simp [alistInsert, alistLookup, h]
    · simp [alistInsert, alistLookup, h, ih]

theorem alistLookup_insert_other {α : Type} (m : List (String × α)) (k k' : String) (v : α)
    (h : k ≠ k') : alistLookup (alistInsert m k v) k' = alistLookup m k' := by
  induction m with
  | nil => simp [alistInsert, alistLookup, h]
  | cons hd tl ih =>
    obtain ⟨k₀, w⟩ := hd
    by_cases h0 : k₀ = k
    · subst h0; simp [alistInsert, alistLookup, h]
    · simp [alistInsert, alistLookup, h0, ih]

theorem alistContains_insert_self {α : Type} (m : List (String × α)) (k : String) (v : α) :
    alistContains (alistInsert m k v) k = true := by
  simp [alistContains, alistLookup_insert_self]

/-! ## The RML abstract syntax tree (`src/parser.rs`)

`RMLValue::Float(f64)` is modelled with an exact rational payload and
`RMLValue::Num(i32)` with an integer payload (the parser range-checks it,
see `rustParseI32`). -/

/-- `enum RMLValue` from `src/parser.rs`. -/
inductive RMLValue : Type where
  | Float (f : ℚ)
  | Num (n : ℤ)
  | List (l : List RMLValue)
  | Str (s : String)
  | Symbol (s : String)

/-- `enum RMLNode` from `src/parser.rs` (the `Arc` indirections of the
source are plain nesting here). -/
inductive RMLNode : Type where
  | Assignment (reg : String) (op : RMLNode)
  | Branch (label : RMLNode)
  | Constant (v : RMLValue)
  | GotoLabel (label : RMLNode)
  | Label (l : String)
  | List (vs : List RMLValue)
  | Operation (name : String) (args : List RMLNode)
  | PerformOp (op : RMLNode)
  | Reg (r : String)
  | Restore (r : String)
  | Save (r : String)
  | Symbol (s : String)
  | TestOp (op : RMLNode)

/-! ## The machine value domain (`src/machine/value.rs`)

`Value::Procedure(Procedure)` holds a closure in the source; a closure over
`Value` cannot occur inside a strictly positive inductive, and the source's
`PartialEq for Procedure` compares only `(name, min_arg_num)`, so the
variant carries exactly that equality-relevant data here. -/

/-- `enum Value` from `src/machine/value.rs`. -/
inductive Value : Type where
  | Num (n : ℚ)
  | Symbol (s : String)
  | String (s : String)
  | Boolean (b : Bool)
  | List (l : List Value)
  | Nil
  | Pointer (p : ℕ)
  | Procedure (name : String) (min_arg_num : ℕ)

/-! ## Errors (`src/machine/errors.rs`, variants as constructed by
`machine.rs`, `procedure.rs`, `value.rs` and `lib.rs`) -/

/-- `TypeError { got, expected }`. -/
structure TypeError : Type where
  got : Option String
  expected : String
deriving DecidableEq

/-- `enum RegisterError`. -/
inductive RegisterError : Type where
  | LookupFailure (name : String)
  | AllocateFailure (name : String)
  | UnmatchedContentType (reg_name : String) (type_name : String)
deriving DecidableEq

/-- `enum OperationError`. -/
inductive OperationError : Type where
  | NotFound (name : String)
  | CallFailure (name : String)
deriving DecidableEq

/-- `enum ProcedureError` (variants used by `procedure.rs` / `value.rs`). -/
inductive ProcedureError : Type where
  | NotFound (name : String)
  | ArgsTooFew (name : String) (expected : ℕ) (got : ℕ)
  | ExecuteFailure (name : String)
  | UnablePerform (value : String)
deriving DecidableEq

/-- `enum MachineError`, with `panicked` modelling a Rust panic
(`unreachable!()` or an out-of-bounds index). -/
inductive MachineError : Type where
  | OperationError (e : OperationError)
  | TypeError (e : TypeError)
  | RegisterError (e : RegisterError)
  | ProcedureError (e : ProcedureError)
  | UnableAssemble (msg : String)
  | NoMoreInsts
  | StackError (msg : String)
  | UnknownLabel (name : String)
  | panicked (msg : String)
deriving DecidableEq

/-! ## Stack (`src/machine/stack.rs`, counters as in the source) -/

/-- `struct Stack`: LIFO of values plus push/depth statistics. -/
structure Stack : Type where
  stack : List Value
  num_pushes : ℤ
  max_depth : ℤ
  curr_depth : ℤ

/-- `Stack::new`. -/
def Stack.new : Stack := ⟨[], 0, 0, 0⟩

/-- `Stack::push` (never fails). -/
def Stack.push (s : Stack) (item : Value) : Stack :=
  { stack := item :: s.stack
    num_pushes := s.num_pushes + 1
    curr_depth := s.curr_depth + 1
    max_depth := max (s.curr_depth + 1) s.max_depth }

/-- `Stack::pop`: the top item, or `Err("Empty stack: POP")`. -/
def Stack.pop (s : Stack) : Except String (Value × Stack) :=
  match s.stack with
  | [] => .error "Empty stack: POP"
  | item :: rest =>
    .ok (item, { s with stack := rest, curr_depth := s.curr_depth - 1 })

/-- `Stack::initialize`. -/
def Stack.initialize (_ : Stack) : Stack := ⟨[], 0, 0, 0⟩

/-! ## The machine (`src/machine/machine.rs`)

`the_ops` holds the installed operations as functions
`List Value → Except MachineError Value` (the observable contract of
`Operation::perform`).  The constant `Ok`-payload strings (`"Done"`,
`"register-allocated"`) returned by the mutating methods are kept only
where a claim observes them. -/

/-- `struct Machine`. -/
structure Machine : Type where
  pc : Value
  flag : Value
  stack : Stack
  the_inst_seq : List RMLNode
  the_labels : List (String × List RMLNode)
  the_ops : List (String × (List Value → Except MachineError Value))
  register_table : List (String × Value)

/-- `Register::new()` content, `Symbol("*unassigned*")`. -/
def unassigned : Value := Value.Symbol "*unassigned*"

/-- `Machine::new`. -/
def Machine.new : Machine :=
  { pc := unassigned
    flag := unassigned
    stack := Stack.new
    the_inst_seq := []
    the_labels := []
    the_ops := []
    register_table := [] }

/-- `Machine::allocate_register`.  The source's guard is
`name.eq("pc") && name.eq("flag") && self.register_table.contains_key(&name)`
(a conjunction, translated verbatim); on the `else` branch a fresh register
is inserted, replacing any existing one. -/
def Machine.allocate_register (m : Machine) (name : String) :
    Except MachineError (String × Machine) :=
  if name = "pc" ∧ name = "flag" ∧ alistContains m.register_table name then
    .error (.RegisterError (.AllocateFailure name))
  else
    .ok ("register-allocated",
      { m with register_table := alistInsert m.register_table name unassigned })

/-- `Machine::get_register_content`. -/
def Machine.get_register_content (m : Machine) (reg_name : String) :
    Except MachineError Value :=
  match alistLookup m.register_table reg_name with
  | some v => .ok v
  | none => .error (.RegisterError (.LookupFailure reg_name))

/-- `Machine::set_register_content`. -/
def Machine.set_register_content (m : Machine) (reg_name : String) (value : Value) :
    Except MachineError Machine :=
  if alistContains m.register_table reg_name then
    .ok { m with register_table := alistInsert m.register_table reg_name value }
  else
    .error (.RegisterError (.LookupFailure reg_name))

/-- `Machine::reset_pc`: `self.pc.set(Value::new(0))` where `0 : i32`, so
the program counter becomes `Value::Num(0.0)`. -/
def Machine.reset_pc (m : Machine) : Machine :=
  { m with pc := Value.Num 0 }

/-- `Machine::advance_pc`: succeeds only when `pc` holds `Value::Num`. -/
def Machine.advance_pc (m : Machine) : Except MachineError Machine :=
  match m.pc with
  | Value.Num value => .ok { m with pc := Value.Num (value + 1) }
  | _ => .error (.RegisterError (.UnmatchedContentType "pc" "usize"))

/-- Rust's `usize::from_str` (as used by `TryFromValue for usize` on a
`Symbol`): optional `+`, then one or more digits, overflow-checked. -/
def rustParseUsize (s : List Char) : Option ℕ :=
  let digits := match s with
    | '+' :: r => r
    | r => r
  if digits = [] ∨ ¬ digits.all (fun c => c.isDigit) then none
  else
    let v := digits.foldl (fun acc c => acc * 10 + (c.toNat - '0'.toNat)) 0
    if v ≤ 2 ^ 64 - 1 then some v else none

/-- The Rust `as usize` cast of an `f64` (modelled on `ℚ`): truncation
toward zero, saturating at the bounds. -/
def rustF64AsUsize (q : ℚ) : ℕ :=
  if q ≤ 0 then 0 else min (2 ^ 64 - 1) (Int.toNat ⌊q⌋)

/-- `impl TryFromValue for usize` (`src/machine/value.rs`): accepts
`Num` (cast), `Pointer`, and numeric `Symbol` contents. -/
def usizeTryFromValue (v : Value) : Except TypeError ℕ :=
  match v with
  | Value.Num val => .ok (rustF64AsUsize val)
  | Value.Pointer val => .ok val
  | Value.Symbol val =>
    match rustParseUsize val.data with
    | some n => .ok n
    | none => .error ⟨some ("Symbol " ++ val), "Value::Num"⟩
  | _ => .error ⟨some "other", "Value::Num"⟩

/-! ## `rmlvalue_to_value` (`src/lib.rs`): note the pushed `Nil` after the
mapped elements of a list literal. -/

mutual

/-- `rmlvalue_to_value` from `src/lib.rs`. -/
def rmlvalue_to_value : RMLValue → Value
  | RMLValue.Float f => Value.Num f
  | RMLValue.Num n => Value.Num (n : ℚ)
  | RMLValue.Str s => Value.String s
  | RMLValue.Symbol s => Value.Symbol s
  | RMLValue.List l => Value.List (rmlvalues_to_values l ++ [Value.Nil])

/-- The element-wise map inside `rmlvalue_to_value`'s `List` arm. -/
def rmlvalues_to_values : List RMLValue → List Value
  | [] => []
  | v :: rest => rmlvalue_to_value v :: rmlvalues_to_values rest

end

theorem rmlvalues_to_values_eq_map (l : List RMLValue) :
    rmlvalues_to_values l = l.map rmlvalue_to_value := by
  induction l with
  | nil => rfl
  | cons hd tl ih => simp [rmlvalues_to_values, ih]

theorem rmlvalues_to_values_length (l : List RMLValue) :
    (rmlvalues_to_values l).length = l.length := by
  rw [rmlvalues_to_values_eq_map]; simp

/-! ## Instruction execution (`src/machine/machine.rs`) -/

/-- `Machine::call_operation`: the two built-ins, then the installed table.
(The printing side effect of `print-stack-statistics` is elided; both
built-ins return `Value::new("Done".to_string()) = Symbol("Done")`.) -/
def Machine.call_operation (m : Machine) (name : String) (args : List Value) :
    Except MachineError (Value × Machine) :=
  if name = "initialize-stack" then
    .ok (Value.Symbol "Done", { m with stack := m.stack.initialize })
  else if name = "print-stack-statistics" then
    .ok (Value.Symbol "Done", m)
  else
    match alistLookup m.the_ops name with
    | none => .error (.OperationError (.NotFound name))
    | some op => (op args).map (fun v => (v, m))

/-- Argument evaluation inside `Machine::perform_operation`: `Reg` reads the
register, `Constant` converts the literal, anything else is `unreachable!()`. -/
def Machine.eval_op_args (m : Machine) : List RMLNode → Except MachineError (List Value)
  | [] => .ok []
  | arg :: rest =>
    match arg with
    | RMLNode.Reg r => do
      let value ← m.get_register_content r
      let vs ← m.eval_op_args rest
      .ok (value :: vs)
    | RMLNode.Constant value => do
      let vs ← m.eval_op_args rest
      .ok (rmlvalue_to_value value :: vs)
    | _ => .error (.panicked "unreachable")

/-- `Machine::perform_operation`. -/
def Machine.perform_operation (m : Machine) (op_name : String) (args : List RMLNode) :
    Except MachineError (Value × Machine) := do
  let op_args ← m.eval_op_args args
  m.call_operation op_name op_args

/-- `Machine::execute_assignment`. -/
def Machine.execute_assignment (m : Machine) (reg_name : String) (operation : RMLNode) :
    Except MachineError Machine := do
  let m ←
    match operation with
    | RMLNode.Reg name => do
      let value ← m.get_register_content name
      m.set_register_content reg_name value
    | RMLNode.Constant r =>
      m.set_register_content reg_name (rmlvalue_to_value r)
    | RMLNode.Label s =>
      m.set_register_content reg_name (Value.Symbol s)
    | RMLNode.Symbol s =>
      m.set_register_content reg_name (Value.Symbol s)
    | RMLNode.List l =>
      m.set_register_content reg_name (Value.List (rmlvalues_to_values l))
    | RMLNode.Operation op_name args => do
      let (value, m) ← m.perform_operation op_name args
      m.set_register_content reg_name value
    | _ => .error (.panicked "unreachable")
  m.advance_pc

/-- `Machine::extract_label_name`. -/
def Machine.extract_label_name (m : Machine) (label : RMLNode) :
    Except MachineError String :=
  match label with
  | RMLNode.Reg reg_name => do
    let value ← m.get_register_content reg_name
    match value with
    | Value.Symbol label => .ok label
    | _ => .error (.RegisterError (.UnmatchedContentType reg_name "Value::Symbol"))
  | RMLNode.Label label_name => .ok label_name
  | _ => .error (.panicked "unreachable")

/-- `Machine::execute_branch`: resolve the label, look it up, and only then
consult `flag` — jumping exactly when `flag` is `Boolean(true)`. -/
def Machine.execute_branch (m : Machine) (label : RMLNode) :
    Except MachineError Machine := do
  let label_name ← m.extract_label_name label
  match alistLookup m.the_labels label_name with
  | some insts =>
    match m.flag with
    | Value.Boolean true => .ok ({ m with the_inst_seq := insts }.reset_pc)
    | _ => m.advance_pc
  | none => .error (.UnknownLabel label_name)

/-- `Machine::execute_goto`. -/
def Machine.execute_goto (m : Machine) (label : RMLNode) :
    Except MachineError Machine := do
  let label_name ← m.extract_label_name label
  match alistLookup m.the_labels label_name with
  | some insts => .ok ({ m with the_inst_seq := insts }.reset_pc)
  | none => .error (.UnknownLabel label_name)

/-- `Machine::execute_perform`. -/
def Machine.execute_perform (m : Machine) (operation : RMLNode) :
    Except MachineError Machine :=
  match operation with
  | RMLNode.Operation op_name args => do
    let (_, m) ← m.perform_operation op_name args
    m.advance_pc
  | _ => .error (.panicked "unreachable")

/-- `Machine::execute_restore`. -/
def Machine.execute_restore (m : Machine) (reg_name : String) :
    Except MachineError Machine := do
  match m.stack.pop with
  | .error s => .error (.StackError s)
  | .ok (value, stack) => do
    let m ← ({ m with stack := stack }).set_register_content reg_name value
    m.advance_pc

/-- `Machine::execute_save`. -/
def Machine.execute_save (m : Machine) (reg_name : String) :
    Except MachineError Machine := do
  let value ← m.get_register_content reg_name
  ({ m with stack := m.stack.push value }).advance_pc

/-- `Machine::execute_test`: the result must be a `Boolean`, which is
stored into `flag`; otherwise `TypeError::expected("bool")`. -/
def Machine.execute_test (m : Machine) (operation : RMLNode) :
    Except MachineError Machine :=
  match operation with
  | RMLNode.Operation op_name args => do
    let (value, m) ← m.perform_operation op_name args
    match value with
    | Value.Boolean _ => ({ m with flag := value }).advance_pc
    | _ => .error (.TypeError ⟨none, "bool"⟩)
  | _ => .error (.panicked "unreachable")

/-- One iteration of the `loop` in `Machine::execute`. -/
inductive StepOut : Type where
  | done (msg : String) (m : Machine)
  | next (m : Machine)
  | fail (e : MachineError)

/-- The body of `Machine::execute`'s `loop`: convert `pc` to `usize`
(`UnmatchedContentType` on failure), compare against the instruction count,
then dispatch on the fetched instruction. -/
def Machine.execStep (m : Machine) : StepOut :=
  match usizeTryFromValue m.pc with
  | .error _ =>
    .fail (.RegisterError (.UnmatchedContentType "pc" "usize"))
  | .ok pointer =>
    if pointer = m.the_inst_seq.length then .done "Done" m
    else if pointer > m.the_inst_seq.length then .fail .NoMoreInsts
    else
      match m.the_inst_seq.get? pointer with
      | none => .fail (.panicked "index out of bounds")
      | some inst =>
        let res : Except MachineError Machine :=
          match inst with
          | RMLNode.Assignment reg_name op => m.execute_assignment reg_name op
          | RMLNode.Branch label => m.execute_branch label
          | RMLNode.GotoLabel label => m.execute_goto label
          | RMLNode.PerformOp op => m.execute_perform op
          | RMLNode.Restore reg_name => m.execute_restore reg_name
          | RMLNode.Save reg_name => m.execute_save reg_name
          | RMLNode.TestOp op => m.execute_test op
          | _ => .error (.panicked "unreachable")
        match res with
        | .ok m' => .next m'
        | .error e => .fail e

/-- `Machine::execute`, iterated with explicit fuel; `none` means the loop
has not finished within `fuel` iterations. -/
def Machine.executeN : ℕ → Machine → Option (Except MachineError (String × Machine))
  | 0, _ => none
  | fuel + 1, m =>
    match m.execStep with
    | .done msg m' => some (.ok (msg, m'))
    | .fail e => some (.error e)
    | .next m' => Machine.executeN fuel m'

/-- `Machine::start`: reset `pc`, then run the execution loop. -/
def Machine.startN (fuel : ℕ) (m : Machine) :
    Option (Except MachineError (String × Machine)) :=
  m.reset_pc.executeN fuel

/-! ## The assembler (`src/assemble.rs`)

The source walks the parsed node list with a mutable `labels` map, a
mutable `insts` vector and a mutable `current_label` string; the walk is
embedded as `assembleGo` over an explicit state. -/

/-- The mutable state of the loop in `assemble`. -/
structure AssembleSt : Type where
  labels : List (String × List RMLNode)
  insts : List RMLNode
  current_label : String

/-- The loop body of `assemble` over the parse result: a bare
`Symbol(label)` is a declaration (duplicates are fatal; `current_label`
is updated only when `insts` is non-empty); any other node is appended to
`insts` when `current_label` is empty and to the current label's entry
otherwise. -/
def assembleGo : AssembleSt → List RMLNode →
    Except String (List RMLNode × List (String × List RMLNode))
  | st, [] => .ok (st.insts, st.labels)
  | st, node :: rest =>
    match node with
    | RMLNode.Symbol label =>
      if alistContains st.labels label then
        .error ("[ASSEMBLE] Duplicated label: " ++ label)
      else
        let cur := if st.insts.isEmpty then st.current_label else label
        assembleGo
          { labels := alistInsert st.labels label []
            insts := st.insts
            current_label := cur } rest
    | inst =>
      if st.current_label = "" then
        assembleGo { st with insts := st.insts ++ [inst] } rest
      else
        match alistLookup st.labels st.current_label with
        | some v =>
          assembleGo
            { st with labels := alistInsert st.labels st.current_label (v ++ [inst]) }
            rest
        | none => .error ("[ASSEMBLE] Missed label: " ++ st.current_label)

/-! ## The parser (`src/parser.rs`)

The `nom`-based parser is embedded over `List Char`.  A parser returns
either `(remaining input, value)` or a `nom::Err`: `err` is recoverable
(`nom::Err::Error`), `failure` is not (`nom::Err::Failure`).  The error
kinds carried by `ParseFailure` follow `nom::error::ErrorKind`. -/

/-- The `nom::error::ErrorKind` values produced by the combinators used in
`src/parser.rs`. -/
inductive ErrorKind : Type where
  | tagK
  | charK
  | takeWhile1K
  | verifyK
  | many0K
  | eofK
  | altK
deriving DecidableEq

/-- `enum RMLParseError` from `src/parser.rs`. -/
inductive RMLParseError : Type where
  | BadNum
  | BadFloatPoint
  | BadSymbol
  | ParseFailure (input : List Char) (kind : ErrorKind)
deriving DecidableEq

/-- `nom::Err`: a recoverable `Error` or an unrecoverable `Failure`. -/
inductive NomErr : Type where
  | err (e : RMLParseError)
  | failure (e : RMLParseError)
deriving DecidableEq

/-- Result of a parser: remaining input and parsed value, or a `NomErr`. -/
abbrev PResult (α : Type) : Type := Except NomErr (List Char × α)

/-- A `nom` parser over `List Char`. -/
abbrev Parser (α : Type) : Type := List Char → PResult α

/-- `nom::character::complete::char`. -/
def charP (c : Char) : Parser Char := fun input =>
  match input with
  | c' :: rest =>
    if c' = c then .ok (rest, c)
    else .error (.err (.ParseFailure input .charK))
  | [] => .error (.err (.ParseFailure input .charK))

/-- `nom::bytes::complete::tag`. -/
def tagP (t : List Char) : Parser (List Char) := fun input =>
  if t.isPrefixOf input then .ok (input.drop t.length, t)
  else .error (.err (.ParseFailure input .tagK))

/-- The whitespace recognised by `nom::character::complete::multispace0`. -/
def isMultispace (c : Char) : Bool :=
  c = ' ' ∨ c = '\t' ∨ c = '\n' ∨ c = '\r'

/-- `nom::character::complete::multispace0` (never fails). -/
def multispace0 : Parser (List Char) := fun input =>
  .ok (input.dropWhile isMultispace, input.takeWhile isMultispace)

/-- `nom::character::complete::not_line_ending` (complete version):
consumes up to `\n` / `\r\n`; a lone `\r` is an error. -/
def not_line_ending : Parser (List Char) := fun input =>
  let taken := input.takeWhile (fun c => c ≠ '\n' ∧ c ≠ '\r')
  let rest := input.dropWhile (fun c => c ≠ '\n' ∧ c ≠ '\r')
  match rest with
  | '\r' :: r2 =>
    match r2 with
    | '\n' :: _ => .ok (rest, taken)
    | _ => .error (.err (.ParseFailure input .tagK))
  | _ => .ok (rest, taken)

/-- `nom::combinator::opt`: recoverable errors become `none`. -/
def optP {α : Type} (p : Parser α) : Parser (Option α) := fun input =>
  match p input with
  | .ok (rest, v) => .ok (rest, some v)
  | .error (.failure e) => .error (.failure e)
  | .error (.err _) => .ok (input, none)

/-- `nom::combinator::map`. -/
def mapP {α β : Type} (p : Parser α) (f : α → β) : Parser β := fun input =>
  match p input with
  | .ok (rest, v) => .ok (rest, f v)
  | .error e => .error e

/-- `nom::sequence::pair`. -/
def pairP {α β : Type} (p : Parser α) (q : Parser β) : Parser (α × β) := fun input =>
  match p input with
  | .error e => .error e
  | .ok (rest, a) =>
    match q rest with
    | .error e => .error e
    | .ok (rest', b) => .ok (rest', (a, b))

/-- `nom::sequence::preceded`. -/
def precededP {α β : Type} (p : Parser α) (q : Parser β) : Parser β :=
  mapP (pairP p q) (fun x => x.2)

/-- `nom::sequence::terminated`. -/
def terminatedP {α β : Type} (p : Parser α) (q : Parser β) : Parser α :=
  mapP (pairP p q) (fun x => x.1)

/-- `nom::sequence::delimited`. -/
def delimitedP {α β γ : Type} (p : Parser α) (q : Parser β) (r : Parser γ) : Parser β :=
  terminatedP (precededP p q) r

/-- `nom::sequence::tuple` for three parsers. -/
def tuple3P {α β γ : Type} (p : Parser α) (q : Parser β) (r : Parser γ) :
    Parser (α × β × γ) :=
  mapP (pairP p (pairP q r)) (fun x => (x.1, x.2.1, x.2.2))

/-- `nom::bytes::complete::take_while`. -/
def take_while (f : Char → Bool) : Parser (List Char) := fun input =>
  .ok (input.dropWhile f, input.takeWhile f)

/-- `nom::bytes::complete::take_while1`. -/
def take_while1 (f : Char → Bool) : Parser (List Char) := fun input =>
  let taken := input.takeWhile f
  if taken.isEmpty then .error (.err (.ParseFailure input .takeWhile1K))
  else .ok (input.dropWhile f, taken)

/-- `nom::character::complete::digit1`. -/
def digit1 : Parser (List Char) := fun input =>
  let taken := input.takeWhile (fun c => c.isDigit)
  if taken.isEmpty then .error (.err (.ParseFailure input .charK))
  else .ok (input.dropWhile (fun c => c.isDigit), taken)

/-- `nom::combinator::verify`. -/
def verifyP {α : Type} (p : Parser α) (f : α → Bool) : Parser α := fun input =>
  match p input with
  | .ok (rest, v) =>
    if f v then .ok (rest, v) else .error (.err (.ParseFailure input .verifyK))
  | .error e => .error e

/-- `nom::combinator::recognize`: the consumed slice of the input. -/
def recognizeP {α : Type} (p : Parser α) : Parser (List Char) := fun input =>
  match p input with
  | .ok (rest, _) => .ok (rest, input.take (input.length - rest.length))
  | .error e => .error e

/-- `nom::branch::alt` over a list of parsers: first success wins, a
`Failure` aborts, and when every branch fails the last branch's error is
returned (the source's `ParseError::append` keeps the newest error). -/
def altL {α : Type} : List (Parser α) → Parser α
  | [] => fun input => .error (.err (.ParseFailure input .altK))
  | [p] => fun input => p input
  | p :: q :: rest => fun input =>
    match p input with
    | .ok r => .ok r
    | .error (.failure e) => .error (.failure e)
    | .error (.err _) => altL (q :: rest) input

/-- `nom::combinator::all_consuming`. -/
def all_consuming {α : Type} (p : Parser α) : Parser α := fun input =>
  match p input with
  | .ok (rest, v) =>
    if rest = [] then .ok (rest, v)
    else .error (.err (.ParseFailure rest .eofK))
  | .error e => .error e

/-- The loop of `nom::multi::many0`, with fuel: the combinator demands
progress on every iteration (`many0K` on a zero-length match), so fuel
`input.length + 1` can never run out. -/
def many0Go {α : Type} (p : Parser α) : ℕ → List Char → PResult (List α)
  | 0, input => .error (.err (.ParseFailure input .many0K))
  | fuel + 1, input =>
    match p input with
    | .error (.failure e) => .error (.failure e)
    | .error (.err _) => .ok (input, [])
    | .ok (rest, v) =>
      if rest.length = input.length then
        .error (.err (.ParseFailure input .many0K))
      else
        match many0Go p fuel rest with
        | .ok (rest', vs) => .ok (rest', v :: vs)
        | .error e => .error e

/-- `nom::multi::many0`. -/
def many0 {α : Type} (p : Parser α) : Parser (List α) := fun input =>
  many0Go p (input.length + 1) input

/-- `opt(pair(tag(";"), not_line_ending))`: the comment eater used by
`sce`. -/
def commentOpt : Parser (Option (List Char × List Char)) :=
  optP (pairP (tagP [';']) not_line_ending)

/-- `sce` ("spaces and comments eater") from `src/parser.rs`. -/
def sce {α : Type} (inner : Parser α) : Parser α :=
  delimitedP (terminatedP multispace0 commentOpt)
    (terminatedP inner commentOpt)
    (terminatedP multispace0 commentOpt)

/-! ### Reduction lemmas for the combinators -/

theorem mapP_of_ok {α β : Type} {p : Parser α} {f : α → β} {input rest : List Char}
    {v : α} (h : p input = .ok (rest, v)) : mapP p f input = .ok (rest, f v) := by
  unfold mapP; simp [h]

theorem mapP_of_err {α β : Type} {p : Parser α} {f : α → β} {input : List Char}
    {e : NomErr} (h : p input = .error e) : mapP p f input = .error e := by
  unfold mapP; simp [h]

theorem pairP_of_ok {α β : Type} {p : Parser α} {q : Parser β}
    {input r1 r2 : List Char} {a : α} {b : β}
    (hp : p input = .ok (r1, a)) (hq : q r1 = .ok (r2, b)) :
    pairP p q input = .ok (r2, (a, b)) := by
  unfold pairP; simp [hp, hq]

theorem pairP_of_err1 {α β : Type} {p : Parser α} {q : Parser β}
    {input : List Char} {e : NomErr} (hp : p input = .error e) :
    pairP p q input = .error e := by
  unfold pairP; simp [hp]

theorem pairP_of_err2 {α β : Type} {p : Parser α} {q : Parser β}
    {input r1 : List Char} {a : α} {e : NomErr}
    (hp : p input = .ok (r1, a)) (hq : q r1 = .error e) :
    pairP p q input = .error e := by
  unfold pairP; simp [hp, hq]

theorem precededP_of_ok {α β : Type} {p : Parser α} {q : Parser β}
    {input r1 r2 : List Char} {a : α} {b : β}
    (hp : p input = .ok (r1, a)) (hq : q r1 = .ok (r2, b)) :
    precededP p q input = .ok (r2, b) :=
  mapP_of_ok (pairP_of_ok hp hq)

theorem precededP_of_err1 {α β : Type} {p : Parser α} {q : Parser β}
    {input : List Char} {e : NomErr} (hp : p input = .error e) :
    precededP p q input = .error e :=
  mapP_of_err (pairP_of_err1 hp)

theorem precededP_of_err2 {α β : Type} {p : Parser α} {q : Parser β}
    {input r1 : List Char} {a : α} {e : NomErr}
    (hp : p input = .ok (r1, a)) (hq : q r1 = .error e) :
    precededP p q input = .error e :=
  mapP_of_err (pairP_of_err2 hp hq)

theorem terminatedP_of_ok {α β : Type} {p : Parser α} {q : Parser β}
    {input r1 r2 : List Char} {a : α} {b : β}
    (hp : p input = .ok (r1, a)) (hq : q r1 = .ok (r2, b)) :
    terminatedP p q input = .ok (r2, a) :=
  mapP_of_ok (pairP_of_ok hp hq)

theorem terminatedP_of_err1 {α β : Type} {p : Parser α} {q : Parser β}
    {input : List Char} {e : NomErr} (hp : p input = .error e) :
    terminatedP p q input = .error e :=
  mapP_of_err (pairP_of_err1 hp)

theorem terminatedP_of_err2 {α β : Type} {p : Parser α} {q : Parser β}
    {input r1 : List Char} {a : α} {e : NomErr}
    (hp : p input = .ok (r1, a)) (hq : q r1 = .error e) :
    terminatedP p q input = .error e :=
  mapP_of_err (pairP_of_err2 hp hq)

theorem optP_of_ok {α : Type} {p : Parser α} {input rest : List Char} {v : α}
    (h : p input = .ok (rest, v)) : optP p input = .ok (rest, some v) := by
  unfold optP; simp [h]

theorem optP_of_err {α : Type} {p : Parser α} {input : List Char} {e : RMLParseError}
    (h : p input = .error (.err e)) : optP p input = .ok (input, none) := by
  unfold optP; simp [h]

theorem recognizeP_of_ok {α : Type} {p : Parser α} {input rest : List Char} {v : α}
    (h : p input = .ok (rest, v)) :
    recognizeP p input = .ok (rest, input.take (input.length - rest.length)) := by
  unfold recognizeP; simp [h]

theorem recognizeP_of_err {α : Type} {p : Parser α} {input : List Char} {e : NomErr}
    (h : p input = .error e) : recognizeP p input = .error e := by
  unfold recognizeP; simp [h]

theorem verifyP_of_ok {α : Type} {p : Parser α} {f : α → Bool}
    {input rest : List Char} {v : α}
    (h : p input = .ok (rest, v)) (hf : f v = true) :
    verifyP p f input = .ok (rest, v) := by
  unfold verifyP; simp [h, hf]

theorem verifyP_of_err {α : Type} {p : Parser α} {f : α → Bool}
    {input : List Char} {e : NomErr} (h : p input = .error e) :
    verifyP p f input = .error e := by
  unfold verifyP; simp [h]

theorem altL_cons_ok {α : Type} {p : Parser α} {ps : List (Parser α)}
    {input rest : List Char} {v : α} (h : p input = .ok (rest, v)) :
    altL (p :: ps) input = .ok (rest, v) := by
  cases ps with
  | nil => unfold altL; exact h
  | cons q qs => unfold altL; simp [h]

theorem altL_cons_err {α : Type} {p q : Parser α} {ps : List (Parser α)}
    {input : List Char} {e : RMLParseError} (h : p input = .error (.err e)) :
    altL (p :: q :: ps) input = altL (q :: ps) input := by
  have hstep : altL (p :: q :: ps) input =
      (match p input with
        | .ok r => .ok r
        | .error (.failure e) => .error (.failure e)
        | .error (.err _) => altL (q :: ps) input) := rfl
  rw [hstep, h]

theorem charP_of_head {c : Char} {rest : List Char} :
    charP c (c :: rest) = .ok (rest, c) := by
  unfold charP; simp

theorem charP_of_ne {c c' : Char} {rest : List Char} (h : c' ≠ c) :
    charP c (c' :: rest) = .error (.err (.ParseFailure (c' :: rest) .charK)) := by
  unfold charP; simp [h]

theorem charP_of_nil {c : Char} :
    charP c [] = .error (.err (.ParseFailure [] .charK)) := rfl

theorem tagP_of_append {t s : List Char} :
    tagP t (t ++ s) = .ok (s, t) := by
  unfold tagP
  rw [if_pos]
  · congr 1
    simp
  · induction t with
    | nil => simp [List.isPrefixOf]
    | cons c cs ih => simp [List.isPrefixOf, ih]

/-! ### Number recognition -/

/-- The numeric value of a run of ASCII digits. -/
def digitsVal (ds : List Char) : ℤ :=
  ds.foldl (fun acc c => acc * 10 + ((c.toNat : ℤ) - 48)) 0

/-- The sign-stripped remainder inspected by Rust's integer `from_str`. -/
def rustStripSign (s : List Char) : List Char :=
  if s.head? = some '+' ∨ s.head? = some '-' then s.tail else s

/-- The sign factor of Rust's integer `from_str`. -/
def rustSign (s : List Char) : ℤ :=
  if s.head? = some '-' then -1 else 1

/-- Rust's `i32::from_str`: optional sign, one or more digits, and an
overflow check against the `i32` range. -/
def rustParseI32 (s : List Char) : Option ℤ :=
  if rustStripSign s = [] ∨ ¬ (rustStripSign s).all (fun c => c.isDigit) then none
  else if -(2 ^ 31) ≤ rustSign s * digitsVal (rustStripSign s) ∧
      rustSign s * digitsVal (rustStripSign s) ≤ 2 ^ 31 - 1 then
    some (rustSign s * digitsVal (rustStripSign s))
  else none

/-- The success predicate of Rust's `f64::from_str`
(`[+-]? (inf | infinity | nan | digits [. digits?] exp? | . digits exp?)`,
the words ASCII-case-insensitively; `exp = [eE] [+-]? digits`). -/
def rustF64Accepts (s : List Char) : Bool :=
  let lower := s.map Char.toLower
  let body := match lower with
    | '+' :: r => r
    | '-' :: r => r
    | r => r
  if body = ['i', 'n', 'f'] ∨ body = ['i', 'n', 'f', 'i', 'n', 'i', 't', 'y'] ∨
      body = ['n', 'a', 'n'] then
    true
  else
    let ds := body.takeWhile (fun c => c.isDigit)
    let rest := body.dropWhile (fun c => c.isDigit)
    let (mantOk, afterMant) : Bool × List Char :=
      match rest with
      | '.' :: r =>
        let frac := r.takeWhile (fun c => c.isDigit)
        (¬ (ds.isEmpty ∧ frac.isEmpty), r.dropWhile (fun c => c.isDigit))
      | r => (¬ ds.isEmpty, r)
    if ¬ mantOk then false
    else
      match afterMant with
      | [] => true
      | 'e' :: r =>
        let es := match r with
          | '+' :: r2 => r2
          | '-' :: r2 => r2
          | r2 => r2
        ¬ es.isEmpty ∧ es.all (fun c => c.isDigit) ∧
          es.length = (es.takeWhile (fun c => c.isDigit)).length
      | _ => false

/-- The exact rational value of a decimal literal `-?digits[.digits]`
(the shape recognised by `rml_float` / `rml_number`).  This is the value
Rust's `f64::from_str` would round to the nearest `f64`; the rounding is
not modelled, which is exact on every literal appearing in the claims. -/
def decimalValQ (s : List Char) : ℚ :=
  let (sign, body) : ℚ × List Char :=
    match s with
    | '-' :: r => (-1, r)
    | r => (1, r)
  let ip := body.takeWhile (fun c => c.isDigit)
  let rest := body.dropWhile (fun c => c.isDigit)
  let frac := match rest with
    | '.' :: r => r.takeWhile (fun c => c.isDigit)
    | _ => []
  sign * ((digitsVal ip : ℚ) + (digitsVal frac : ℚ) / (10 : ℚ) ^ frac.length)

/-! ### Token parsers (`src/parser.rs`) -/

/-- The character predicate inside `valid_symbol`: control characters,
space, `"`, `'`, `(`, `)`, `;`, `@`, `\`, and codepoints `≥ 0x7e` are
excluded. -/
def isValidSymbolChar (c : Char) : Bool :=
  let cv := c.toNat
  if cv ≤ 0x20 ∨ cv = 0x22 ∨ (0x27 ≤ cv ∧ cv ≤ 0x29) ∨ cv = 0x3b ∨ cv = 0x40 ∨
      cv = 0x5c then false
  else if 0x7e ≤ cv then false
  else true

/-- `valid_symbol`: a run of symbol characters that does not parse as an
`f64`. -/
def valid_symbol : Parser (List Char) :=
  verifyP (take_while1 isValidSymbolChar) (fun s => ¬ rustF64Accepts s)

/-- `rml_symbol`. -/
def rml_symbol : Parser RMLValue :=
  mapP valid_symbol (fun s => RMLValue.Symbol (String.mk s))

/-- `rml_string`: characters other than `"` and `\` between double
quotes. -/
def rml_string : Parser RMLValue :=
  mapP
    (delimitedP (charP '"')
      (take_while (fun c => c.toNat ≠ 0x22 ∧ c.toNat ≠ 0x5c))
      (charP '"'))
    (fun s => RMLValue.Str (String.mk s))

/-- `rml_number`: `recognize(pair(opt(tag("-")), digit1))`, then
`parse::<i32>` with `nom::Err::Failure(BadNum)` on overflow. -/
def rml_number : Parser RMLValue := fun input =>
  match recognizeP (pairP (optP (tagP ['-'])) digit1) input with
  | .error e => .error e
  | .ok (remain, num_string) =>
    match rustParseI32 num_string with
    | some n => .ok (remain, RMLValue.Num n)
    | none => .error (.failure .BadNum)

/-- `rml_float`: `recognize(tuple((rml_number, char('.'), digit1)))`, then
`parse::<f64>` with `nom::Err::Failure(BadFloatPoint)` on failure. -/
def rml_float : Parser RMLValue := fun input =>
  match recognizeP (tuple3P rml_number (charP '.') digit1) input with
  | .error e => .error e
  | .ok (remain, float_num) =>
    if rustF64Accepts float_num then .ok (remain, RMLValue.Float (decimalValQ float_num))
    else .error (.failure .BadFloatPoint)

/-- `rml_value` with fuel (one unit per list-nesting level; the top-level
entry points pass `input.length + 1`, which can never run out because every
nesting level consumes a `(`).  The body of `rml_list` is inlined in the
recursive equation so that the recursion is structural on the fuel;
`rml_listF` below names that inlined parser. -/
def rml_valueF : ℕ → Parser RMLValue
  | 0 => fun input => .error (.err (.ParseFailure input .altK))
  | fuel + 1 =>
    sce (altL [rml_float, rml_number, rml_symbol, rml_string,
      mapP (delimitedP (sce (charP '(')) (many0 (rml_valueF fuel)) (sce (charP ')')))
        RMLValue.List])

/-- `rml_list`: `(` … `)` around `many0(rml_value)`. -/
def rml_listF (fuel : ℕ) : Parser RMLValue :=
  mapP (delimitedP (sce (charP '(')) (many0 (rml_valueF fuel)) (sce (charP ')')))
    RMLValue.List

theorem rml_valueF_succ (fuel : ℕ) :
    rml_valueF (fuel + 1) =
      sce (altL [rml_float, rml_number, rml_symbol, rml_string, rml_listF fuel]) := rfl

/-- `rml_value` (the public entry, also used by `read_line_buffer`). -/
def rml_value : Parser RMLValue := fun input =>
  rml_valueF (input.length + 1) input

/-! ### Instruction parsers (`src/parser.rs`) -/

/-- `rml_const`: `(const <value>)`. -/
def rml_constF (fuel : ℕ) : Parser RMLNode :=
  mapP
    (delimitedP (sce (charP '('))
      (precededP (sce (tagP ['c', 'o', 'n', 's', 't'])) (rml_valueF fuel))
      (sce (charP ')')))
    RMLNode.Constant

/-- `rml_reg`: `(reg <name>)`. -/
def rml_reg : Parser RMLNode :=
  mapP
    (delimitedP (sce (charP '('))
      (precededP (sce (tagP ['r', 'e', 'g'])) valid_symbol)
      (sce (charP ')')))
    (fun s => RMLNode.Reg (String.mk s))

/-- `rml_label`: `(label <name>)`. -/
def rml_label : Parser RMLNode :=
  mapP
    (delimitedP (sce (charP '('))
      (precededP (sce (tagP ['l', 'a', 'b', 'e', 'l'])) valid_symbol)
      (sce (charP ')')))
    (fun n => RMLNode.Label (String.mk n))

/-- `rml_branch`: `(branch (label <name>))`. -/
def rml_branch : Parser RMLNode :=
  mapP
    (delimitedP (sce (charP '('))
      (precededP (sce (tagP ['b', 'r', 'a', 'n', 'c', 'h'])) rml_label)
      (sce (charP ')')))
    RMLNode.Branch

/-- `rml_goto`: `(goto (label <name>))` or `(goto (reg <name>))`. -/
def rml_goto : Parser RMLNode :=
  mapP
    (delimitedP (sce (charP '('))
      (precededP (sce (tagP ['g', 'o', 't', 'o'])) (altL [rml_label, rml_reg]))
      (sce (charP ')')))
    RMLNode.GotoLabel

/-- `operation_name`: `(op <name>)`. -/
def operation_name : Parser (List Char) :=
  delimitedP (sce (charP '('))
    (precededP (sce (tagP ['o', 'p'])) valid_symbol)
    (sce (charP ')'))

/-- `operation_arg`: a `(reg …)` or `(const …)` argument. -/
def operation_argF (fuel : ℕ) : Parser RMLNode :=
  sce (altL [rml_constF fuel, rml_reg])

/-- `operation`: `(op <name>) <arg>*`. -/
def operationF (fuel : ℕ) : Parser RMLNode :=
  mapP (pairP operation_name (many0 (operation_argF fuel)))
    (fun x => RMLNode.Operation (String.mk x.1) x.2)

/-- `rml_apply_operation`: `(test …)` or `(perform …)`. -/
def rml_apply_operationF (fuel : ℕ) : Parser RMLNode :=
  mapP
    (delimitedP (sce (charP '('))
      (pairP
        (sce (altL [tagP ['t', 'e', 's', 't'], tagP ['p', 'e', 'r', 'f', 'o', 'r', 'm']]))
        (operationF fuel))
      (sce (charP ')')))
    (fun x =>
      if x.1 = ['t', 'e', 's', 't'] then RMLNode.TestOp x.2
      else RMLNode.PerformOp x.2)

/-- `rml_save_and_restore`: `(save <reg>)` or `(restore <reg>)`. -/
def rml_save_and_restore : Parser RMLNode :=
  mapP
    (delimitedP (sce (charP '('))
      (pairP
        (sce (altL [tagP ['s', 'a', 'v', 'e'], tagP ['r', 'e', 's', 't', 'o', 'r', 'e']]))
        valid_symbol)
      (sce (charP ')')))
    (fun x =>
      if x.1 = ['r', 'e', 's', 't', 'o', 'r', 'e'] then RMLNode.Restore (String.mk x.2)
      else RMLNode.Save (String.mk x.2))

/-- `rml_assign`: `(assign <reg> (reg …)|(const …)|(label …)|(op …) <args>)`. -/
def rml_assignF (fuel : ℕ) : Parser RMLNode :=
  mapP
    (delimitedP (sce (charP '('))
      (precededP (sce (tagP ['a', 's', 's', 'i', 'g', 'n']))
        (pairP (sce valid_symbol)
          (altL [rml_constF fuel, rml_reg, rml_label, operationF fuel])))
      (sce (charP ')')))
    (fun x => RMLNode.Assignment (String.mk x.1) x.2)

/-- The fallback arm of `rml_instruction`: the closure over `rml_symbol`'s
output (its `List` arm and the `unreachable!()` default are dead, because
`rml_symbol` only produces `Symbol`). -/
def symbolFallback (v : RMLValue) : RMLNode :=
  match v with
  | RMLValue.Symbol s => RMLNode.Symbol s
  | RMLValue.List v => RMLNode.List v
  | _ => RMLNode.Symbol ""

/-- `rml_instruction`: the parenthesised instruction forms, with
`or_else` (catching `Error` and `Failure` alike) falling back to a bare
symbol. -/
def rml_instructionF (fuel : ℕ) : Parser RMLNode := fun input =>
  match
    sce (altL [rml_constF fuel, rml_label, rml_reg, rml_branch, rml_goto,
      rml_save_and_restore, rml_apply_operationF fuel, rml_assignF fuel]) input
  with
  | .ok r => .ok r
  | .error _ => mapP (sce rml_symbol) symbolFallback input

/-- `rml_instructions`: `(` … `)` around `many0(rml_instruction)`. -/
def rml_instructionsF (fuel : ℕ) : Parser (List RMLNode) :=
  delimitedP (sce (charP '(')) (many0 (rml_instructionF fuel)) (sce (charP ')'))

/-- `parse` from `src/parser.rs`: an all-consuming run of either a
parenthesised instruction sequence or a single instruction, unwrapping the
`nom` error layer. -/
def parse (s : String) : Except RMLParseError (List RMLNode) :=
  let input := s.data
  let fuel := input.length + 1
  match
    all_consuming
      (altL [rml_instructionsF fuel, mapP (rml_instructionF fuel) (fun n => [n])])
      input
  with
  | .ok (_, result) => .ok result
  | .error (.err e) => .error e
  | .error (.failure e) => .error e

/-! ## `assemble` over controller text (`src/assemble.rs`) and
`make_machine` (`src/lib.rs`) -/

/-- `assemble`: parse the controller text (`unwrap`, i.e. `none` here if
parsing fails) and split the nodes into instructions and the label map. -/
def assemble (controller_text : String) :
    Option (Except String (List RMLNode × List (String × List RMLNode))) :=
  match parse controller_text with
  | .ok nodes => some (assembleGo ⟨[], [], ""⟩ nodes)
  | .error _ => none

/-- The register-allocation loop of `make_machine`. -/
def allocateAll : Machine → List String → Except MachineError Machine
  | m, [] => .ok m
  | m, name :: rest => do
    let (_, m) ← m.allocate_register name
    allocateAll m rest

/-- `make_machine` from `src/lib.rs`.  The `read` procedure reads stdin in
the source; its behaviour is passed in as `readFn`.  `print` writes to
stdout and returns `()`, i.e. `Value::Nil`. -/
def make_machine (register_names : List String)
    (procedures : List (String × (List Value → Except MachineError Value)))
    (readFn : List Value → Except MachineError Value)
    (controller_text : String) : Option (Except MachineError Machine) :=
  match allocateAll Machine.new register_names with
  | .error e => some (.error e)
  | .ok m =>
    let builtins :=
      alistInsert (alistInsert m.the_ops "read" readFn) "print"
        (fun _ => .ok Value.Nil)
    let installed := procedures.foldl (fun t p => alistInsert t p.1 p.2) builtins
    let m := { m with the_ops := installed }
    match assemble controller_text with
    | none => none
    | some (.error msg) => some (.error (.UnableAssemble msg))
    | some (.ok (insts, labels)) =>
      some (.ok { m with the_inst_seq := insts, the_labels := labels })

/-! ## `Procedure` (`src/machine/procedure.rs`) -/

/-- `struct Procedure`: name, held function, and minimum arity. -/
structure Procedure : Type where
  name : String
  proc : List Value → Value
  min_arg_num : ℕ

/-- `Procedure::new`. -/
def Procedure.new (name : String) (num : ℕ) (f : List Value → Value) : Procedure :=
  ⟨name, f, num⟩

/-- `Procedure::execute`: `ArgsTooFew` when fewer than `min_arg_num`
arguments arrive, otherwise the held function's result. -/
def Procedure.execute (p : Procedure) (args : List Value) : Except MachineError Value :=
  if args.length < p.min_arg_num then
    .error (.ProcedureError (.ArgsTooFew p.name p.min_arg_num args.length))
  else
    .ok (p.proc args)

/-! ## `impl fmt::Display` for `RMLValue` / `RMLNode` (`src/parser.rs`)

Rust renders an `i32` as plain decimal and an `f64` via the shortest
decimal that rounds back to it — in particular an integral `f64` such as
`42.0` prints as `42`, with no fractional part. -/

/-- Decimal digits of a natural number (the standard algorithm; fuel
`n + 1` always suffices since `n / 10 < n` for `n ≥ 10`). -/
def natDigitsGo : ℕ → ℕ → List Char → List Char
  | 0, _, acc => acc
  | fuel + 1, n, acc =>
    if n < 10 then Char.ofNat (48 + n) :: acc
    else natDigitsGo fuel (n / 10) (Char.ofNat (48 + n % 10) :: acc)

/-- Decimal digit string of a natural number. -/
def natDigits (n : ℕ) : List Char := natDigitsGo (n + 1) n []

/-- Rust's `Display` for `i32`. -/
def intToString (n : ℤ) : String :=
  if n < 0 then "-" ++ String.mk (natDigits n.natAbs)
  else String.mk (natDigits n.natAbs)

/-- Fractional-digit expansion of `num / den` (long division; the fuel
covers every exactly-representable decimal an `f64` can shortest-print). -/
def fracDigitsGo : ℕ → ℕ → ℕ → List Char
  | 0, _, _ => []
  | fuel + 1, num, den =>
    if num = 0 then []
    else Char.ofNat (48 + num * 10 / den) :: fracDigitsGo fuel (num * 10 % den) den

/-- Rust's `Display` for `f64` on the rational model: an integral value
prints with no decimal point (`42.0` → `"42"`), otherwise integer part,
`.`, and the exact fractional expansion. -/
def displayF64 (q : ℚ) : String :=
  let sign := if q < 0 then "-" else ""
  let a := q.num.natAbs
  if q.den = 1 then sign ++ String.mk (natDigits a)
  else
    sign ++ String.mk (natDigits (a / q.den)) ++ "." ++
      String.mk (fracDigitsGo 1100 (a % q.den) q.den)

mutual

/-- `impl fmt::Display for RMLValue`. -/
def displayRMLValue : RMLValue → String
  | RMLValue.Float v => displayF64 v
  | RMLValue.Num v => intToString v
  | RMLValue.List v => "(" ++ String.intercalate " " (displayRMLValues v) ++ ")"
  | RMLValue.Str v => "\"" ++ v ++ "\""
  | RMLValue.Symbol v => v

/-- The element-wise rendering inside `Display for RMLValue`'s `List` arm. -/
def displayRMLValues : List RMLValue → List String
  | [] => []
  | v :: rest => displayRMLValue v :: displayRMLValues rest

end

mutual

/-- `impl fmt::Display for RMLNode`. -/
def displayRMLNode : RMLNode → String
  | RMLNode.Assignment reg val => "(assign " ++ reg ++ " " ++ displayRMLNode val ++ ")"
  | RMLNode.Branch label => "(branch " ++ displayRMLNode label ++ ")"
  | RMLNode.Constant value => "(const " ++ displayRMLValue value ++ ")"
  | RMLNode.GotoLabel label => "(goto " ++ displayRMLNode label ++ ")"
  | RMLNode.Label label => "(label " ++ label ++ ")"
  | RMLNode.List v => "(" ++ String.intercalate " " (displayRMLValues v) ++ ")"
  | RMLNode.Operation op_name args =>
    "(op " ++ op_name ++ ") " ++ String.intercalate " " (displayRMLNodes args)
  | RMLNode.PerformOp op => "(perform " ++ displayRMLNode op ++ ")"
  | RMLNode.Reg reg => "(reg " ++ reg ++ ")"
  | RMLNode.Restore reg => "(restore " ++ reg ++ ")"
  | RMLNode.Save reg => "(save " ++ reg ++ ")"
  | RMLNode.TestOp op => "(test " ++ displayRMLNode op ++ ")"
  | RMLNode.Symbol v => v

/-- The element-wise rendering inside `Display for RMLNode`'s argument
lists. -/
def displayRMLNodes : List RMLNode → List String
  | [] => []
  | v :: rest => displayRMLNode v :: displayRMLNodes rest

end

/-! ## Helper lemmas shared by the claim theorems -/

theorem alistContains_insert {α : Type} (m : List (String × α)) (k k' : String) (v : α)
    (h : alistContains m k' = true) : alistContains (alistInsert m k v) k' = true := by
  by_cases hk : k = k'
  · subst hk; exact alistContains_insert_self m k v
  · simpa [alistContains, alistLookup_insert_other m k k' v hk] using h

theorem alistContains_lookup {α : Type} (m : List (String × α)) (k : String)
    (h : alistContains m k = true) : ∃ v, alistLookup m k = some v := by
  unfold alistContains at h
  cases hl : alistLookup m k with
  | none => rw [hl] at h; simp at h
  | some v => exact ⟨v, rfl⟩

/-- The guard of `allocate_register` is unsatisfiable (`name` cannot equal
both `"pc"` and `"flag"`), so allocation always succeeds. -/
theorem allocate_register_ok (m : Machine) (name : String) :
    m.allocate_register name =
      .ok ("register-allocated",
        { m with register_table := alistInsert m.register_table name unassigned }) := by
  unfold Machine.allocate_register
  rw [if_neg]
  rintro ⟨hpc, hflag, -⟩
  rw [hpc] at hflag
  exact absurd hflag (by decide)

theorem allocateAll_ok (names : List String) :
    ∀ m : Machine, ∃ m' : Machine, allocateAll m names = .ok m' := by
  induction names with
  | nil => intro m; exact ⟨m, rfl⟩
  | cons n rest ih =>
    intro m
    obtain ⟨m', hm'⟩ := ih { m with register_table := alistInsert m.register_table n unassigned }
    exact ⟨m', by rw [allocateAll, allocate_register_ok]; exact hm'⟩

/-! ## Claim C6 -/

/-- C6 (code-bug evaluation): allocating an already-existing register does
**not** fail with `RegisterError::AllocateFailure` — the guard
`name.eq("pc") && name.eq("flag") && contains` is unsatisfiable, so the
second allocation succeeds and resets the register's content (here from
`Num 1` back to `Symbol("*unassigned*")`), contradicting the machine's own
`test_allocate_register` test. -/
theorem C6_allocate_existing_register_succeeds_and_resets :
    (Machine.new.allocate_register "test" =
      .ok ("register-allocated",
        { Machine.new with register_table := [("test", unassigned)] })) ∧
    (({ Machine.new with register_table := [("test", unassigned)] }).set_register_content
        "test" (Value.Num 1) =
      .ok { Machine.new with register_table := [("test", Value.Num 1)] }) ∧
    (({ Machine.new with register_table := [("test", Value.Num 1)] }).allocate_register
        "test" =
      .ok ("register-allocated",
        { Machine.new with register_table := [("test", unassigned)] })) ∧
    unassigned ≠ Value.Num 1 := by
  refine ⟨rfl, rfl, rfl, ?_⟩
  intro h
  exact Value.noConfusion h

/-! ## Claim C8 -/

/-- C8: `Procedure::execute` fails with `ArgsTooFew` (reporting the
expected and received counts) exactly when fewer than `min_arg_num`
arguments are supplied, and otherwise applies the held function to the
argument list. -/
theorem C8_procedure_execute_arity (p : Procedure) (args : List Value) :
    (args.length < p.min_arg_num →
      p.execute args =
        .error (.ProcedureError (.ArgsTooFew p.name p.min_arg_num args.length))) ∧
    (p.min_arg_num ≤ args.length → p.execute args = .ok (p.proc args)) := by
  constructor
  · intro h
    simp [Procedure.execute, h]
  · intro h
    simp [Procedure.execute, Nat.not_lt.mpr h]

/-- Witness for C8, at a binary procedure: zero arguments yield
`ArgsTooFew`, two arguments yield the held function's result. -/
theorem C8_procedure_execute_arity_witness :
    ((Procedure.new "add" 2 (fun _ => Value.Num 7)).execute [] =
      .error (.ProcedureError (.ArgsTooFew "add" 2 0))) ∧
    ((Procedure.new "add" 2 (fun _ => Value.Num 7)).execute [Value.Num 1, Value.Num 2] =
      .ok (Value.Num 7)) :=
  ⟨(C8_procedure_execute_arity (Procedure.new "add" 2 (fun _ => Value.Num 7)) []).1
      (by decide),
   (C8_procedure_execute_arity (Procedure.new "add" 2 (fun _ => Value.Num 7))
      [Value.Num 1, Value.Num 2]).2 (by decide)⟩

/-! ## Claim C10 -/

/-- C10: a `Branch` whose target label is absent from the label table fails
with `UnknownLabel` whatever the `flag` register holds — the label is
looked up before `flag` is consulted. -/
theorem C10_branch_unknown_label (m : Machine) (label_name : String) (flag : Value)
    (h : alistLookup m.the_labels label_name = none) :
    ({ m with flag := flag }).execute_branch (RMLNode.Label label_name) =
      .error (.UnknownLabel label_name) := by
  simp [Machine.execute_branch, Machine.extract_label_name, bind, Except.bind, h]

/-- Witness for C10: a fresh machine, with `flag` even set to
`Boolean(true)`, fails a branch to the absent label `"missing"`. -/
theorem C10_branch_unknown_label_witness :
    ({ Machine.new with flag := Value.Boolean true }).execute_branch
        (RMLNode.Label "missing") =
      .error (.UnknownLabel "missing") :=
  C10_branch_unknown_label Machine.new "missing" (Value.Boolean true) rfl

/-! ## Claim C5 -/

/-- A machine about to execute a `Branch` while `flag` still holds the
initial `Symbol("*unassigned*")`: label `"x"` is present, `pc` is `Num 0`. -/
def C5machine : Machine :=
  { pc := Value.Num 0
    flag := unassigned
    stack := Stack.new
    the_inst_seq := [RMLNode.Branch (RMLNode.Label "x")]
    the_labels := [("x", [])]
    the_ops := []
    register_table := [] }

/-- C5 counterexample: with a non-`Boolean` flag (`Symbol "*unassigned*"`)
and an existing target label, `execute_branch` does **not** fail with a
`TypeError` — it succeeds and merely advances `pc`. -/
theorem C5_counterexample :
    C5machine.execute_branch (RMLNode.Label "x") =
      .ok { C5machine with pc := Value.Num 1 } ∧
    ∀ te : TypeError,
      C5machine.execute_branch (RMLNode.Label "x") ≠ .error (.TypeError te) := by
  have h : C5machine.execute_branch (RMLNode.Label "x") =
      .ok { C5machine with pc := Value.Num 1 } := by
    simp [C5machine, Machine.execute_branch, Machine.extract_label_name,
      alistLookup, bind, Except.bind, Machine.advance_pc, unassigned]
  exact ⟨h, fun te hte => Except.noConfusion (h ▸ hte)⟩

/-- C5 amended: a `Branch` to an existing label with `flag` holding
anything other than `Boolean(true)` — non-`Boolean` contents included —
is simply not taken: execution continues via `advance_pc`, with no
`TypeError`. -/
theorem C5_branch_non_boolean_flag_advances (m : Machine) (l : String)
    (insts : List RMLNode)
    (hl : alistLookup m.the_labels l = some insts)
    (hflag : m.flag ≠ Value.Boolean true) :
    m.execute_branch (RMLNode.Label l) = m.advance_pc := by
  unfold Machine.execute_branch Machine.extract_label_name
  simp only [bind, Except.bind, hl]

/-- Witness for C5's amended claim, at `C5machine`. -/
theorem C5_branch_non_boolean_flag_advances_witness :
    C5machine.execute_branch (RMLNode.Label "x") = C5machine.advance_pc :=
  C5_branch_non_boolean_flag_advances C5machine "x" [] rfl
    (fun h => Value.noConfusion h)

/-! ## Claim C3 -/

/-- A machine with one user register `"a"` about to execute an assignment. -/
def C3machine : Machine :=
  { pc := Value.Num 0
    flag := unassigned
    stack := Stack.new
    the_inst_seq := [RMLNode.Assignment "a" (RMLNode.Constant (RMLValue.List [RMLValue.Num 1]))]
    the_labels := []
    the_ops := []
    register_table := [("a", unassigned)] }

/-- C3 counterexample: assigning the parsed one-element list literal
`(1)` stores a `Value::List` of length **two** — the converted element
followed by a `Nil` terminator — not a one-element list. -/
theorem C3_counterexample :
    C3machine.execute_assignment "a"
        (RMLNode.Constant (RMLValue.List [RMLValue.Num 1])) =
      .ok { C3machine with
        register_table := [("a", Value.List [Value.Num 1, Value.Nil])]
        pc := Value.Num 1 } ∧
    some (Value.List [Value.Num 1, Value.Nil]) ≠ some (Value.List [Value.Num 1]) ∧
    ([Value.Num 1, Value.Nil] : List Value).length = 1 + 1 := by
  refine ⟨?_, ?_, rfl⟩
  · have hconv : rmlvalue_to_value (RMLValue.List [RMLValue.Num 1]) =
        Value.List [Value.Num 1, Value.Nil] := rfl
    simp [C3machine, Machine.execute_assignment, Machine.set_register_content,
      alistContains, alistLookup, alistInsert, hconv, bind, Except.bind,
      Machine.advance_pc, unassigned]
  · intro h
    simp at h

/-- C3 amended: executing an `Assignment` whose right-hand side is a
`Constant` list literal of `n` elements stores the element-wise conversion
**plus a trailing `Value::Nil`**, a `Value::List` of length `n + 1`. -/
theorem C3_assign_const_list_appends_nil (m : Machine) (r : String)
    (l : List RMLValue) (q : ℚ)
    (hr : alistContains m.register_table r = true)
    (hpc : m.pc = Value.Num q) :
    m.execute_assignment r (RMLNode.Constant (RMLValue.List l)) =
      .ok { m with
        register_table :=
          alistInsert m.register_table r
            (Value.List (rmlvalues_to_values l ++ [Value.Nil]))
        pc := Value.Num (q + 1) } ∧
    (rmlvalues_to_values l ++ [Value.Nil]).length = l.length + 1 := by
  constructor
  · have hconv : rmlvalue_to_value (RMLValue.List l) =
        Value.List (rmlvalues_to_values l ++ [Value.Nil]) := by
      rw [rmlvalue_to_value]
    unfold Machine.execute_assignment Machine.set_register_content
    simp only [hconv, bind, Except.bind, hr, if_pos]
    unfold Machine.advance_pc
    simp [hpc]
  · simp [rmlvalues_to_values_length]

/-- Witness for C3's amended claim, at `C3machine`. -/
theorem C3_assign_const_list_appends_nil_witness :
    C3machine.execute_assignment "a"
        (RMLNode.Constant (RMLValue.List [RMLValue.Num 1])) =
      .ok { C3machine with
        register_table :=
          alistInsert C3machine.register_table "a"
            (Value.List (rmlvalues_to_values [RMLValue.Num 1] ++ [Value.Nil]))
        pc := Value.Num (0 + 1) } ∧
    (rmlvalues_to_values [RMLValue.Num 1] ++ [Value.Nil]).length = 1 + 1 :=
  C3_assign_const_list_appends_nil C3machine "a" [RMLValue.Num 1] 0 rfl rfl

/-! ## Claim C9 -/

theorem takeWhile_append_all {p : Char → Bool} (ds rest : List Char)
    (h : ds.all p = true) (hrest : ∀ c, rest.head? = some c → ¬ p c) :
    (ds ++ rest).takeWhile p = ds ∧ (ds ++ rest).dropWhile p = rest := by
  induction ds with
  | nil =>
    simp only [List.nil_append]
    cases rest with
    | nil => simp
    | cons c r =>
      have := hrest c rfl
      simp [List.takeWhile, List.dropWhile, this]
  | cons d ds' ih =>
    simp only [List.all_cons, Bool.and_eq_true] at h
    have ih' := ih h.2
    simp [List.takeWhile, List.dropWhile, h.1, ih'.1, ih'.2]

theorem isDigit_ne_dash {c : Char} (h : c.isDigit = true) : c ≠ '-' := by
  intro he; subst he; exact absurd h (by decide)

theorem isDigit_ne_plus {c : Char} (h : c.isDigit = true) : c ≠ '+' := by
  intro he; subst he; exact absurd h (by decide)

/-- `rml_number` on a maximal digit token: `recognize` consumes the
optional sign and the digit run. -/
theorem rml_number_recognize (sign ds rest : List Char)
    (hsign : sign = [] ∨ sign = ['-'])
    (hne : ds ≠ []) (hdig : ds.all Char.isDigit = true)
    (hrest : ∀ c, rest.head? = some c → ¬ c.isDigit) :
    recognizeP (pairP (optP (tagP ['-'])) digit1) (sign ++ (ds ++ rest)) =
      .ok (rest, sign ++ ds) := by
  obtain ⟨d, ds', rfl⟩ : ∃ d ds', ds = d :: ds' := by
    cases ds with
    | nil => exact absurd rfl hne
    | cons d ds' => exact ⟨d, ds', rfl⟩
  have hd : d.isDigit = true := by
    simp only [List.all_cons, Bool.and_eq_true] at hdig; exact hdig.1
  have hdash := isDigit_ne_dash hd
  have htake := takeWhile_append_all (d :: ds') rest hdig hrest
  have hdigit1 : digit1 ((d :: ds') ++ rest) = .ok (rest, d :: ds') := by
    unfold digit1
    rw [htake.1, htake.2]
    simp
  rcases hsign with hs | hs <;> subst hs
  · have htag : tagP ['-'] ((d :: ds') ++ rest) =
        .error (.err (.ParseFailure ((d :: ds') ++ rest) .tagK)) := by
      unfold tagP
      rw [if_neg (by simp [List.isPrefixOf, Ne.symm hdash])]
    have hrec := recognizeP_of_ok (pairP_of_ok (optP_of_err htag) hdigit1)
    have hconsumed :
        ((d :: ds') ++ rest).take (((d :: ds') ++ rest).length - rest.length) =
          d :: ds' := by
      have hlen : ((d :: ds') ++ rest).length - rest.length = (d :: ds').length := by
        simp only [List.length_append, List.length_cons]
        omega
      rw [hlen, List.take_left]
    rw [hconsumed] at hrec
    simpa using hrec
  · have htag : tagP ['-'] (['-'] ++ ((d :: ds') ++ rest)) =
        .ok ((d :: ds') ++ rest, ['-']) :=
      tagP_of_append
    have hrec := recognizeP_of_ok (pairP_of_ok (optP_of_ok htag) hdigit1)
    have hshape : (['-'] ++ ((d :: ds') ++ rest)) = ('-' :: d :: ds') ++ rest := by
      simp
    have hconsumed :
        (['-'] ++ ((d :: ds') ++ rest)).take
            ((['-'] ++ ((d :: ds') ++ rest)).length - rest.length) =
          '-' :: d :: ds' := by
      rw [hshape]
      have hlen : (('-' :: d :: ds') ++ rest).length - rest.length =
          ('-' :: d :: ds').length := by
        simp only [List.length_append, List.length_cons]
        omega
      rw [hlen, List.take_left]
    rw [hconsumed] at hrec
    simpa using hrec

/-- `rml_number` succeeds with the parsed `i32` on an in-range token. -/
theorem rml_number_token_ok (sign ds rest : List Char) (n : ℤ)
    (hsign : sign = [] ∨ sign = ['-'])
    (hne : ds ≠ []) (hdig : ds.all Char.isDigit = true)
    (hrest : ∀ c, rest.head? = some c → ¬ c.isDigit)
    (hparse : rustParseI32 (sign ++ ds) = some n) :
    rml_number (sign ++ (ds ++ rest)) = .ok (rest, RMLValue.Num n) := by
  unfold rml_number
  rw [rml_number_recognize sign ds rest hsign hne hdig hrest]
  simp [hparse]

/-- `rml_number` fails with `Failure(BadNum)` on an out-of-range token. -/
theorem rml_number_token_none (sign ds rest : List Char)
    (hsign : sign = [] ∨ sign = ['-'])
    (hne : ds ≠ []) (hdig : ds.all Char.isDigit = true)
    (hrest : ∀ c, rest.head? = some c → ¬ c.isDigit)
    (hparse : rustParseI32 (sign ++ ds) = none) :
    rml_number (sign ++ (ds ++ rest)) = .error (.failure .BadNum) := by
  unfold rml_number
  rw [rml_number_recognize sign ds rest hsign hne hdig hrest]
  simp [hparse]

/-- `i32::from_str` on an unsigned digit run. -/
theorem rustParseI32_digits (ds : List Char) (hne : ds ≠ [])
    (hdig : ds.all Char.isDigit = true) :
    rustParseI32 ds =
      if -(2 ^ 31) ≤ digitsVal ds ∧ digitsVal ds ≤ 2 ^ 31 - 1 then some (digitsVal ds)
      else none := by
  obtain ⟨d, ds', rfl⟩ : ∃ d ds', ds = d :: ds' := by
    cases ds with
    | nil => exact absurd rfl hne
    | cons d ds' => exact ⟨d, ds', rfl⟩
  have hd : d.isDigit = true := by
    simp only [List.all_cons, Bool.and_eq_true] at hdig; exact hdig.1
  have hstrip : rustStripSign (d :: ds') = d :: ds' := by
    unfold rustStripSign
    rw [if_neg]
    simp [isDigit_ne_plus hd, isDigit_ne_dash hd]
  have hsg : rustSign (d :: ds') = 1 := by
    unfold rustSign
    rw [if_neg]
    simp [isDigit_ne_dash hd]
  unfold rustParseI32
  rw [hstrip, hsg]
  rw [if_neg (by simp [hdig])]
  simp only [one_mul]

/-- `i32::from_str` on `-` followed by a digit run. -/
theorem rustParseI32_neg_digits (ds : List Char)
    (hne : ds ≠ []) (hdig : ds.all Char.isDigit = true) :
    rustParseI32 ('-' :: ds) =
      if -(2 ^ 31) ≤ -digitsVal ds ∧ -digitsVal ds ≤ 2 ^ 31 - 1 then
        some (-digitsVal ds)
      else none := by
  have hstrip : rustStripSign ('-' :: ds) = ds := by
    unfold rustStripSign
    rw [if_pos]
    · rfl
    · simp
  have hsg : rustSign ('-' :: ds) = -1 := by
    unfold rustSign
    simp
  unfold rustParseI32
  rw [hstrip, hsg]
  rw [if_neg (by simp [hne, hdig])]
  simp only [neg_one_mul]

/-- C9: a token of an optional minus sign and a maximal digit run whose
value lies outside the `i32` range makes `rml_number` fail with
`nom::Err::Failure(RMLParseError::BadNum)`. -/
theorem C9_rml_number_overflow (sign ds rest : List Char)
    (hsign : sign = [] ∨ sign = ['-'])
    (hne : ds ≠ []) (hdig : ds.all Char.isDigit = true)
    (hrest : ∀ c, rest.head? = some c → ¬ c.isDigit)
    (hrange :
      ¬ (-(2 ^ 31) ≤ (if sign = ['-'] then -digitsVal ds else digitsVal ds) ∧
        (if sign = ['-'] then -digitsVal ds else digitsVal ds) ≤ 2 ^ 31 - 1)) :
    rml_number (sign ++ (ds ++ rest)) = .error (.failure .BadNum) := by
  apply rml_number_token_none sign ds rest hsign hne hdig hrest
  rcases hsign with hs | hs <;> subst hs
  · rw [List.nil_append, rustParseI32_digits ds hne hdig]
    rw [if_neg (by simpa using hrange)]
  · show rustParseI32 ('-' :: ds) = none
    rw [rustParseI32_neg_digits ds hne hdig]
    rw [if_neg (by simpa using hrange)]

/-- Witness for C9: `"2147483648"` (one above `i32::MAX`) fails with
`BadNum`. -/
theorem C9_rml_number_overflow_witness :
    rml_number ("2147483648".data) = .error (.failure .BadNum) := by
  have h := C9_rml_number_overflow []
    ['2', '1', '4', '7', '4', '8', '3', '6', '4', '8'] []
    (Or.inl rfl) (by decide) (by decide) (by intro c hc; simp at hc) (by decide)
  simpa using h

/-! ## Claim C2 -/

theorem set_register_content_pc {m m' : Machine} {r : String} {v : Value}
    (h : m.set_register_content r v = .ok m') : m'.pc = m.pc := by
  unfold Machine.set_register_content at h
  by_cases hc : alistContains m.register_table r = true
  · rw [if_pos hc] at h
    obtain rfl : _ = m' := Except.ok.inj h
    rfl
  · rw [if_neg hc] at h
    exact Except.noConfusion h

theorem call_operation_pc {m m' : Machine} {name : String} {args : List Value} {v : Value}
    (h : m.call_operation name args = .ok (v, m')) : m'.pc = m.pc := by
  unfold Machine.call_operation at h
  by_cases h1 : name = "initialize-stack"
  · rw [if_pos h1] at h
    obtain ⟨-, rfl⟩ := Prod.mk.inj (Except.ok.inj h)
    rfl
  · rw [if_neg h1] at h
    by_cases h2 : name = "print-stack-statistics"
    · rw [if_pos h2] at h
      obtain ⟨-, rfl⟩ := Prod.mk.inj (Except.ok.inj h)
      rfl
    · rw [if_neg h2] at h
      cases hop : alistLookup m.the_ops name with
      | none => simp only [hop] at h; exact Except.noConfusion h
      | some op =>
        simp only [hop] at h
        cases hres : op args with
        | error e => simp only [hres, Except.map] at h; exact Except.noConfusion h
        | ok v' =>
          simp only [hres, Except.map, Except.ok.injEq, Prod.mk.injEq] at h
          rw [← h.2]

theorem perform_operation_pc {m m' : Machine} {name : String} {args : List RMLNode}
    {v : Value} (h : m.perform_operation name args = .ok (v, m')) : m'.pc = m.pc := by
  unfold Machine.perform_operation at h
  simp only [bind, Except.bind] at h
  cases hargs : m.eval_op_args args with
  | error e => simp only [hargs] at h; exact Except.noConfusion h
  | ok op_args =>
    simp only [hargs] at h
    exact call_operation_pc h

theorem advance_pc_shape {m m' : Machine} {q : ℚ}
    (hpc : m.pc = Value.Num q) (h : m.advance_pc = .ok m') :
    m'.pc = Value.Num (q + 1) := by
  unfold Machine.advance_pc at h
  rw [hpc] at h
  obtain rfl : _ = m' := Except.ok.inj h
  rfl

theorem execute_assignment_pc {m m' : Machine} {r : String} {op : RMLNode} {q : ℚ}
    (hpc : m.pc = Value.Num q)
    (h : m.execute_assignment r op = .ok m') : m'.pc = Value.Num (q + 1) := by
  unfold Machine.execute_assignment at h
  simp only [bind, Except.bind] at h
  cases op with
  | Reg name =>
    cases hget : m.get_register_content name with
    | error e => simp only [hget] at h; exact Except.noConfusion h
    | ok value =>
      simp only [hget] at h
      cases hset : m.set_register_content r value with
      | error e => simp only [hset] at h; exact Except.noConfusion h
      | ok m₁ =>
        simp only [hset] at h
        exact advance_pc_shape ((set_register_content_pc hset).trans hpc) h
  | Constant rv =>
    cases hset : m.set_register_content r (rmlvalue_to_value rv) with
    | error e => simp only [hset] at h; exact Except.noConfusion h
    | ok m₁ =>
      simp only [hset] at h
      exact advance_pc_shape ((set_register_content_pc hset).trans hpc) h
  | Label s =>
    cases hset : m.set_register_content r (Value.Symbol s) with
    | error e => simp only [hset] at h; exact Except.noConfusion h
    | ok m₁ =>
      simp only [hset] at h
      exact advance_pc_shape ((set_register_content_pc hset).trans hpc) h
  | Symbol s =>
    cases hset : m.set_register_content r (Value.Symbol s) with
    | error e => simp only [hset] at h; exact Except.noConfusion h
    | ok m₁ =>
      simp only [hset] at h
      exact advance_pc_shape ((set_register_content_pc hset).trans hpc) h
  | List l =>
    cases hset : m.set_register_content r (Value.List (rmlvalues_to_values l)) with
    | error e => simp only [hset] at h; exact Except.noConfusion h
    | ok m₁ =>
      simp only [hset] at h
      exact advance_pc_shape ((set_register_content_pc hset).trans hpc) h
  | Operation op_name args =>
    cases hperf : m.perform_operation op_name args with
    | error e => simp only [hperf] at h; exact Except.noConfusion h
    | ok vm =>
      obtain ⟨v, m₂⟩ := vm
      simp only [hperf] at h
      cases hset : m₂.set_register_content r v with
      | error e => simp only [hset] at h; exact Except.noConfusion h
      | ok m₁ =>
        simp only [hset] at h
        have hpc₂ : m₂.pc = Value.Num q := (perform_operation_pc hperf).trans hpc
        exact advance_pc_shape ((set_register_content_pc hset).trans hpc₂) h
  | Assignment a b => exact Except.noConfusion h
  | Branch a => exact Except.noConfusion h
  | GotoLabel a => exact Except.noConfusion h
  | PerformOp a => exact Except.noConfusion h
  | Save a => exact Except.noConfusion h
  | Restore a => exact Except.noConfusion h
  | TestOp a => exact Except.noConfusion h

theorem execute_branch_pc {m m' : Machine} {label : RMLNode} {q : ℚ}
    (hpc : m.pc = Value.Num q)
    (h : m.execute_branch label = .ok m') :
    m'.pc = Value.Num (q + 1) ∨ m'.pc = Value.Num 0 := by
  unfold Machine.execute_branch at h
  simp only [bind, Except.bind] at h
  cases hname : m.extract_label_name label with
  | error e => simp only [hname] at h; exact Except.noConfusion h
  | ok label_name =>
    simp only [hname] at h
    cases hl : alistLookup m.the_labels label_name with
    | none => simp only [hl] at h; exact Except.noConfusion h
    | some insts =>
      simp only [hl] at h
      cases hf : m.flag with
      | Boolean b =>
        cases b with
        | true =>
          simp only [hf] at h
          obtain rfl : _ = m' := Except.ok.inj h
          exact Or.inr rfl
        | false =>
          simp only [hf] at h
          exact Or.inl (advance_pc_shape hpc h)
      | Num a => simp only [hf] at h; exact Or.inl (advance_pc_shape hpc h)
      | Symbol a => simp only [hf] at h; exact Or.inl (advance_pc_shape hpc h)
      | String a => simp only [hf] at h; exact Or.inl (advance_pc_shape hpc h)
      | List a => simp only [hf] at h; exact Or.inl (advance_pc_shape hpc h)
      | Nil => simp only [hf] at h; exact Or.inl (advance_pc_shape hpc h)
      | Pointer a => simp only [hf] at h; exact Or.inl (advance_pc_shape hpc h)
      | Procedure a b => simp only [hf] at h; exact Or.inl (advance_pc_shape hpc h)

theorem execute_goto_pc {m m' : Machine} {label : RMLNode}
    (h : m.execute_goto label = .ok m') : m'.pc = Value.Num 0 := by
  unfold Machine.execute_goto at h
  simp only [bind, Except.bind] at h
  cases hname : m.extract_label_name label with
  | error e => simp only [hname] at h; exact Except.noConfusion h
  | ok label_name =>
    simp only [hname] at h
    cases hl : alistLookup m.the_labels label_name with
    | none => simp only [hl] at h; exact Except.noConfusion h
    | some insts =>
      simp only [hl] at h
      obtain rfl : _ = m' := Except.ok.inj h
      rfl

theorem execute_perform_pc {m m' : Machine} {op : RMLNode} {q : ℚ}
    (hpc : m.pc = Value.Num q)
    (h : m.execute_perform op = .ok m') : m'.pc = Value.Num (q + 1) := by
  unfold Machine.execute_perform at h
  cases op with
  | Operation op_name args =>
    simp only [bind, Except.bind] at h
    cases hperf : m.perform_operation op_name args with
    | error e => simp only [hperf] at h; exact Except.noConfusion h
    | ok vm =>
      obtain ⟨v, m₂⟩ := vm
      simp only [hperf] at h
      exact advance_pc_shape ((perform_operation_pc hperf).trans hpc) h
  | Assignment a b => exact Except.noConfusion h
  | Branch a => exact Except.noConfusion h
  | Constant a => exact Except.noConfusion h
  | GotoLabel a => exact Except.noConfusion h
  | Label a => exact Except.noConfusion h
  | List a => exact Except.noConfusion h
  | PerformOp a => exact Except.noConfusion h
  | Reg a => exact Except.noConfusion h
  | Restore a => exact Except.noConfusion h
  | Save a => exact Except.noConfusion h
  | Symbol a => exact Except.noConfusion h
  | TestOp a => exact Except.noConfusion h

theorem execute_restore_pc {m m' : Machine} {r : String} {q : ℚ}
    (hpc : m.pc = Value.Num q)
    (h : m.execute_restore r = .ok m') : m'.pc = Value.Num (q + 1) := by
  unfold Machine.execute_restore at h
  cases hpop : m.stack.pop with
  | error e => simp only [hpop] at h; exact Except.noConfusion h
  | ok vs =>
    obtain ⟨v, stack'⟩ := vs
    simp only [hpop, bind, Except.bind] at h
    cases hset : ({ m with stack := stack' }).set_register_content r v with
    | error e => simp only [hset] at h; exact Except.noConfusion h
    | ok m₁ =>
      simp only [hset] at h
      exact advance_pc_shape ((set_register_content_pc hset).trans hpc) h

theorem execute_save_pc {m m' : Machine} {r : String} {q : ℚ}
    (hpc : m.pc = Value.Num q)
    (h : m.execute_save r = .ok m') : m'.pc = Value.Num (q + 1) := by
  unfold Machine.execute_save at h
  simp only [bind, Except.bind] at h
  cases hget : m.get_register_content r with
  | error e => simp only [hget] at h; exact Except.noConfusion h
  | ok v =>
    simp only [hget] at h
    exact advance_pc_shape (hpc : ({ m with stack := m.stack.push v }).pc = _) h

theorem execute_test_pc {m m' : Machine} {op : RMLNode} {q : ℚ}
    (hpc : m.pc = Value.Num q)
    (h : m.execute_test op = .ok m') : m'.pc = Value.Num (q + 1) := by
  unfold Machine.execute_test at h
  cases op with
  | Operation op_name args =>
    simp only [bind, Except.bind] at h
    cases hperf : m.perform_operation op_name args with
    | error e => simp only [hperf] at h; exact Except.noConfusion h
    | ok vm =>
      obtain ⟨v, m₂⟩ := vm
      simp only [hperf] at h
      have hpc₂ : m₂.pc = Value.Num q := (perform_operation_pc hperf).trans hpc
      cases v with
      | Boolean b =>
        exact advance_pc_shape (hpc₂ : ({ m₂ with flag := Value.Boolean b }).pc = _) h
      | Num a => exact Except.noConfusion h
      | Symbol a => exact Except.noConfusion h
      | String a => exact Except.noConfusion h
      | List a => exact Except.noConfusion h
      | Nil => exact Except.noConfusion h
      | Pointer a => exact Except.noConfusion h
      | Procedure a b => exact Except.noConfusion h
  | Assignment a b => exact Except.noConfusion h
  | Branch a => exact Except.noConfusion h
  | Constant a => exact Except.noConfusion h
  | GotoLabel a => exact Except.noConfusion h
  | Label a => exact Except.noConfusion h
  | List a => exact Except.noConfusion h
  | PerformOp a => exact Except.noConfusion h
  | Reg a => exact Except.noConfusion h
  | Restore a => exact Except.noConfusion h
  | Save a => exact Except.noConfusion h
  | Symbol a => exact Except.noConfusion h
  | TestOp a => exact Except.noConfusion h

/-- C2 counterexample: `start()` sets `pc` to `Value::Num(0.0)` — not
`Pointer(0)` — and a machine whose `pc` holds that non-`Pointer` value runs
to `"Done"` without any register-content type error, so a successful run in
which `pc` never holds a `Pointer` exists. -/
theorem C2_counterexample :
    Machine.new.reset_pc.pc = Value.Num 0 ∧
    Machine.new.reset_pc.pc ≠ Value.Pointer 0 ∧
    Machine.new.startN 1 = some (.ok ("Done", Machine.new.reset_pc)) := by
  refine ⟨rfl, ?_, rfl⟩
  intro h
  exact Value.noConfusion h

/-- C2 amended: `start()` first sets `pc` to `Num(0)`; each loop iteration
converts `pc` to `usize` — accepting `Num` (cast), `Pointer`, and numeric
`Symbol` contents — and fails with
`RegisterError::UnmatchedContentType(pc, usize)` exactly when that
conversion fails; and from a `pc` holding `Num(n)` for a natural `n`,
every continuing step leaves `pc` holding `Num(j)` for some natural `j`
(so a run started by `start()` keeps `pc` a natural-valued `Num`
throughout). -/
theorem C2_pc_num_invariant :
    (∀ m : Machine, m.reset_pc.pc = Value.Num 0) ∧
    (∀ (m : Machine) (te : TypeError), usizeTryFromValue m.pc = .error te →
      m.execStep = .fail (.RegisterError (.UnmatchedContentType "pc" "usize"))) ∧
    (∀ (m m' : Machine) (n : ℕ), m.pc = Value.Num (n : ℚ) → m.execStep = .next m' →
      ∃ j : ℕ, m'.pc = Value.Num (j : ℚ)) := by
  refine ⟨fun m => rfl, ?_, ?_⟩
  · intro m te hte
    unfold Machine.execStep
    rw [hte]
  · intro m m' n hpc hstep
    unfold Machine.execStep at hstep
    cases husize : usizeTryFromValue m.pc with
    | error te => simp only [husize] at hstep; exact StepOut.noConfusion hstep
    | ok pointer =>
      simp only [husize] at hstep
      by_cases hend : pointer = m.the_inst_seq.length
      · rw [if_pos hend] at hstep; exact StepOut.noConfusion hstep
      · rw [if_neg hend] at hstep
        by_cases hover : pointer > m.the_inst_seq.length
        · rw [if_pos hover] at hstep; exact StepOut.noConfusion hstep
        · rw [if_neg hover] at hstep
          cases hget : m.the_inst_seq.get? pointer with
          | none => simp only [hget] at hstep; exact StepOut.noConfusion hstep
          | some inst =>
            simp only [hget] at hstep
            have hcast : ∀ {x : Machine}, x.pc = Value.Num ((n : ℚ) + 1) →
                ∃ j : ℕ, x.pc = Value.Num (j : ℚ) := by
              intro x hx
              refine ⟨n + 1, ?_⟩
              rw [hx]
              push_cast
              ring_nf
            cases inst with
            | Assignment reg_name op =>
              cases hres : m.execute_assignment reg_name op with
              | error e => simp only [hres] at hstep; exact StepOut.noConfusion hstep
              | ok m₁ =>
                simp only [hres, StepOut.next.injEq] at hstep
                subst hstep
                exact hcast (execute_assignment_pc hpc hres)
            | Branch label =>
              cases hres : m.execute_branch label with
              | error e => simp only [hres] at hstep; exact StepOut.noConfusion hstep
              | ok m₁ =>
                simp only [hres, StepOut.next.injEq] at hstep
                subst hstep
                rcases execute_branch_pc hpc hres with h1 | h1
                · exact hcast h1
                · refine ⟨0, ?_⟩
                  rw [h1]
                  norm_num
            | GotoLabel label =>
              cases hres : m.execute_goto label with
              | error e => simp only [hres] at hstep; exact StepOut.noConfusion hstep
              | ok m₁ =>
                simp only [hres, StepOut.next.injEq] at hstep
                subst hstep
                refine ⟨0, ?_⟩
                rw [execute_goto_pc hres]
                norm_num
            | PerformOp op =>
              cases hres : m.execute_perform op with
              | error e => simp only [hres] at hstep; exact StepOut.noConfusion hstep
              | ok m₁ =>
                simp only [hres, StepOut.next.injEq] at hstep
                subst hstep
                exact hcast (execute_perform_pc hpc hres)
            | Restore reg_name =>
              cases hres : m.execute_restore reg_name with
              | error e => simp only [hres] at hstep; exact StepOut.noConfusion hstep
              | ok m₁ =>
                simp only [hres, StepOut.next.injEq] at hstep
                subst hstep
                exact hcast (execute_restore_pc hpc hres)
            | Save reg_name =>
              cases hres : m.execute_save reg_name with
              | error e => simp only [hres] at hstep; exact StepOut.noConfusion hstep
              | ok m₁ =>
                simp only [hres, StepOut.next.injEq] at hstep
                subst hstep
                exact hcast (execute_save_pc hpc hres)
            | TestOp op =>
              cases hres : m.execute_test op with
              | error e => simp only [hres] at hstep; exact StepOut.noConfusion hstep
              | ok m₁ =>
                simp only [hres, StepOut.next.injEq] at hstep
                subst hstep
                exact hcast (execute_test_pc hpc hres)
            | Constant a => exact StepOut.noConfusion hstep
            | Label a => exact StepOut.noConfusion hstep
            | List a => exact StepOut.noConfusion hstep
            | Operation a b => exact StepOut.noConfusion hstep
            | Reg a => exact StepOut.noConfusion hstep
            | Symbol a => exact StepOut.noConfusion hstep

/-- A machine with one register and one assignment instruction, used to
witness the continuing-step case of C2's amended claim. -/
def C2machine : Machine :=
  { pc := Value.Num 0
    flag := unassigned
    stack := Stack.new
    the_inst_seq := [RMLNode.Assignment "a" (RMLNode.Constant (RMLValue.Num 1))]
    the_labels := []
    the_ops := []
    register_table := [("a", unassigned)] }

/-- Witness for C2's amended claim: the reset machine, a machine whose
`pc` holds a `Boolean` (conversion fails), and a machine taking one
ordinary step. -/
theorem C2_pc_num_invariant_witness :
    Machine.new.reset_pc.pc = Value.Num 0 ∧
    ({ Machine.new with pc := Value.Boolean true }).execStep =
      .fail (.RegisterError (.UnmatchedContentType "pc" "usize")) ∧
    ∃ j : ℕ,
      ({ C2machine with
          register_table := [("a", Value.Num 1)]
          pc := Value.Num (0 + 1) }).pc = Value.Num (j : ℚ) := by
  refine ⟨C2_pc_num_invariant.1 Machine.new,
    C2_pc_num_invariant.2.1 { Machine.new with pc := Value.Boolean true }
      ⟨some "other", "Value::Num"⟩ rfl,
    C2_pc_num_invariant.2.2 C2machine
      { C2machine with
          register_table := [("a", Value.Num 1)]
          pc := Value.Num (0 + 1) } 0 (by norm_num [C2machine]) ?_⟩
  show Machine.execStep _ = _
  rfl

/-! ## Claim C1 -/

/-- C1 (code-bug evaluation): assembling the spec's own scenario
`(controller a (goto (label b)) b (perform (op done)))` yields a label
table in which `labels["a"]` is the **empty segment**, not the suffix
`[(goto (label b)), (perform (op done))]` of the program that follows the
declaration of `a` — `assemble` stores per-label segments (the
instructions up to the next label, and nothing at all for labels seen
while `insts` is still empty), not suffixes; the assembled instruction
list itself holds only the goto. -/
theorem C1_labels_are_segments_not_suffixes :
    assemble "(controller a (goto (label b)) b (perform (op done)))" =
      some (.ok ([RMLNode.GotoLabel (RMLNode.Label "b")],
        [("controller", []), ("a", []),
         ("b", [RMLNode.PerformOp (RMLNode.Operation "done" [])])])) ∧
    alistLookup
        [("controller", ([] : List RMLNode)), ("a", []),
         ("b", [RMLNode.PerformOp (RMLNode.Operation "done" [])])] "a" =
      some [] ∧
    ([] : List RMLNode) ≠
      [RMLNode.GotoLabel (RMLNode.Label "b"),
       RMLNode.PerformOp (RMLNode.Operation "done" [])] := by
  refine ⟨by rfl, by rfl, ?_⟩
  intro h
  exact List.noConfusion h

/-! ## Claim C7 -/

/-- The state invariant of `assemble`'s loop: `current_label` is either
still empty or already a key of `labels`. -/
def AssembleInv (st : AssembleSt) : Prop :=
  st.current_label = "" ∨ alistContains st.labels st.current_label = true

/-- Stepping the assemble loop over a non-`Symbol` node never errors,
preserves the invariant, and only grows the label map's key set. -/
theorem assembleGo_step_other (st : AssembleSt) (node : RMLNode)
    (rest : List RMLNode) (hns : ∀ s, node ≠ RMLNode.Symbol s)
    (hinv : AssembleInv st) :
    ∃ st', assembleGo st (node :: rest) = assembleGo st' rest ∧ AssembleInv st' ∧
      ∀ k, alistContains st.labels k = true → alistContains st'.labels k = true := by
  have hbody : assembleGo st (node :: rest) =
      (if st.current_label = "" then
        assembleGo { st with insts := st.insts ++ [node] } rest
      else
        match alistLookup st.labels st.current_label with
        | some v =>
          assembleGo
            { st with
              labels := alistInsert st.labels st.current_label (v ++ [node]) }
            rest
        | none => .error ("[ASSEMBLE] Missed label: " ++ st.current_label)) := by
    cases node with
    | Symbol s => exact absurd rfl (hns s)
    | Assignment a b => rfl
    | Branch a => rfl
    | Constant a => rfl
    | GotoLabel a => rfl
    | Label a => rfl
    | List a => rfl
    | Operation a b => rfl
    | PerformOp a => rfl
    | Reg a => rfl
    | Restore a => rfl
    | Save a => rfl
    | TestOp a => rfl
  by_cases hc : st.current_label = ""
  · refine ⟨{ st with insts := st.insts ++ [node] }, ?_, Or.inl hc, fun k hk => hk⟩
    rw [hbody, if_pos hc]
  · rcases hinv with h | h
    · exact absurd h hc
    · obtain ⟨v, hv⟩ := alistContains_lookup _ _ h
      refine ⟨{ st with
          labels := alistInsert st.labels st.current_label (v ++ [node]) }, ?_, ?_, ?_⟩
      · rw [hbody, if_neg hc, hv]
      · exact Or.inr (alistContains_insert_self _ _ _)
      · intro k hk
        exact alistContains_insert _ _ _ _ hk

/-- If some label `l` is already declared and a bare `Symbol l` is still
to come, the assemble loop ends in a duplicate-label error. -/
theorem assembleGo_dup_of_mem (nodes : List RMLNode) :
    ∀ (st : AssembleSt) (l : String), AssembleInv st →
      alistContains st.labels l = true → RMLNode.Symbol l ∈ nodes →
      ∃ l', assembleGo st nodes = .error ("[ASSEMBLE] Duplicated label: " ++ l') := by
  induction nodes with
  | nil => intro st l _ _ hmem; exact absurd hmem (List.not_mem_nil _)
  | cons node rest ih =>
    intro st l hinv hcont hmem
    by_cases hsym : ∃ s, node = RMLNode.Symbol s
    · obtain ⟨s, rfl⟩ := hsym
      by_cases hdup : alistContains st.labels s = true
      · refine ⟨s, ?_⟩
        show (if alistContains st.labels s then
            Except.error ("[ASSEMBLE] Duplicated label: " ++ s)
          else _) = _
        rw [if_pos hdup]
      · have hmem' : RMLNode.Symbol l ∈ rest := by
          rcases List.mem_cons.mp hmem with heq | h
          · obtain rfl : l = s := (RMLNode.Symbol.inj heq.symm).symm
            exact absurd hcont hdup
          · exact h
        have hstep : assembleGo st (RMLNode.Symbol s :: rest) =
            assembleGo
              { labels := alistInsert st.labels s []
                insts := st.insts
                current_label :=
                  if st.insts.isEmpty then st.current_label else s } rest := by
          show (if alistContains st.labels s then
              Except.error ("[ASSEMBLE] Duplicated label: " ++ s)
            else _) = _
          rw [if_neg (by simp [hdup])]
        rw [hstep]
        apply ih _ l _ (alistContains_insert _ _ _ _ hcont) hmem'
        by_cases hin : st.insts.isEmpty
        · simp only [hin, if_pos]
          rcases hinv with h | h
          · exact Or.inl h
          · exact Or.inr (alistContains_insert _ _ _ _ h)
        · right
          show alistContains (alistInsert st.labels s [])
            (if st.insts.isEmpty then st.current_label else s) = true
          rw [if_neg hin]
          exact alistContains_insert_self _ _ _
    · push_neg at hsym
      obtain ⟨st', hstep, hinv', hgrow⟩ := assembleGo_step_other st node rest hsym hinv
      have hmem' : RMLNode.Symbol l ∈ rest := by
        rcases List.mem_cons.mp hmem with heq | h
        · exact absurd heq.symm (hsym l)
        · exact h
      rw [hstep]
      exact ih st' l hinv' (hgrow l hcont) hmem'

/-- Any node list containing two bare declarations of the same label
assembles to a duplicate-label error. -/
theorem assembleGo_dup (pre : List RMLNode) :
    ∀ (st : AssembleSt) (l : String) (mid post : List RMLNode), AssembleInv st →
      ∃ l', assembleGo st
          (pre ++ RMLNode.Symbol l :: (mid ++ RMLNode.Symbol l :: post)) =
        .error ("[ASSEMBLE] Duplicated label: " ++ l') := by
  induction pre with
  | nil =>
    intro st l mid post hinv
    by_cases hdup : alistContains st.labels l = true
    · refine ⟨l, ?_⟩
      show (if alistContains st.labels l then
          Except.error ("[ASSEMBLE] Duplicated label: " ++ l)
        else _) = _
      rw [if_pos hdup]
    · have hstep : assembleGo st
          ([] ++ RMLNode.Symbol l :: (mid ++ RMLNode.Symbol l :: post)) =
          assembleGo
            { labels := alistInsert st.labels l []
              insts := st.insts
              current_label :=
                if st.insts.isEmpty then st.current_label else l }
            (mid ++ RMLNode.Symbol l :: post) := by
        show (if alistContains st.labels l then
            Except.error ("[ASSEMBLE] Duplicated label: " ++ l)
          else _) = _
        rw [if_neg (by simp [hdup])]
      rw [hstep]
      apply assembleGo_dup_of_mem _ _ l _ (alistContains_insert_self _ _ _)
        (by simp)
      by_cases hin : st.insts.isEmpty
      · simp only [hin, if_pos]
        rcases hinv with h | h
        · exact Or.inl h
        · exact Or.inr (alistContains_insert _ _ _ _ h)
      · right
        show alistContains (alistInsert st.labels l []) (if st.insts.isEmpty then _ else l) = true
        rw [if_neg hin]
        exact alistContains_insert_self _ _ _
  | cons node pre' ih =>
    intro st l mid post hinv
    by_cases hsym : ∃ s, node = RMLNode.Symbol s
    · obtain ⟨s, rfl⟩ := hsym
      by_cases hdup : alistContains st.labels s = true
      · refine ⟨s, ?_⟩
        show (if alistContains st.labels s then
            Except.error ("[ASSEMBLE] Duplicated label: " ++ s)
          else _) = _
        rw [if_pos hdup]
      · have hstep : assembleGo st
            ((RMLNode.Symbol s :: pre') ++
              RMLNode.Symbol l :: (mid ++ RMLNode.Symbol l :: post)) =
            assembleGo
              { labels := alistInsert st.labels s []
                insts := st.insts
                current_label :=
                  if st.insts.isEmpty then st.current_label else s }
              (pre' ++ RMLNode.Symbol l :: (mid ++ RMLNode.Symbol l :: post)) := by
          show (if alistContains st.labels s then
              Except.error ("[ASSEMBLE] Duplicated label: " ++ s)
            else _) = _
          rw [if_neg (by simp [hdup])]
          rfl
        rw [hstep]
        apply ih _ l mid post
        by_cases hin : st.insts.isEmpty
        · simp only [hin, if_pos]
          rcases hinv with h | h
          · exact Or.inl h
          · exact Or.inr (alistContains_insert _ _ _ _ h)
        · right
          show alistContains (alistInsert st.labels s []) (if st.insts.isEmpty then _ else s) = true
          rw [if_neg hin]
          exact alistContains_insert_self _ _ _
    · push_neg at hsym
      obtain ⟨st', hstep, hinv', -⟩ :=
        assembleGo_step_other st node
          (pre' ++ RMLNode.Symbol l :: (mid ++ RMLNode.Symbol l :: post)) hsym hinv
      have hcons : ((node :: pre') ++
            RMLNode.Symbol l :: (mid ++ RMLNode.Symbol l :: post)) =
          node :: (pre' ++ RMLNode.Symbol l :: (mid ++ RMLNode.Symbol l :: post)) := rfl
      rw [hcons, hstep]
      exact ih st' l mid post hinv'

/-- C7: a controller text whose parse contains two bare declarations of
the same label fails to assemble with a duplicate-label error, and
`make_machine` consequently returns `UnableAssemble` instead of a
machine. -/
theorem C7_duplicate_label_fails (text : String)
    (nodes pre mid post : List RMLNode) (l : String)
    (regs : List String)
    (procs : List (String × (List Value → Except MachineError Value)))
    (readFn : List Value → Except MachineError Value)
    (hparse : parse text = .ok nodes)
    (hshape : nodes = pre ++ RMLNode.Symbol l :: (mid ++ RMLNode.Symbol l :: post)) :
    ∃ l', assemble text = some (.error ("[ASSEMBLE] Duplicated label: " ++ l')) ∧
      make_machine regs procs readFn text =
        some (.error (.UnableAssemble ("[ASSEMBLE] Duplicated label: " ++ l'))) := by
  have hassemble : ∃ l',
      assemble text = some (.error ("[ASSEMBLE] Duplicated label: " ++ l')) := by
    obtain ⟨l', hl'⟩ := assembleGo_dup pre ⟨[], [], ""⟩ l mid post (Or.inl rfl)
    refine ⟨l', ?_⟩
    unfold assemble
    simp only [hparse]
    rw [hshape, hl']
  obtain ⟨l', hl'⟩ := hassemble
  refine ⟨l', hl', ?_⟩
  unfold make_machine
  obtain ⟨m', hm'⟩ := allocateAll_ok regs Machine.new
  simp only [hm', hl']

/-- Witness for C7: the two-node controller `"(x x)"` declares the label
`x` twice and fails to assemble. -/
theorem C7_duplicate_label_fails_witness :
    ∃ l', assemble "(x x)" = some (.error ("[ASSEMBLE] Duplicated label: " ++ l')) ∧
      make_machine [] [] (fun _ => .ok Value.Nil) "(x x)" =
        some (.error (.UnableAssemble ("[ASSEMBLE] Duplicated label: " ++ l'))) :=
  C7_duplicate_label_fails "(x x)"
    [RMLNode.Symbol "x", RMLNode.Symbol "x"] [] [] [] "x" [] []
    (fun _ => .ok Value.Nil) (by rfl) rfl

/-! ## Claim C4 -/

/-! ### String and character groundwork for the round-trip analysis -/

theorem String_mk_data (s : String) : String.mk s.data = s := by
  cases s; rfl

theorem intercalate_go_acc (s : String) (l : List String) :
    ∀ x y : String, String.intercalate.go (x ++ y) s l =
      x ++ String.intercalate.go y s l := by
  induction l with
  | nil => intro x y; simp [String.intercalate.go]
  | cons c t ih =>
    intro x y
    show String.intercalate.go (x ++ y ++ s ++ c) s t = _
    rw [show x ++ y ++ s ++ c = x ++ (y ++ s ++ c) by simp [String.append_assoc]]
    rw [ih x (y ++ s ++ c)]
    rfl

theorem intercalate_sp_single (a : String) : String.intercalate " " [a] = a := rfl

theorem intercalate_sp_cons (a b : String) (l : List String) :
    String.intercalate " " (a :: b :: l) =
      a ++ " " ++ String.intercalate " " (b :: l) := by
  show String.intercalate.go a " " (b :: l) = _
  show String.intercalate.go (a ++ " " ++ b) " " l = _
  rw [show a ++ " " ++ b = (a ++ " ") ++ b by simp [String.append_assoc]]
  rw [intercalate_go_acc " " l (a ++ " ") b]
  rfl

theorem dropWhile_idem (p : Char → Bool) (l : List Char) :
    (l.dropWhile p).dropWhile p = l.dropWhile p := by
  induction l with
  | nil => rfl
  | cons c t ih => by_cases h : p c <;> simp [List.dropWhile, h, ih]

/-- Every character admissible in a `valid_symbol` token is printable and
non-structural. -/
theorem validChar_facts {c : Char} (h : isValidSymbolChar c = true) :
    isMultispace c = false ∧ c ≠ ';' ∧ c ≠ '(' ∧ c ≠ ')' ∧ c ≠ '"' := by
  refine ⟨?_, ?_, ?_, ?_, ?_⟩
  · by_contra hms
    rw [Bool.not_eq_false] at hms
    have hc : c = ' ' ∨ c = '\t' ∨ c = '\n' ∨ c = '\r' := by
      simpa [isMultispace] using hms
    rcases hc with rfl | rfl | rfl | rfl <;> exact absurd h (by decide)
  · intro hh; subst hh; exact absurd h (by decide)
  · intro hh; subst hh; exact absurd h (by decide)
  · intro hh; subst hh; exact absurd h (by decide)
  · intro hh; subst hh; exact absurd h (by decide)

/-- Heads that can open neither a whitespace run nor a comment. -/
def GoodHead (l : List Char) : Prop :=
  ∀ c, l.head? = some c → isMultispace c = false ∧ c ≠ ';'

/-- What may follow a rendered token inside a rendered instruction: end of
input, a closing parenthesis, or a space-separated continuation that does
not open a comment. -/
def FollowOk (l : List Char) : Prop :=
  (l.head? = none ∨ l.head? = some ')' ∨ l.head? = some ' ') ∧
    GoodHead (l.dropWhile isMultispace)

theorem goodHead_nil : GoodHead [] := by
  intro c hc; simp at hc

theorem goodHead_cons {c : Char} {l : List Char}
    (h1 : isMultispace c = false) (h2 : c ≠ ';') : GoodHead (c :: l) := by
  intro d hd
  simp only [List.head?_cons, Option.some.injEq] at hd
  subst hd; exact ⟨h1, h2⟩

theorem dropWhile_ms_of_goodHead {l : List Char} (h : GoodHead l) :
    l.dropWhile isMultispace = l := by
  cases l with
  | nil => rfl
  | cons c t => simp [List.dropWhile, (h c rfl).1]

theorem followOk_nil : FollowOk [] := ⟨Or.inl rfl, goodHead_nil⟩

theorem followOk_close {l : List Char} (h : GoodHead (')' :: l)) :
    FollowOk (')' :: l) := by
  refine ⟨Or.inr (Or.inl rfl), ?_⟩
  rw [dropWhile_ms_of_goodHead h]
  exact h

theorem followOk_space {l : List Char} (h : GoodHead l) :
    FollowOk (' ' :: l) := by
  refine ⟨Or.inr (Or.inr rfl), ?_⟩
  have : (' ' :: l).dropWhile isMultispace = l.dropWhile isMultispace := by
    simp [List.dropWhile, isMultispace]
  rw [this, dropWhile_ms_of_goodHead h]
  exact h

theorem followOk_head {l : List Char} (h : FollowOk l) :
    ∀ c, l.head? = some c → c = ')' ∨ c = ' ' := by
  intro c hc
  rcases h.1 with h1 | h1 | h1 <;> rw [h1] at hc
  · exact absurd hc (by simp)
  · exact Or.inl (by simpa using hc.symm)
  · exact Or.inr (by simpa using hc.symm)

/-! ### Well-formedness of values and nodes for the round trip -/

/-- A string accepted verbatim by `valid_symbol`. -/
def WFsym (s : String) : Prop :=
  s.data ≠ [] ∧ (∀ c ∈ s.data, isValidSymbolChar c = true) ∧
    rustF64Accepts s.data = false

/-- A token that `rml_number` (and hence `rml_float`) cannot start on:
its head is not a digit, and a leading `-` is not followed by a digit. -/
def NotNumHead (s : String) : Prop :=
  ∀ c, s.data.head? = some c → c.isDigit = false ∧
    (c = '-' → ∀ d, s.data.tail.head? = some d → d.isDigit = false)

mutual

/-- Values whose rendered text re-parses to the same value: no floats
(their rendering loses the `.0`), `i32`-range integers, strings without
`"` or `\`, symbols that cannot be mistaken for numbers, and lists of
such values. -/
def WFvalue : RMLValue → Prop
  | RMLValue.Float _ => False
  | RMLValue.Num k => -(2 ^ 31) ≤ k ∧ k ≤ 2 ^ 31 - 1
  | RMLValue.Str s => ∀ c ∈ s.data, c.toNat ≠ 0x22 ∧ c.toNat ≠ 0x5c
  | RMLValue.Symbol s => WFsym s ∧ NotNumHead s
  | RMLValue.List vs => WFvalues vs

/-- Elementwise well-formedness of a list of values. -/
def WFvalues : List RMLValue → Prop
  | [] => True
  | v :: rest => WFvalue v ∧ WFvalues rest

end

mutual

/-- Structural size of a value (drives the round-trip induction and
bounds the parser fuel). -/
def vsize : RMLValue → ℕ
  | RMLValue.List vs => vsizes vs + 1
  | _ => 1

/-- Total size of a list of values. -/
def vsizes : List RMLValue → ℕ
  | [] => 0
  | v :: rest => vsize v + vsizes rest

end

theorem vsize_pos (v : RMLValue) : 1 ≤ vsize v := by
  cases v <;> simp [vsize]

/-- An operation argument: `(reg …)` or `(const …)`. -/
def WFoparg : RMLNode → Prop
  | RMLNode.Constant v => WFvalue v
  | RMLNode.Reg r => WFsym r
  | _ => False

/-- Elementwise well-formedness of operation arguments. -/
def WFopargs : List RMLNode → Prop
  | [] => True
  | a :: rest => WFoparg a ∧ WFopargs rest

/-- A well-formed `(op …) arg*` node. -/
def WFop : RMLNode → Prop
  | RMLNode.Operation op_name args => WFsym op_name ∧ WFopargs args
  | _ => False

/-- A well-formed `goto` target: `(label …)` or `(reg …)`. -/
def WFgoto : RMLNode → Prop
  | RMLNode.Label l => WFsym l
  | RMLNode.Reg r => WFsym r
  | _ => False

/-- A well-formed assignment right-hand side. -/
def WFrhs : RMLNode → Prop
  | RMLNode.Constant v => WFvalue v
  | RMLNode.Reg r => WFsym r
  | RMLNode.Label l => WFsym l
  | RMLNode.Operation op_name args => WFsym op_name ∧ WFopargs args
  | _ => False

/-- Instruction nodes covered by the amended round-trip claim: every
instruction form the grammar produces, with well-formed symbol names and
float-free well-formed constants.  `List` nodes (never produced by
`rml_instruction`) and `Float` constants are excluded. -/
def WFnode : RMLNode → Prop
  | RMLNode.Constant v => WFvalue v
  | RMLNode.Reg r => WFsym r
  | RMLNode.Label l => WFsym l
  | RMLNode.Branch (RMLNode.Label l) => WFsym l
  | RMLNode.GotoLabel l => WFgoto l
  | RMLNode.Save r => WFsym r
  | RMLNode.Restore r => WFsym r
  | RMLNode.TestOp op => WFop op
  | RMLNode.PerformOp op => WFop op
  | RMLNode.Assignment r rhs => WFsym r ∧ WFrhs rhs
  | RMLNode.Symbol s => WFsym s
  | _ => False

mutual

/-- Structural size of a node (bounds the parser fuel). -/
def nsize : RMLNode → ℕ
  | RMLNode.Constant v => vsize v + 1
  | RMLNode.Assignment _ rhs => nsize rhs + 1
  | RMLNode.TestOp op => nsize op + 1
  | RMLNode.PerformOp op => nsize op + 1
  | RMLNode.Operation _ args => nsizes args + 1
  | RMLNode.Branch l => nsize l + 1
  | RMLNode.GotoLabel l => nsize l + 1
  | _ => 1

/-- Total size of a list of nodes. -/
def nsizes : List RMLNode → ℕ
  | [] => 0
  | n :: rest => nsize n + nsizes rest

end


/-! ### `sce` and token-level reduction lemmas -/

theorem tagP_of_mismatch {t input : List Char} (h : t.isPrefixOf input = false) :
    tagP t input = .error (.err (.ParseFailure input .tagK)) := by
  unfold tagP
  rw [if_neg (by simp [h])]

theorem commentOpt_none {l : List Char} (h : ∀ c, l.head? = some c → c ≠ ';') :
    commentOpt l = .ok (l, none) := by
  unfold commentOpt
  apply optP_of_err
  apply pairP_of_err1
  apply tagP_of_mismatch
  cases l with
  | nil => rfl
  | cons c t =>
    have hne := h c rfl
    simp [List.isPrefixOf, Ne.symm hne]

theorem sce_of_ok {α : Type} {q : Parser α} {u m : List Char} {v : α}
    (hdrop : u.dropWhile isMultispace = u)
    (h1 : ∀ c, u.head? = some c → c ≠ ';')
    (hi : q u = .ok (m, v))
    (h2 : ∀ c, m.head? = some c → c ≠ ';')
    (h3 : ∀ c, (m.dropWhile isMultispace).head? = some c → c ≠ ';') :
    sce q u = .ok (m.dropWhile isMultispace, v) := by
  unfold sce
  have hms : multispace0 u = .ok (u, u.takeWhile isMultispace) := by
    unfold multispace0; rw [hdrop]
  have hms2 : multispace0 m =
      .ok (m.dropWhile isMultispace, m.takeWhile isMultispace) := rfl
  exact terminatedP_of_ok
    (precededP_of_ok (terminatedP_of_ok hms (commentOpt_none h1))
      (terminatedP_of_ok hi (commentOpt_none h2)))
    (terminatedP_of_ok hms2 (commentOpt_none h3))

theorem sce_of_err {α : Type} {inner : Parser α} {input : List Char} {e : NomErr}
    (hdrop : input.dropWhile isMultispace = input)
    (h1 : ∀ c, input.head? = some c → c ≠ ';')
    (hi : inner input = .error e) :
    sce inner input = .error e := by
  unfold sce
  have hms : multispace0 input = .ok (input, input.takeWhile isMultispace) := by
    unfold multispace0; rw [hdrop]
  exact terminatedP_of_err1
    (precededP_of_err2 (terminatedP_of_ok hms (commentOpt_none h1))
      (terminatedP_of_err1 hi))

theorem goodHead_ne_semi {l : List Char} (h : GoodHead l) :
    ∀ c, l.head? = some c → c ≠ ';' :=
  fun c hc => (h c hc).2

/-- `sce (char '(')` on `'(' :: body` consumes exactly the parenthesis when
`body` opens with printable material. -/
theorem sce_open_ok {body : List Char} (hb : GoodHead body) :
    sce (charP '(') ('(' :: body) = .ok (body, '(') := by
  have h := sce_of_ok (q := charP '(') (u := '(' :: body) (m := body) (v := '(')
    (by simp [List.dropWhile, isMultispace])
    (by intro c hc; simp at hc; subst hc; decide)
    charP_of_head
    (goodHead_ne_semi hb)
    (by rw [dropWhile_ms_of_goodHead hb]; exact goodHead_ne_semi hb)
  rwa [dropWhile_ms_of_goodHead hb] at h

/-- `sce (tag kw)` on `kw ++ ' ' :: body` consumes the keyword and the
separating space. -/
theorem sce_tag_ok {z body : List Char} (hkw : GoodHead z) (hne : z ≠ [])
    (hb : GoodHead body) :
    sce (tagP z) (z ++ ' ' :: body) = .ok (body, z) := by
  have hdrop : (z ++ ' ' :: body).dropWhile isMultispace = z ++ ' ' :: body := by
    cases z with
    | nil => exact absurd rfl hne
    | cons c t => simp [List.dropWhile, (hkw c rfl).1]
  have h1 : ∀ c, (z ++ ' ' :: body).head? = some c → c ≠ ';' := by
    cases z with
    | nil => exact absurd rfl hne
    | cons c t =>
      intro d hd
      simp only [List.cons_append, List.head?_cons, Option.some.injEq] at hd
      subst hd
      exact (hkw _ rfl).2
  have hdropmid : (' ' :: body).dropWhile isMultispace = body := by
    rw [show (' ' :: body).dropWhile isMultispace = body.dropWhile isMultispace by
      simp [List.dropWhile, isMultispace]]
    exact dropWhile_ms_of_goodHead hb
  have h := sce_of_ok (q := tagP z) (u := z ++ ' ' :: body)
    (m := ' ' :: body) (v := z)
    hdrop h1 tagP_of_append
    (by intro c hc; simp at hc; subst hc; decide)
    (by rw [hdropmid]; exact goodHead_ne_semi hb)
  rwa [hdropmid] at h

/-- `sce (char ')')` on `')' :: rest` with a legal continuation: consumes
the parenthesis and any following whitespace. -/
theorem sce_close_ok {rest : List Char} (h : FollowOk rest) :
    sce (charP ')') (')' :: rest) = .ok (rest.dropWhile isMultispace, ')') := by
  apply sce_of_ok (by simp [List.dropWhile, isMultispace])
    (by intro c hc; simp at hc; subst hc; decide)
    charP_of_head
  · intro c hc
    rcases followOk_head h c hc with rfl | rfl <;> decide
  · exact goodHead_ne_semi h.2

/-! ### Rendering of integers and its re-parse -/

theorem digitsVal_append_digit (ds : List Char) (c : Char) :
    digitsVal (ds ++ [c]) = digitsVal ds * 10 + ((c.toNat : ℤ) - 48) := by
  unfold digitsVal
  rw [List.foldl_append]
  rfl

theorem digitChar_spec (r : ℕ) (h : r < 10) :
    (Char.ofNat (48 + r)).toNat = 48 + r ∧ (Char.ofNat (48 + r)).isDigit = true ∧
      isMultispace (Char.ofNat (48 + r)) = false ∧ Char.ofNat (48 + r) ≠ ';' := by
  interval_cases r <;> exact ⟨by decide, by decide, by decide, by decide⟩

theorem natDigitsGo_spec : ∀ fuel n acc, n < fuel →
    ∃ ds, natDigitsGo fuel n acc = ds ++ acc ∧ ds ≠ [] ∧
      ds.all Char.isDigit = true ∧ digitsVal ds = (n : ℤ) ∧
      (∀ c ∈ ds, isMultispace c = false ∧ c ≠ ';') := by
  intro fuel
  induction fuel with
  | zero => intro n acc h; omega
  | succ f ih =>
    intro n acc h
    by_cases h10 : n < 10
    · obtain ⟨ht, hd, hm, hs⟩ := digitChar_spec n h10
      refine ⟨[Char.ofNat (48 + n)], ?_, by simp, by simp [hd], ?_, ?_⟩
      · show natDigitsGo (f + 1) n acc = _
        unfold natDigitsGo
        rw [if_pos h10]
        rfl
      · simp only [digitsVal, List.foldl_cons, List.foldl_nil]
        rw [ht]
        push_cast
        omega
      · intro c hc
        simp only [List.mem_singleton] at hc
        subst hc
        exact ⟨hm, hs⟩
    · push_neg at h10
      have hr10 : n % 10 < 10 := Nat.mod_lt _ (by omega)
      obtain ⟨ht, hd, hm, hs⟩ := digitChar_spec (n % 10) hr10
      obtain ⟨ds, hgo, hne, hdig, hval, hgood⟩ :=
        ih (n / 10) (Char.ofNat (48 + n % 10) :: acc) (by omega)
      refine ⟨ds ++ [Char.ofNat (48 + n % 10)], ?_, by simp, ?_, ?_, ?_⟩
      · show natDigitsGo (f + 1) n acc = _
        unfold natDigitsGo
        rw [if_neg (by omega), hgo]
        simp
      · rw [List.all_append, hdig]
        simp [hd]
      · rw [digitsVal_append_digit, hval, ht]
        push_cast
        omega
      · intro c hc
        rcases List.mem_append.mp hc with hc | hc
        · exact hgood c hc
        · simp only [List.mem_singleton] at hc
          subst hc
          exact ⟨hm, hs⟩

theorem natDigits_spec (n : ℕ) :
    natDigits n ≠ [] ∧ (natDigits n).all Char.isDigit = true ∧
      digitsVal (natDigits n) = (n : ℤ) ∧
      (∀ c ∈ natDigits n, isMultispace c = false ∧ c ≠ ';') := by
  obtain ⟨ds, hgo, hne, hdig, hval, hgood⟩ := natDigitsGo_spec (n + 1) n [] (by omega)
  unfold natDigits
  rw [hgo, List.append_nil]
  exact ⟨hne, hdig, hval, hgood⟩

theorem intToString_data (k : ℤ) :
    (intToString k).data = (if k < 0 then ['-'] else []) ++ natDigits k.natAbs := by
  unfold intToString
  by_cases h : k < 0
  · rw [if_pos h, if_pos h]
    simp
  · rw [if_neg h, if_neg h]
    simp

/-- Rendering an in-range `i32` and re-reading it with `rml_number`
restores the integer. -/
theorem rml_number_intToString (k : ℤ) (hlo : -(2 ^ 31) ≤ k) (hhi : k ≤ 2 ^ 31 - 1)
    {w : List Char} (hrest : ∀ c, w.head? = some c → ¬ c.isDigit) :
    rml_number ((intToString k).data ++ w) = .ok (w, RMLValue.Num k) := by
  obtain ⟨hne, hdig, hval, _⟩ := natDigits_spec k.natAbs
  by_cases h : k < 0
  · have hshape : (intToString k).data ++ w = ['-'] ++ (natDigits k.natAbs ++ w) := by
      rw [intToString_data, if_pos h]
      simp
    rw [hshape]
    apply rml_number_token_ok ['-'] _ _ k (Or.inr rfl) hne hdig hrest
    show rustParseI32 ('-' :: natDigits k.natAbs) = some k
    rw [rustParseI32_neg_digits _ hne hdig, hval]
    rw [if_pos (by constructor <;> omega)]
    congr 1
    omega
  · have hshape : (intToString k).data ++ w = [] ++ (natDigits k.natAbs ++ w) := by
      rw [intToString_data, if_neg h]
      simp
    rw [hshape]
    apply rml_number_token_ok [] _ _ k (Or.inl rfl) hne hdig hrest
    show rustParseI32 (natDigits k.natAbs) = some k
    rw [rustParseI32_digits _ hne hdig, hval]
    rw [if_pos (by constructor <;> omega)]
    congr 1
    omega

/-! ### Failure lemmas for the value alternatives -/

theorem digit1_fail {l : List Char} (h : ∀ c, l.head? = some c → c.isDigit = false) :
    digit1 l = .error (.err (.ParseFailure l .charK)) := by
  unfold digit1
  cases l with
  | nil => simp
  | cons c t =>
    have hc := h c rfl
    simp [List.takeWhile, hc]

/-- `rml_number` cannot start on a token whose head is not a digit and
whose possible `-` is not followed by a digit. -/
theorem rml_number_fail {input : List Char}
    (h : ∀ c, input.head? = some c → c.isDigit = false ∧
      (c = '-' → ∀ d, input.tail.head? = some d → d.isDigit = false)) :
    ∃ e, rml_number input = .error (.err e) := by
  cases input with
  | nil =>
    have htag : tagP ['-'] ([] : List Char) =
        .error (.err (.ParseFailure [] .tagK)) := by
      apply tagP_of_mismatch
      decide
    have hd1 : digit1 ([] : List Char) = .error (.err (.ParseFailure [] .charK)) :=
      digit1_fail (by intro c hc; simp at hc)
    refine ⟨.ParseFailure [] .charK, ?_⟩
    simp only [rml_number, recognizeP_of_err (pairP_of_err2 (optP_of_err htag) hd1)]
  | cons c t =>
    have hc := h c rfl
    by_cases hdash : c = '-'
    · subst hdash
      have htag : tagP ['-'] ('-' :: t) = .ok (t, ['-']) := by
        have := tagP_of_append (t := ['-']) (s := t)
        simpa using this
      refine ⟨.ParseFailure t .charK, ?_⟩
      simp only [rml_number,
        recognizeP_of_err (pairP_of_err2 (optP_of_ok htag) (digit1_fail (hc.2 rfl)))]
    · have htag : tagP ['-'] (c :: t) =
          .error (.err (.ParseFailure (c :: t) .tagK)) := by
        apply tagP_of_mismatch
        simp [List.isPrefixOf, Ne.symm hdash]
      refine ⟨.ParseFailure (c :: t) .charK, ?_⟩
      simp only [rml_number,
        recognizeP_of_err (pairP_of_err2 (optP_of_err htag)
          (digit1_fail (by intro d hd; simp at hd; subst hd; exact hc.1)))]

theorem rml_float_fail_notnum {input : List Char}
    (h : ∃ e, rml_number input = .error (.err e)) :
    ∃ e, rml_float input = .error (.err e) := by
  obtain ⟨e, he⟩ := h
  refine ⟨e, ?_⟩
  simp only [rml_float, tuple3P,
    recognizeP_of_err (mapP_of_err (pairP_of_err1 he))]

/-- After a complete integer token, the absent `.` makes `rml_float`
fail (recoverably). -/
theorem rml_float_fail_nodot {input rest : List Char} {v : RMLValue}
    (hnum : rml_number input = .ok (rest, v))
    (hrest : ∀ c, rest.head? = some c → c ≠ '.') :
    ∃ e, rml_float input = .error (.err e) := by
  have hdot : charP '.' rest = .error (.err (.ParseFailure rest .charK)) := by
    cases rest with
    | nil => exact charP_of_nil
    | cons c t => exact charP_of_ne (hrest c rfl)
  refine ⟨.ParseFailure rest .charK, ?_⟩
  simp only [rml_float, tuple3P,
    recognizeP_of_err (mapP_of_err (pairP_of_err2 hnum (pairP_of_err1 hdot)))]

/-! ### Symbol and string tokens -/

theorem take_while1_ok {p : Char → Bool} {s rest : List Char} (hne : s ≠ [])
    (hall : s.all p = true) (hrest : ∀ c, rest.head? = some c → p c = false) :
    take_while1 p (s ++ rest) = .ok (rest, s) := by
  have ht := takeWhile_append_all s rest hall
    (by intro c hc; rw [hrest c hc]; simp)
  unfold take_while1
  rw [ht.1, ht.2]
  simp [hne]

theorem valid_symbol_ok {s : String} (h : WFsym s) {w : List Char}
    (hrest : ∀ c, w.head? = some c → isValidSymbolChar c = false) :
    valid_symbol (s.data ++ w) = .ok (w, s.data) := by
  obtain ⟨hne, hall, hf64⟩ := h
  have hall' : s.data.all isValidSymbolChar = true := by
    rw [List.all_eq_true]
    exact hall
  unfold valid_symbol
  apply verifyP_of_ok (take_while1_ok hne hall' hrest)
  simp [hf64]

theorem rml_symbol_ok {s : String} (h : WFsym s) {w : List Char}
    (hrest : ∀ c, w.head? = some c → isValidSymbolChar c = false) :
    rml_symbol (s.data ++ w) = .ok (w, RMLValue.Symbol s) := by
  unfold rml_symbol
  rw [mapP_of_ok (valid_symbol_ok ⟨h.1, h.2.1, h.2.2⟩ hrest), String_mk_data]

theorem rml_string_ok {s : String}
    (h : ∀ c ∈ s.data, c.toNat ≠ 0x22 ∧ c.toNat ≠ 0x5c) {w : List Char} :
    rml_string ('"' :: (s.data ++ '"' :: w)) = .ok (w, RMLValue.Str s) := by
  unfold rml_string
  have htw : take_while (fun c => c.toNat ≠ 0x22 ∧ c.toNat ≠ 0x5c)
      (s.data ++ '"' :: w) = .ok ('"' :: w, s.data) := by
    unfold take_while
    have ht := takeWhile_append_all
      (p := fun c => decide (c.toNat ≠ 0x22 ∧ c.toNat ≠ 0x5c)) s.data ('"' :: w)
      (by rw [List.all_eq_true]; intro c hc; simpa using h c hc)
      (by intro c hc; simp at hc; subst hc; decide)
    rw [ht.1, ht.2]
  unfold delimitedP
  rw [mapP_of_ok (terminatedP_of_ok (precededP_of_ok charP_of_head htw) charP_of_head),
    String_mk_data]

/-! ### Head-shape helpers for rendered values -/

theorem goodHead_append_left {a b : List Char} (h1 : a ≠ []) (h : GoodHead a) :
    GoodHead (a ++ b) := by
  cases a with
  | nil => exact absurd rfl h1
  | cons c t =>
    intro d hd
    simp only [List.cons_append, List.head?_cons, Option.some.injEq] at hd
    subst hd
    exact h _ rfl

theorem good_of_head {l : List Char} {c : Char} (h : l.head? = some c)
    (h1 : isMultispace c = false) (h2 : c ≠ ';') : l ≠ [] ∧ GoodHead l := by
  constructor
  · intro hnil
    rw [hnil] at h
    simp at h
  · intro d hd
    rw [h] at hd
    simp only [Option.some.injEq] at hd
    subst hd
    exact ⟨h1, h2⟩

theorem headOnly_notnum {e : Char} {t : List Char} (h1 : e.isDigit = false)
    (h2 : e ≠ '-') :
    ∀ c, (e :: t).head? = some c → c.isDigit = false ∧
      (c = '-' → ∀ d, (e :: t).tail.head? = some d → d.isDigit = false) := by
  intro c hc
  simp only [List.head?_cons, Option.some.injEq] at hc
  subst hc
  exact ⟨h1, fun hd => absurd hd h2⟩

/-- A `NotNumHead` symbol remains number-proof with a legal continuation
appended. -/
theorem notNum_input {s : String} (hs : s.data ≠ []) (hn : NotNumHead s)
    {rest : List Char} (hrest : ∀ c, rest.head? = some c → c.isDigit = false) :
    ∀ c, (s.data ++ rest).head? = some c → c.isDigit = false ∧
      (c = '-' → ∀ d, (s.data ++ rest).tail.head? = some d → d.isDigit = false) := by
  cases hsd : s.data with
  | nil => exact absurd hsd hs
  | cons c0 t =>
    intro c hc
    simp only [List.cons_append, List.head?_cons, Option.some.injEq] at hc
    subst hc
    have h0 := hn c0 (by rw [hsd]; rfl)
    refine ⟨h0.1, ?_⟩
    intro hdash d hdd
    simp only [List.cons_append, List.tail_cons] at hdd
    cases ht : t with
    | nil =>
      rw [ht] at hdd
      exact hrest d (by simpa using hdd)
    | cons d0 t2 =>
      rw [ht] at hdd
      simp at hdd
      subst hdd
      exact h0.2 hdash _ (by rw [hsd, ht]; rfl)

theorem take_while1_fail {p : Char → Bool} {l : List Char}
    (h : ∀ c, l.head? = some c → p c = false) :
    take_while1 p l = .error (.err (.ParseFailure l .takeWhile1K)) := by
  unfold take_while1
  cases l with
  | nil => simp
  | cons c t => simp [List.takeWhile, h c rfl]

theorem rml_symbol_fail {l : List Char}
    (h : ∀ c, l.head? = some c → isValidSymbolChar c = false) :
    ∃ e, rml_symbol l = .error (.err e) := by
  refine ⟨.ParseFailure l .takeWhile1K, ?_⟩
  unfold rml_symbol valid_symbol
  exact mapP_of_err (verifyP_of_err (take_while1_fail h))

theorem rml_string_fail {l : List Char}
    (h : ∀ c, l.head? = some c → c ≠ '"') :
    ∃ e, rml_string l = .error (.err e) := by
  have hc : charP '"' l = .error (.err (.ParseFailure l .charK)) := by
    cases l with
    | nil => exact charP_of_nil
    | cons c t => exact charP_of_ne (h c rfl)
  refine ⟨.ParseFailure l .charK, ?_⟩
  unfold rml_string delimitedP
  exact mapP_of_err (terminatedP_of_err1 (precededP_of_err1 hc))

theorem altL_single {α : Type} (p : Parser α) (input : List Char) :
    altL [p] input = p input := rfl

/-- Wrap a token parse in `sce`: the rendered token is preceded by no
whitespace and followed by a legal continuation, so only the trailing
whitespace is eaten. -/
theorem sce_wrap {α : Type} {p : Parser α} {dv rest : List Char} {v : α}
    (hdv : dv ≠ [] ∧ GoodHead dv) (hrest : FollowOk rest)
    (hp : p (dv ++ rest) = .ok (rest, v)) :
    sce p (dv ++ rest) = .ok (rest.dropWhile isMultispace, v) := by
  have hg := goodHead_append_left hdv.1 hdv.2 (b := rest)
  apply sce_of_ok (dropWhile_ms_of_goodHead hg) (goodHead_ne_semi hg) hp
  · intro c hc
    rcases followOk_head hrest c hc with rfl | rfl <;> decide
  · exact goodHead_ne_semi hrest.2

/-- Variant of `sce_wrap` when the inner parser has already eaten the
trailing whitespace (it ends in an `sce` of its own). -/
theorem sce_wrap_dropped {α : Type} {p : Parser α} {dv rest : List Char} {v : α}
    (hdv : dv ≠ [] ∧ GoodHead dv) (hrest : FollowOk rest)
    (hp : p (dv ++ rest) = .ok (rest.dropWhile isMultispace, v)) :
    sce p (dv ++ rest) = .ok (rest.dropWhile isMultispace, v) := by
  have hg := goodHead_append_left hdv.1 hdv.2 (b := rest)
  have h := sce_of_ok (dropWhile_ms_of_goodHead hg) (goodHead_ne_semi hg) hp
    (goodHead_ne_semi hrest.2)
    (by rw [dropWhile_idem]; exact goodHead_ne_semi hrest.2)
  rwa [dropWhile_idem] at h

theorem many0Go_step_err {α : Type} {p : Parser α} {g : ℕ} {input : List Char}
    {e : RMLParseError} (h : p input = .error (.err e)) :
    many0Go p (g + 1) input = .ok (input, []) := by
  unfold many0Go
  simp only [h]

theorem many0Go_step_ok {α : Type} {p : Parser α} {g : ℕ}
    {input rest rest' : List Char} {v : α} {vs : List α}
    (h : p input = .ok (rest, v)) (hlen : rest.length ≠ input.length)
    (hrec : many0Go p g rest = .ok (rest', vs)) :
    many0Go p (g + 1) input = .ok (rest', v :: vs) := by
  unfold many0Go
  simp only [h, if_neg hlen, hrec]

/-- No alternative of the value grammar can start on a closing
parenthesis. -/
theorem rml_valueF_close_fail (f : ℕ) (l : List Char) :
    ∃ e, rml_valueF f (')' :: l) = .error (.err e) := by
  cases f with
  | zero => exact ⟨.ParseFailure (')' :: l) .altK, rfl⟩
  | succ f =>
    obtain ⟨e1, he1⟩ := rml_number_fail
      (headOnly_notnum (e := ')') (t := l) (by decide) (by decide))
    obtain ⟨e2, he2⟩ := rml_float_fail_notnum ⟨e1, he1⟩
    obtain ⟨e3, he3⟩ := rml_symbol_fail (l := ')' :: l)
      (by intro c hc; simp at hc; subst hc; decide)
    obtain ⟨e4, he4⟩ := rml_string_fail (l := ')' :: l)
      (by intro c hc; simp at hc; subst hc; decide)
    have hlist : rml_listF f (')' :: l) =
        .error (.err (.ParseFailure (')' :: l) .charK)) := by
      have hc : charP '(' (')' :: l) =
          .error (.err (.ParseFailure (')' :: l) .charK)) := charP_of_ne (by decide)
      have hsce : sce (charP '(') (')' :: l) =
          .error (.err (.ParseFailure (')' :: l) .charK)) := by
        apply sce_of_err (by simp [List.dropWhile, isMultispace])
          (by intro c hc2; simp at hc2; subst hc2; decide) hc
      unfold rml_listF delimitedP
      exact mapP_of_err (terminatedP_of_err1 (precededP_of_err1 hsce))
    refine ⟨.ParseFailure (')' :: l) .charK, ?_⟩
    rw [rml_valueF_succ]
    have halt : altL [rml_float, rml_number, rml_symbol, rml_string, rml_listF f]
        (')' :: l) = .error (.err (.ParseFailure (')' :: l) .charK)) := by
      rw [altL_cons_err he2, altL_cons_err he1, altL_cons_err he3,
        altL_cons_err he4, altL_single]
      exact hlist
    exact sce_of_err (by simp [List.dropWhile, isMultispace])
      (by intro c hc2; simp at hc2; subst hc2; decide) halt

theorem vsizes_mem_le {v : RMLValue} {vs : List RMLValue} (h : v ∈ vs) :
    vsize v ≤ vsizes vs := by
  induction vs with
  | nil => simp at h
  | cons w ws ih =>
    rcases List.mem_cons.mp h with rfl | h2
    · show vsize v ≤ vsize v + vsizes ws
      omega
    · have := ih h2
      show vsize w + vsizes ws ≥ _ 
      omega

theorem WFvalues_mem {v : RMLValue} {vs : List RMLValue} (h : v ∈ vs)
    (hwf : WFvalues vs) : WFvalue v := by
  induction vs with
  | nil => simp at h
  | cons w ws ih =>
    have hw : WFvalue w ∧ WFvalues ws := hwf
    rcases List.mem_cons.mp h with rfl | h2
    · exact hw.1
    · exact ih h2 hw.2

/-- The rendering of any well-formed value is nonempty and opens with a
printable, non-comment character. -/
theorem displayValue_good {v : RMLValue} (h : WFvalue v) :
    (displayRMLValue v).data ≠ [] ∧ GoodHead (displayRMLValue v).data := by
  cases v with
  | Float q => exact absurd h (by simp [WFvalue])
  | Num n =>
    show (intToString n).data ≠ [] ∧ GoodHead (intToString n).data
    obtain ⟨hne, _, _, hgood⟩ := natDigits_spec n.natAbs
    rw [intToString_data]
    by_cases hk : n < 0
    · rw [if_pos hk]
      exact good_of_head rfl (by decide) (by decide)
    · rw [if_neg hk]
      simp only [List.nil_append]
      cases hd : natDigits n.natAbs with
      | nil => exact absurd hd hne
      | cons c t =>
        have hg := hgood c (by rw [hd]; simp)
        exact good_of_head rfl hg.1 hg.2
  | Str str =>
    have hdata : (displayRMLValue (RMLValue.Str str)).data =
        '"' :: (str.data ++ ['"']) := by
      simp [displayRMLValue]
    rw [hdata]
    exact good_of_head rfl (by decide) (by decide)
  | Symbol sym =>
    have hw : WFsym sym ∧ NotNumHead sym := h
    show sym.data ≠ [] ∧ GoodHead sym.data
    cases hd : sym.data with
    | nil => exact absurd hd hw.1.1
    | cons c t =>
      have hc : isValidSymbolChar c = true := by
        apply hw.1.2.1
        rw [hd]
        simp
      obtain ⟨h1, h2, _⟩ := validChar_facts hc
      exact good_of_head rfl h1 h2
  | List vs =>
    have hdata : (displayRMLValue (RMLValue.List vs)).data =
        '(' :: ((String.intercalate " " (displayRMLValues vs)).data ++ [')']) := by
      simp [displayRMLValue]
    rw [hdata]
    exact good_of_head rfl (by decide) (by decide)

/-- The join of rendered values starts with the first value's rendering. -/
theorem intercalate_head_decomp (b : RMLValue) (l : List RMLValue) :
    ∃ t, (String.intercalate " " (displayRMLValues (b :: l))).data =
      (displayRMLValue b).data ++ t := by
  cases l with
  | nil =>
    refine ⟨[], ?_⟩
    rw [show displayRMLValues [b] = [displayRMLValue b] from rfl,
      intercalate_sp_single]
    simp
  | cons c l2 =>
    refine ⟨' ' ::
      (String.intercalate " " (displayRMLValue c :: displayRMLValues l2)).data, ?_⟩
    rw [show displayRMLValues (b :: c :: l2) =
        displayRMLValue b :: displayRMLValue c :: displayRMLValues l2 from rfl,
      intercalate_sp_cons]
    simp

theorem intercalate_length_ge (vs : List RMLValue)
    (h : ∀ v ∈ vs, (displayRMLValue v).data ≠ []) :
    vs.length ≤ (String.intercalate " " (displayRMLValues vs)).data.length := by
  induction vs with
  | nil => simp
  | cons v vs' ih =>
    have hv : 1 ≤ (displayRMLValue v).data.length := by
      have hne := h v (by simp)
      cases hd : (displayRMLValue v).data with
      | nil => exact absurd hd hne
      | cons c t => simp
    cases vs' with
    | nil =>
      rw [show displayRMLValues [v] = [displayRMLValue v] from rfl,
        intercalate_sp_single]
      simpa using hv
    | cons b t =>
      have hih := ih (by intro w hw; exact h w (by simp [hw]))
      rw [show displayRMLValues (v :: b :: t) =
          displayRMLValue v :: displayRMLValue b :: displayRMLValues t from rfl,
        intercalate_sp_cons]
      have hih2 : (b :: t).length ≤ (String.intercalate " "
          (displayRMLValue b :: displayRMLValues t)).data.length := hih
      simp only [List.length_cons]
      simp only [List.length_cons] at hih2
      have hlen : (displayRMLValue v ++ " " ++ String.intercalate " "
          (displayRMLValue b :: displayRMLValues t)).data.length =
          (displayRMLValue v).data.length + 1 + (String.intercalate " "
          (displayRMLValue b :: displayRMLValues t)).data.length := by
        simp
        omega
      rw [hlen]
      omega

/-- The `many0` loop over rendered, space-separated list elements stops at
the closing parenthesis having collected exactly the elements. -/
theorem many0Go_values (f : ℕ) :
    ∀ (vs : List RMLValue) (gfuel : ℕ) (tail : List Char),
    (∀ v ∈ vs,
      (∀ r, FollowOk r → rml_valueF f ((displayRMLValue v).data ++ r) =
        .ok (r.dropWhile isMultispace, v)) ∧
      (displayRMLValue v).data ≠ [] ∧ GoodHead (displayRMLValue v).data) →
    vs.length < gfuel →
    many0Go (rml_valueF f) gfuel
      ((String.intercalate " " (displayRMLValues vs)).data ++ (')' :: tail)) =
      .ok (')' :: tail, vs) := by
  intro vs
  induction vs with
  | nil =>
    intro gfuel tail _ hg
    obtain ⟨g, rfl⟩ : ∃ g, gfuel = g + 1 := ⟨gfuel - 1, by omega⟩
    obtain ⟨e, he⟩ := rml_valueF_close_fail f tail
    have hshape : (String.intercalate " "
        (displayRMLValues ([] : List RMLValue))).data ++ (')' :: tail) =
        ')' :: tail := rfl
    rw [hshape]
    exact many0Go_step_err he
  | cons v vs' ihl =>
    intro gfuel tail hall hg
    obtain ⟨g, rfl⟩ : ∃ g, gfuel = g + 1 := ⟨gfuel - 1, by omega⟩
    have hv := hall v (by simp)
    have hrec := ihl g tail (by intro w hw; exact hall w (by simp [hw])) (by
      simp only [List.length_cons] at hg
      omega)
    cases vs' with
    | nil =>
      have hshape : (String.intercalate " " (displayRMLValues [v])).data ++
          (')' :: tail) = (displayRMLValue v).data ++ (')' :: tail) := by
        rw [show displayRMLValues [v] = [displayRMLValue v] from rfl,
          intercalate_sp_single]
      rw [hshape]
      have hfo : FollowOk (')' :: tail) :=
        followOk_close (goodHead_cons (by decide) (by decide))
      have hele := hv.1 (')' :: tail) hfo
      rw [dropWhile_ms_of_goodHead (goodHead_cons (by decide) (by decide))] at hele
      apply many0Go_step_ok hele
      · intro hl
        rcases List.exists_cons_of_ne_nil hv.2.1 with ⟨c, t, hct⟩
        rw [hct] at hl
        simp at hl
        omega
      · exact hrec
    | cons b vs'' =>
      have hbgood := hall b (by simp)
      obtain ⟨tjoin, htjoin⟩ := intercalate_head_decomp b vs''
      have hshape : (String.intercalate " "
          (displayRMLValues (v :: b :: vs''))).data ++ (')' :: tail) =
          (displayRMLValue v).data ++
            (' ' :: ((String.intercalate " "
              (displayRMLValues (b :: vs''))).data ++ (')' :: tail))) := by
        rw [show displayRMLValues (v :: b :: vs'') =
            displayRMLValue v :: displayRMLValue b :: displayRMLValues vs'' from rfl,
          intercalate_sp_cons]
        simp [show displayRMLValues (b :: vs'') =
          displayRMLValue b :: displayRMLValues vs'' from rfl]
      rw [hshape]
      have hjoin_good : GoodHead ((String.intercalate " "
          (displayRMLValues (b :: vs''))).data ++ (')' :: tail)) := by
        rw [htjoin, List.append_assoc]
        exact goodHead_append_left hbgood.2.1 hbgood.2.2
      have hfo : FollowOk (' ' :: ((String.intercalate " "
          (displayRMLValues (b :: vs''))).data ++ (')' :: tail))) :=
        followOk_space hjoin_good
      have hele := hv.1 _ hfo
      have hdropX : ((' ' :: ((String.intercalate " "
          (displayRMLValues (b :: vs''))).data ++ (')' :: tail))).dropWhile
            isMultispace) =
          (String.intercalate " " (displayRMLValues (b :: vs''))).data ++
            (')' :: tail) := by
        rw [show ((' ' :: ((String.intercalate " "
            (displayRMLValues (b :: vs''))).data ++ (')' :: tail))).dropWhile
              isMultispace) =
            ((String.intercalate " " (displayRMLValues (b :: vs''))).data ++
              (')' :: tail)).dropWhile isMultispace by
          simp [List.dropWhile, isMultispace]]
        exact dropWhile_ms_of_goodHead hjoin_good
      rw [hdropX] at hele
      apply many0Go_step_ok hele
      · intro hl
        rcases List.exists_cons_of_ne_nil hv.2.1 with ⟨c, t, hct⟩
        rw [hct] at hl
        simp at hl
        omega
      · exact hrec

/-- Value-level round trip: rendering a well-formed value and re-parsing
with the value grammar (with fuel at least the value's size) restores the
value and eats the trailing whitespace of a legal continuation. -/
theorem rml_valueF_display :
    ∀ k v, vsize v ≤ k → WFvalue v → ∀ fuel, vsize v ≤ fuel →
      ∀ rest, FollowOk rest →
      rml_valueF fuel ((displayRMLValue v).data ++ rest) =
        .ok (rest.dropWhile isMultispace, v) := by
  intro k
  induction k with
  | zero =>
    intro v hv
    exact absurd hv (by have := vsize_pos v; omega)
  | succ k ih =>
    intro v hv hwf fuel hfuel rest hrest
    obtain ⟨f, rfl⟩ : ∃ f, fuel = f + 1 := by
      have := vsize_pos v
      cases fuel with
      | zero => omega
      | succ f => exact ⟨f, rfl⟩
    rw [rml_valueF_succ]
    have hrestd : ∀ c, rest.head? = some c → c.isDigit = false := by
      intro c hc
      rcases followOk_head hrest c hc with rfl | rfl <;> decide
    cases v with
    | Float q => exact absurd hwf (by simp [WFvalue])
    | Num n =>
      have hw : -(2 ^ 31) ≤ n ∧ n ≤ 2 ^ 31 - 1 := hwf
      have hnum := rml_number_intToString n hw.1 hw.2 (w := rest)
        (by intro c hc; simp [hrestd c hc])
      obtain ⟨e, he⟩ := rml_float_fail_nodot hnum (by
        intro c hc
        rcases followOk_head hrest c hc with rfl | rfl <;> decide)
      have halt : altL [rml_float, rml_number, rml_symbol, rml_string, rml_listF f]
          ((intToString n).data ++ rest) = .ok (rest, RMLValue.Num n) := by
        rw [altL_cons_err he]
        exact altL_cons_ok hnum
      exact sce_wrap (displayValue_good hwf) hrest halt
    | Symbol sym =>
      have hw : WFsym sym ∧ NotNumHead sym := hwf
      have hnn := notNum_input hw.1.1 hw.2 hrestd
      obtain ⟨e1, he1⟩ := rml_number_fail hnn
      obtain ⟨e2, he2⟩ := rml_float_fail_notnum ⟨e1, he1⟩
      have hsym := rml_symbol_ok hw.1 (by
        intro c hc
        rcases followOk_head hrest c hc with rfl | rfl <;> decide)
      have halt : altL [rml_float, rml_number, rml_symbol, rml_string, rml_listF f]
          (sym.data ++ rest) = .ok (rest, RMLValue.Symbol sym) := by
        rw [altL_cons_err he2, altL_cons_err he1]
        exact altL_cons_ok hsym
      exact sce_wrap (displayValue_good hwf) hrest halt
    | Str str =>
      have hw : ∀ c ∈ str.data, c.toNat ≠ 0x22 ∧ c.toNat ≠ 0x5c := hwf
      have hshape : (displayRMLValue (RMLValue.Str str)).data ++ rest =
          '"' :: (str.data ++ ('"' :: rest)) := by
        simp [displayRMLValue]
      obtain ⟨e1, he1⟩ := rml_number_fail
        (headOnly_notnum (e := '"') (t := str.data ++ ('"' :: rest))
          (by decide) (by decide))
      obtain ⟨e2, he2⟩ := rml_float_fail_notnum ⟨e1, he1⟩
      obtain ⟨e3, he3⟩ := rml_symbol_fail
        (l := '"' :: (str.data ++ ('"' :: rest)))
        (by intro c hc; simp at hc; subst hc; decide)
      have hstr := rml_string_ok hw (w := rest)
      have halt : altL [rml_float, rml_number, rml_symbol, rml_string, rml_listF f]
          ((displayRMLValue (RMLValue.Str str)).data ++ rest) =
          .ok (rest, RMLValue.Str str) := by
        rw [hshape, altL_cons_err he2, altL_cons_err he1, altL_cons_err he3]
        exact altL_cons_ok hstr
      exact sce_wrap (displayValue_good hwf) hrest halt
    | List vs =>
      have hwv : WFvalues vs := hwf
      have hall : ∀ v2 ∈ vs,
          (∀ r, FollowOk r → rml_valueF f ((displayRMLValue v2).data ++ r) =
            .ok (r.dropWhile isMultispace, v2)) ∧
          (displayRMLValue v2).data ≠ [] ∧ GoodHead (displayRMLValue v2).data := by
        intro v2 hmem
        have hs := vsizes_mem_le hmem
        have hsz : vsize (RMLValue.List vs) = vsizes vs + 1 := rfl
        have hwf2 := WFvalues_mem hmem hwv
        exact ⟨fun r hr => ih v2 (by omega) hwf2 f (by omega) r hr,
          (displayValue_good hwf2).1, (displayValue_good hwf2).2⟩
      have hjoin_good : GoodHead ((String.intercalate " "
          (displayRMLValues vs)).data ++ (')' :: rest)) := by
        cases vs with
        | nil => exact goodHead_cons (by decide) (by decide)
        | cons b vs2 =>
          obtain ⟨t2, ht2⟩ := intercalate_head_decomp b vs2
          rw [ht2, List.append_assoc]
          have hb := hall b (by simp)
          exact goodHead_append_left hb.2.1 hb.2.2
      have hshape : (displayRMLValue (RMLValue.List vs)).data ++ rest =
          '(' :: ((String.intercalate " " (displayRMLValues vs)).data ++
            (')' :: rest)) := by
        simp [displayRMLValue]
      have hopen := sce_open_ok hjoin_good
      have hmany : many0 (rml_valueF f)
          ((String.intercalate " " (displayRMLValues vs)).data ++ (')' :: rest)) =
          .ok (')' :: rest, vs) := by
        unfold many0
        apply many0Go_values f vs _ rest hall
        have hlen := intercalate_length_ge vs (fun v2 h2 => (hall v2 h2).2.1)
        simp only [List.length_append, List.length_cons]
        omega
      have hclose := sce_close_ok hrest
      have hlist : rml_listF f ('(' :: ((String.intercalate " "
          (displayRMLValues vs)).data ++ (')' :: rest))) =
          .ok (rest.dropWhile isMultispace, RMLValue.List vs) := by
        unfold rml_listF delimitedP
        exact mapP_of_ok (terminatedP_of_ok (precededP_of_ok hopen hmany) hclose)
      obtain ⟨e1, he1⟩ := rml_number_fail
        (headOnly_notnum (e := '(')
          (t := (String.intercalate " " (displayRMLValues vs)).data ++ (')' :: rest))
          (by decide) (by decide))
      obtain ⟨e2, he2⟩ := rml_float_fail_notnum ⟨e1, he1⟩
      obtain ⟨e3, he3⟩ := rml_symbol_fail
        (l := '(' :: ((String.intercalate " " (displayRMLValues vs)).data ++
          (')' :: rest)))
        (by intro c hc; simp at hc; subst hc; decide)
      obtain ⟨e4, he4⟩ := rml_string_fail
        (l := '(' :: ((String.intercalate " " (displayRMLValues vs)).data ++
          (')' :: rest)))
        (by intro c hc; simp at hc; subst hc; decide)
      have halt : altL [rml_float, rml_number, rml_symbol, rml_string, rml_listF f]
          ((displayRMLValue (RMLValue.List vs)).data ++ rest) =
          .ok (rest.dropWhile isMultispace, RMLValue.List vs) := by
        rw [hshape, altL_cons_err he2, altL_cons_err he1, altL_cons_err he3,
          altL_cons_err he4, altL_single]
        exact hlist
      exact sce_wrap_dropped (displayValue_good hwf) hrest halt

/-! ### Generic lemmas for the parenthesised instruction forms -/

theorem WFsym_good {s : String} (h : WFsym s) : s.data ≠ [] ∧ GoodHead s.data := by
  cases hd : s.data with
  | nil => exact absurd hd h.1
  | cons c t =>
    have hc : isValidSymbolChar c = true := by
      apply h.2.1
      rw [hd]
      simp
    obtain ⟨h1, h2, _⟩ := validChar_facts hc
    exact good_of_head rfl h1 h2

/-- `sce` around a token parser that consumes `tok` out of
`tok ++ ' ' :: body`: the separating space is eaten. -/
theorem sce_token_ok {α : Type} {inner : Parser α} {tok body : List Char} {v : α}
    (htok : GoodHead tok) (hne : tok ≠ []) (hb : GoodHead body)
    (hinner : inner (tok ++ ' ' :: body) = .ok (' ' :: body, v)) :
    sce inner (tok ++ ' ' :: body) = .ok (body, v) := by
  have hdrop : (tok ++ ' ' :: body).dropWhile isMultispace = tok ++ ' ' :: body := by
    cases tok with
    | nil => exact absurd rfl hne
    | cons c t => simp [List.dropWhile, (htok c rfl).1]
  have h1 : ∀ c, (tok ++ ' ' :: body).head? = some c → c ≠ ';' := by
    cases tok with
    | nil => exact absurd rfl hne
    | cons c t =>
      intro d hd
      simp only [List.cons_append, List.head?_cons, Option.some.injEq] at hd
      subst hd
      exact (htok _ rfl).2
  have hdropmid : (' ' :: body).dropWhile isMultispace = body := by
    rw [show ((' ' :: body).dropWhile isMultispace) = body.dropWhile isMultispace by
      simp [List.dropWhile, isMultispace]]
    exact dropWhile_ms_of_goodHead hb
  have h := sce_of_ok hdrop h1 hinner
    (by intro c hc; simp at hc; subst hc; decide)
    (by rw [hdropmid]; exact goodHead_ne_semi hb)
  rwa [hdropmid] at h

/-- A `(` keyword … `)` form succeeds once its interior does. -/
theorem paren_form_ok {α β : Type} {inner : Parser α} {f : α → β}
    {body rest : List Char} {val : α}
    (hb : GoodHead body)
    (hinner : inner body = .ok (')' :: rest, val))
    (hrest : FollowOk rest) :
    mapP (delimitedP (sce (charP '(')) inner (sce (charP ')'))) f
      ('(' :: body) = .ok (rest.dropWhile isMultispace, f val) := by
  unfold delimitedP
  exact mapP_of_ok (terminatedP_of_ok (precededP_of_ok (sce_open_ok hb) hinner)
    (sce_close_ok hrest))

/-- A `(` keyword … `)` form whose keyword does not match fails
recoverably. -/
theorem paren_kw_fail {α β : Type} {kw : List Char} {sub : Parser α}
    {fmap : α → β} {body : List Char}
    (hb : GoodHead body) (hpre : kw.isPrefixOf body = false) :
    mapP (delimitedP (sce (charP '(')) (precededP (sce (tagP kw)) sub)
      (sce (charP ')'))) fmap ('(' :: body) =
      .error (.err (.ParseFailure body .tagK)) := by
  have hsce : sce (tagP kw) body = .error (.err (.ParseFailure body .tagK)) :=
    sce_of_err (dropWhile_ms_of_goodHead hb) (goodHead_ne_semi hb)
      (tagP_of_mismatch hpre)
  unfold delimitedP
  exact mapP_of_err (terminatedP_of_err1 (precededP_of_err2 (sce_open_ok hb)
    (precededP_of_err1 hsce)))

/-- A two-keyword `(` form (`save`/`restore`, `test`/`perform`) with
neither keyword matching fails recoverably. -/
theorem paren_2kw_fail {α β : Type} {kw1 kw2 : List Char} {sub : Parser α}
    {fmap : List Char × α → β} {body : List Char}
    (hb : GoodHead body) (h1 : kw1.isPrefixOf body = false)
    (h2 : kw2.isPrefixOf body = false) :
    mapP (delimitedP (sce (charP '(')) (pairP (sce (altL [tagP kw1, tagP kw2])) sub)
      (sce (charP ')'))) fmap ('(' :: body) =
      .error (.err (.ParseFailure body .tagK)) := by
  have halt : altL [tagP kw1, tagP kw2] body =
      .error (.err (.ParseFailure body .tagK)) := by
    rw [altL_cons_err (tagP_of_mismatch h1), altL_single]
    exact tagP_of_mismatch h2
  have hsce := sce_of_err (dropWhile_ms_of_goodHead hb) (goodHead_ne_semi hb) halt
  unfold delimitedP
  exact mapP_of_err (terminatedP_of_err1 (precededP_of_err2 (sce_open_ok hb)
    (pairP_of_err1 hsce)))

/-- Any `(`-delimited form fails recoverably when the input does not open
with `(`. -/
theorem paren_nohead_fail {α β : Type} {inner : Parser α} {fmap : α → β}
    {input : List Char}
    (hg : input.dropWhile isMultispace = input)
    (hsemi : ∀ c, input.head? = some c → c ≠ ';')
    (hne : ∀ c, input.head? = some c → c ≠ '(') :
    mapP (delimitedP (sce (charP '(')) inner (sce (charP ')'))) fmap input =
      .error (.err (.ParseFailure input .charK)) := by
  have hc : charP '(' input = .error (.err (.ParseFailure input .charK)) := by
    cases input with
    | nil => exact charP_of_nil
    | cons c t => exact charP_of_ne (hne c rfl)
  have hsce := sce_of_err hg hsemi hc
  unfold delimitedP
  exact mapP_of_err (terminatedP_of_err1 (precededP_of_err1 hsce))

theorem sce_alt2_tag_ok_1 {a b body : List Char}
    (hkw : GoodHead a) (hne : a ≠ []) (hb : GoodHead body) :
    sce (altL [tagP a, tagP b]) (a ++ ' ' :: body) = .ok (body, a) :=
  sce_token_ok hkw hne hb (altL_cons_ok tagP_of_append)

theorem sce_alt2_tag_ok_2 {a b body : List Char}
    (hkw : GoodHead b) (hne : b ≠ []) (hb : GoodHead body)
    (hpre : a.isPrefixOf (b ++ ' ' :: body) = false) :
    sce (altL [tagP a, tagP b]) (b ++ ' ' :: body) = .ok (body, b) := by
  apply sce_token_ok hkw hne hb
  rw [altL_cons_err (tagP_of_mismatch hpre), altL_single]
  exact tagP_of_append

/-! ### The argument loop of `operation` -/

theorem displayRMLNodes_eq_map (ns : List RMLNode) :
    displayRMLNodes ns = ns.map displayRMLNode := by
  induction ns with
  | nil => rfl
  | cons n t ih => simp [displayRMLNodes, ih]

theorem intercalate_head_decomp_str (b : String) (l : List String) :
    ∃ t, (String.intercalate " " (b :: l)).data = b.data ++ t := by
  cases l with
  | nil =>
    refine ⟨[], ?_⟩
    rw [intercalate_sp_single]
    simp
  | cons c l2 =>
    refine ⟨' ' :: (String.intercalate " " (c :: l2)).data, ?_⟩
    rw [intercalate_sp_cons]
    simp

theorem intercalate_length_ge_str (ss : List String) (h : ∀ a ∈ ss, a.data ≠ []) :
    ss.length ≤ (String.intercalate " " ss).data.length := by
  induction ss with
  | nil => simp
  | cons a ss' ih =>
    have ha : 1 ≤ a.data.length := by
      have hne := h a (by simp)
      cases hd : a.data with
      | nil => exact absurd hd hne
      | cons c t => simp
    cases ss' with
    | nil =>
      rw [intercalate_sp_single]
      simpa using ha
    | cons b t =>
      have hih := ih (by intro w hw; exact h w (by simp [hw]))
      rw [intercalate_sp_cons]
      simp only [List.length_cons] at *
      have hlen : (a ++ " " ++ String.intercalate " " (b :: t)).data.length =
          a.data.length + 1 + (String.intercalate " " (b :: t)).data.length := by
        simp
        omega
      rw [hlen]
      omega

/-- The `many0` loop over rendered, space-separated items of any type. -/
theorem many0Go_items {β : Type} (p : Parser β) (d : β → String) :
    ∀ (items : List β) (gfuel : ℕ) (tail : List Char),
    (∀ b ∈ items,
      (∀ r, FollowOk r → p ((d b).data ++ r) = .ok (r.dropWhile isMultispace, b)) ∧
      (d b).data ≠ [] ∧ GoodHead (d b).data) →
    (∃ e, p (')' :: tail) = .error (.err e)) →
    items.length < gfuel →
    many0Go p gfuel ((String.intercalate " " (items.map d)).data ++ (')' :: tail)) =
      .ok (')' :: tail, items) := by
  intro items
  induction items with
  | nil =>
    intro gfuel tail _ hclose hg
    obtain ⟨g, rfl⟩ : ∃ g, gfuel = g + 1 := ⟨gfuel - 1, by omega⟩
    obtain ⟨e, he⟩ := hclose
    exact many0Go_step_err he
  | cons v vs' ihl =>
    intro gfuel tail hall hclose hg
    obtain ⟨g, rfl⟩ : ∃ g, gfuel = g + 1 := ⟨gfuel - 1, by omega⟩
    have hv := hall v (by simp)
    have hrec := ihl g tail (by intro w hw; exact hall w (by simp [hw])) hclose (by
      simp only [List.length_cons] at hg
      omega)
    cases vs' with
    | nil =>
      have hshape : (String.intercalate " " (([v].map d))).data ++ (')' :: tail) =
          (d v).data ++ (')' :: tail) := by
        rw [show [v].map d = [d v] from rfl, intercalate_sp_single]
      rw [hshape]
      have hfo : FollowOk (')' :: tail) :=
        followOk_close (goodHead_cons (by decide) (by decide))
      have hele := hv.1 (')' :: tail) hfo
      rw [dropWhile_ms_of_goodHead (goodHead_cons (by decide) (by decide))] at hele
      apply many0Go_step_ok hele
      · intro hl
        rcases List.exists_cons_of_ne_nil hv.2.1 with ⟨c, t, hct⟩
        rw [hct] at hl
        simp at hl
        omega
      · exact hrec
    | cons b vs'' =>
      have hbgood := hall b (by simp)
      obtain ⟨tjoin, htjoin⟩ := intercalate_head_decomp_str (d b) (vs''.map d)
      have hshape : (String.intercalate " " ((v :: b :: vs'').map d)).data ++
          (')' :: tail) =
          (d v).data ++ (' ' :: ((String.intercalate " "
            ((b :: vs'').map d)).data ++ (')' :: tail))) := by
        rw [show (v :: b :: vs'').map d = d v :: d b :: vs''.map d from rfl,
          intercalate_sp_cons]
        simp [show (b :: vs'').map d = d b :: vs''.map d from rfl]
      rw [hshape]
      have hjoin_good : GoodHead ((String.intercalate " "
          ((b :: vs'').map d)).data ++ (')' :: tail)) := by
        rw [show (b :: vs'').map d = d b :: vs''.map d from rfl, htjoin,
          List.append_assoc]
        exact goodHead_append_left hbgood.2.1 hbgood.2.2
      have hfo : FollowOk (' ' :: ((String.intercalate " "
          ((b :: vs'').map d)).data ++ (')' :: tail))) :=
        followOk_space hjoin_good
      have hele := hv.1 _ hfo
      have hdropX : ((' ' :: ((String.intercalate " "
          ((b :: vs'').map d)).data ++ (')' :: tail))).dropWhile isMultispace) =
          (String.intercalate " " ((b :: vs'').map d)).data ++ (')' :: tail) := by
        rw [show ((' ' :: ((String.intercalate " "
            ((b :: vs'').map d)).data ++ (')' :: tail))).dropWhile isMultispace) =
            ((String.intercalate " " ((b :: vs'').map d)).data ++
              (')' :: tail)).dropWhile isMultispace by
          simp [List.dropWhile, isMultispace]]
        exact dropWhile_ms_of_goodHead hjoin_good
      rw [hdropX] at hele
      apply many0Go_step_ok hele
      · intro hl
        rcases List.exists_cons_of_ne_nil hv.2.1 with ⟨c, t, hct⟩
        rw [hct] at hl
        simp at hl
        omega
      · exact hrec

/-! ### Per-form display/re-parse lemmas -/

theorem nsizes_mem_le {a : RMLNode} {ns : List RMLNode} (h : a ∈ ns) :
    nsize a ≤ nsizes ns := by
  induction ns with
  | nil => simp at h
  | cons w ws ih =>
    rcases List.mem_cons.mp h with rfl | h2
    · show nsize a ≤ nsize a + nsizes ws
      omega
    · have := ih h2
      show _ ≤ nsize w + nsizes ws
      omega

theorem WFopargs_mem {a : RMLNode} {ns : List RMLNode} (h : a ∈ ns)
    (hwf : WFopargs ns) : WFoparg a := by
  induction ns with
  | nil => simp at h
  | cons w ws ih =>
    have hw : WFoparg w ∧ WFopargs ws := hwf
    rcases List.mem_cons.mp h with rfl | h2
    · exact hw.1
    · exact ih h2 hw.2

theorem WFoparg_node {a : RMLNode} (h : WFoparg a) : WFnode a := by
  cases a
  case Constant v => exact h
  case Reg r => exact h
  all_goals exact False.elim h

/-- The rendering of a well-formed node is nonempty and opens with a
printable non-comment character. -/
theorem displayNode_good {n : RMLNode} (h : WFnode n) :
    (displayRMLNode n).data ≠ [] ∧ GoodHead (displayRMLNode n).data := by
  cases n
  case Symbol s => exact WFsym_good h
  case List vs => exact False.elim h
  all_goals exact good_of_head rfl (by decide) (by decide)

theorem WFrhs_display_good {rhs : RMLNode} (h : WFrhs rhs) :
    (displayRMLNode rhs).data ≠ [] ∧ GoodHead (displayRMLNode rhs).data := by
  cases rhs
  case Constant v => exact good_of_head rfl (by decide) (by decide)
  case Reg r => exact good_of_head rfl (by decide) (by decide)
  case Label l => exact good_of_head rfl (by decide) (by decide)
  case Operation nm args => exact good_of_head rfl (by decide) (by decide)
  all_goals exact False.elim h

theorem rml_reg_display {r : String} (h : WFsym r) {rest : List Char}
    (hrest : FollowOk rest) :
    rml_reg ((displayRMLNode (RMLNode.Reg r)).data ++ rest) =
      .ok (rest.dropWhile isMultispace, RMLNode.Reg r) := by
  have hshape : (displayRMLNode (RMLNode.Reg r)).data ++ rest =
      '(' :: (['r', 'e', 'g'] ++ (' ' :: (r.data ++ (')' :: rest)))) := by
    simp [displayRMLNode]
  have hb2 : GoodHead (r.data ++ (')' :: rest)) :=
    goodHead_append_left (WFsym_good h).1 (WFsym_good h).2
  have hsym := valid_symbol_ok h (w := ')' :: rest)
    (by intro c hc; simp at hc; subst hc; decide)
  have hinner := precededP_of_ok
    (sce_tag_ok (z := ['r', 'e', 'g'])
      (goodHead_cons (by decide) (by decide)) (by simp) hb2) hsym
  have hres := paren_form_ok (β := RMLNode)
    (f := fun s => RMLNode.Reg (String.mk s))
    (goodHead_cons (by decide) (by decide)) hinner hrest
  rw [hshape]
  unfold rml_reg
  simpa [String_mk_data] using hres

theorem rml_label_display {l : String} (h : WFsym l) {w : List Char}
    (hrest : FollowOk w) :
    rml_label ((displayRMLNode (RMLNode.Label l)).data ++ w) =
      .ok (w.dropWhile isMultispace, RMLNode.Label l) := by
  have hshape : (displayRMLNode (RMLNode.Label l)).data ++ w =
      '(' :: (['l', 'a', 'b', 'e', 'l'] ++ (' ' :: (l.data ++ (')' :: w)))) := by
    simp [displayRMLNode]
  have hb2 : GoodHead (l.data ++ (')' :: w)) :=
    goodHead_append_left (WFsym_good h).1 (WFsym_good h).2
  have hsym := valid_symbol_ok h (w := ')' :: w)
    (by intro c hc; simp at hc; subst hc; decide)
  have hinner := precededP_of_ok
    (sce_tag_ok (z := ['l', 'a', 'b', 'e', 'l'])
      (goodHead_cons (by decide) (by decide)) (by simp) hb2) hsym
  have hres := paren_form_ok (β := RMLNode)
    (f := fun n => RMLNode.Label (String.mk n))
    (goodHead_cons (by decide) (by decide)) hinner hrest
  rw [hshape]
  unfold rml_label
  simpa [String_mk_data] using hres

theorem rml_constF_display (fuel : ℕ) {v : RMLValue} (hv : WFvalue v)
    (hfuel : vsize v ≤ fuel) {rest : List Char} (hrest : FollowOk rest) :
    rml_constF fuel ((displayRMLNode (RMLNode.Constant v)).data ++ rest) =
      .ok (rest.dropWhile isMultispace, RMLNode.Constant v) := by
  have hshape : (displayRMLNode (RMLNode.Constant v)).data ++ rest =
      '(' :: (['c', 'o', 'n', 's', 't'] ++ (' ' ::
        ((displayRMLValue v).data ++ (')' :: rest)))) := by
    simp [displayRMLNode]
  have hval := rml_valueF_display (vsize v) v le_rfl hv fuel hfuel (')' :: rest)
    (followOk_close (goodHead_cons (by decide) (by decide)))
  rw [dropWhile_ms_of_goodHead (goodHead_cons (by decide) (by decide))] at hval
  have hb2 : GoodHead ((displayRMLValue v).data ++ (')' :: rest)) :=
    goodHead_append_left (displayValue_good hv).1 (displayValue_good hv).2
  have hinner := precededP_of_ok
    (sce_tag_ok (z := ['c', 'o', 'n', 's', 't'])
      (goodHead_cons (by decide) (by decide)) (by simp) hb2) hval
  have hres := paren_form_ok (β := RMLNode) (f := RMLNode.Constant)
    (goodHead_cons (by decide) (by decide)) hinner hrest
  rw [hshape]
  unfold rml_constF
  simpa using hres

theorem rml_branch_display {l : String} (h : WFsym l) {rest : List Char}
    (hrest : FollowOk rest) :
    rml_branch ((displayRMLNode (RMLNode.Branch (RMLNode.Label l))).data ++ rest) =
      .ok (rest.dropWhile isMultispace, RMLNode.Branch (RMLNode.Label l)) := by
  have hshape : (displayRMLNode (RMLNode.Branch (RMLNode.Label l))).data ++ rest =
      '(' :: (['b', 'r', 'a', 'n', 'c', 'h'] ++ (' ' ::
        ((displayRMLNode (RMLNode.Label l)).data ++ (')' :: rest)))) := by
    simp [displayRMLNode]
  have hlab := rml_label_display h (w := ')' :: rest)
    (followOk_close (goodHead_cons (by decide) (by decide)))
  rw [dropWhile_ms_of_goodHead (goodHead_cons (by decide) (by decide))] at hlab
  have hb2 : GoodHead ((displayRMLNode (RMLNode.Label l)).data ++ (')' :: rest)) :=
    goodHead_append_left (displayNode_good (n := RMLNode.Label l) h).1
      (displayNode_good (n := RMLNode.Label l) h).2
  have hinner := precededP_of_ok
    (sce_tag_ok (z := ['b', 'r', 'a', 'n', 'c', 'h'])
      (goodHead_cons (by decide) (by decide)) (by simp) hb2) hlab
  have hres := paren_form_ok (β := RMLNode) (f := RMLNode.Branch)
    (goodHead_cons (by decide) (by decide)) hinner hrest
  rw [hshape]
  unfold rml_branch
  simpa using hres

theorem rml_label_fail_on_reg {r : String} {s : List Char} :
    ∃ e, rml_label ((displayRMLNode (RMLNode.Reg r)).data ++ s) =
      .error (.err e) := by
  have hshape2 : (displayRMLNode (RMLNode.Reg r)).data ++ s =
      '(' :: (['r', 'e', 'g'] ++ (' ' :: (r.data ++ (')' :: s)))) := by
    simp [displayRMLNode]
  refine ⟨.ParseFailure (['r', 'e', 'g'] ++
    (' ' :: (r.data ++ (')' :: s)))) .tagK, ?_⟩
  rw [hshape2]
  unfold rml_label
  exact paren_kw_fail (goodHead_cons (by decide) (by decide)) rfl

theorem rml_goto_display {target : RMLNode} (h : WFgoto target) {rest : List Char}
    (hrest : FollowOk rest) :
    rml_goto ((displayRMLNode (RMLNode.GotoLabel target)).data ++ rest) =
      .ok (rest.dropWhile isMultispace, RMLNode.GotoLabel target) := by
  have hfo : FollowOk (')' :: rest) :=
    followOk_close (goodHead_cons (by decide) (by decide))
  have hdrop : ((')' :: rest).dropWhile isMultispace) = ')' :: rest :=
    dropWhile_ms_of_goodHead (goodHead_cons (by decide) (by decide))
  have halt : altL [rml_label, rml_reg]
      ((displayRMLNode target).data ++ (')' :: rest)) =
      .ok (')' :: rest, target) := by
    cases target
    case Label l =>
      have hlab := rml_label_display (l := l) h hfo
      rw [hdrop] at hlab
      exact altL_cons_ok hlab
    case Reg r =>
      have hregok := rml_reg_display (r := r) h hfo
      rw [hdrop] at hregok
      obtain ⟨e, he⟩ := rml_label_fail_on_reg (r := r) (s := ')' :: rest)
      rw [altL_cons_err he, altL_single]
      exact hregok
    all_goals exact False.elim h
  have hgood : GoodHead ((displayRMLNode target).data ++ (')' :: rest)) := by
    cases target
    case Label l =>
      exact goodHead_append_left (displayNode_good (n := RMLNode.Label l) h).1
        (displayNode_good (n := RMLNode.Label l) h).2
    case Reg r =>
      exact goodHead_append_left (displayNode_good (n := RMLNode.Reg r) h).1
        (displayNode_good (n := RMLNode.Reg r) h).2
    all_goals exact False.elim h
  have hshape : (displayRMLNode (RMLNode.GotoLabel target)).data ++ rest =
      '(' :: (['g', 'o', 't', 'o'] ++ (' ' ::
        ((displayRMLNode target).data ++ (')' :: rest)))) := by
    simp [displayRMLNode]
  have hinner := precededP_of_ok
    (sce_tag_ok (z := ['g', 'o', 't', 'o'])
      (goodHead_cons (by decide) (by decide)) (by simp) hgood) halt
  have hres := paren_form_ok (β := RMLNode) (f := RMLNode.GotoLabel)
    (goodHead_cons (by decide) (by decide)) hinner hrest
  rw [hshape]
  unfold rml_goto
  simpa using hres

theorem rml_save_restore_display {r : String} (h : WFsym r)
    {rest : List Char} (hrest : FollowOk rest) :
    rml_save_and_restore ((displayRMLNode (RMLNode.Save r)).data ++ rest) =
      .ok (rest.dropWhile isMultispace, RMLNode.Save r) ∧
    rml_save_and_restore ((displayRMLNode (RMLNode.Restore r)).data ++ rest) =
      .ok (rest.dropWhile isMultispace, RMLNode.Restore r) := by
  have hb2 : GoodHead (r.data ++ (')' :: rest)) :=
    goodHead_append_left (WFsym_good h).1 (WFsym_good h).2
  have hsym := valid_symbol_ok h (w := ')' :: rest)
    (by intro c hc; simp at hc; subst hc; decide)
  constructor
  · have hshape : (displayRMLNode (RMLNode.Save r)).data ++ rest =
        '(' :: (['s', 'a', 'v', 'e'] ++ (' ' :: (r.data ++ (')' :: rest)))) := by
      simp [displayRMLNode]
    have htag := sce_alt2_tag_ok_1
      (a := ['s', 'a', 'v', 'e']) (b := ['r', 'e', 's', 't', 'o', 'r', 'e'])
      (goodHead_cons (by decide) (by decide)) (by simp) hb2
    have hinner := pairP_of_ok htag hsym
    have hres := paren_form_ok (β := RMLNode)
      (f := fun x => if x.1 = ['r', 'e', 's', 't', 'o', 'r', 'e'] then
        RMLNode.Restore (String.mk x.2) else RMLNode.Save (String.mk x.2))
      (goodHead_cons (by decide) (by decide)) hinner hrest
    rw [hshape]
    unfold rml_save_and_restore
    simpa [String_mk_data] using hres
  · have hshape : (displayRMLNode (RMLNode.Restore r)).data ++ rest =
        '(' :: (['r', 'e', 's', 't', 'o', 'r', 'e'] ++
          (' ' :: (r.data ++ (')' :: rest)))) := by
      simp [displayRMLNode]
    have htag := sce_alt2_tag_ok_2
      (a := ['s', 'a', 'v', 'e']) (b := ['r', 'e', 's', 't', 'o', 'r', 'e'])
      (goodHead_cons (by decide) (by decide)) (by simp) hb2 rfl
    have hinner := pairP_of_ok htag hsym
    have hres := paren_form_ok (β := RMLNode)
      (f := fun x => if x.1 = ['r', 'e', 's', 't', 'o', 'r', 'e'] then
        RMLNode.Restore (String.mk x.2) else RMLNode.Save (String.mk x.2))
      (goodHead_cons (by decide) (by decide)) hinner hrest
    rw [hshape]
    unfold rml_save_and_restore
    simpa [String_mk_data] using hres

theorem operation_argF_close_fail (fuel : ℕ) (l : List Char) :
    ∃ e, operation_argF fuel (')' :: l) = .error (.err e) := by
  have hconst : rml_constF fuel (')' :: l) =
      .error (.err (.ParseFailure (')' :: l) .charK)) := by
    unfold rml_constF
    exact paren_nohead_fail (by simp [List.dropWhile, isMultispace])
      (by intro c hc; simp at hc; subst hc; decide)
      (by intro c hc; simp at hc; subst hc; decide)
  have hreg : rml_reg (')' :: l) =
      .error (.err (.ParseFailure (')' :: l) .charK)) := by
    unfold rml_reg
    exact paren_nohead_fail (by simp [List.dropWhile, isMultispace])
      (by intro c hc; simp at hc; subst hc; decide)
      (by intro c hc; simp at hc; subst hc; decide)
  refine ⟨.ParseFailure (')' :: l) .charK, ?_⟩
  unfold operation_argF
  apply sce_of_err (by simp [List.dropWhile, isMultispace])
    (by intro c hc; simp at hc; subst hc; decide)
  rw [altL_cons_err hconst, altL_single]
  exact hreg

theorem rml_constF_fail_on_reg (fuel : ℕ) {r : String} {s : List Char} :
    ∃ e, rml_constF fuel ((displayRMLNode (RMLNode.Reg r)).data ++ s) =
      .error (.err e) := by
  have hshape2 : (displayRMLNode (RMLNode.Reg r)).data ++ s =
      '(' :: (['r', 'e', 'g'] ++ (' ' :: (r.data ++ (')' :: s)))) := by
    simp [displayRMLNode]
  refine ⟨.ParseFailure (['r', 'e', 'g'] ++
    (' ' :: (r.data ++ (')' :: s)))) .tagK, ?_⟩
  rw [hshape2]
  unfold rml_constF
  exact paren_kw_fail (goodHead_cons (by decide) (by decide)) rfl

/-- An operation argument (a `(const …)` or `(reg …)` node) re-parses from
its rendering. -/
theorem operation_argF_display (fuel : ℕ) {a : RMLNode} (h : WFoparg a)
    (hfuel : nsize a ≤ fuel) {r : List Char} (hr : FollowOk r) :
    operation_argF fuel ((displayRMLNode a).data ++ r) =
      .ok (r.dropWhile isMultispace, a) := by
  unfold operation_argF
  cases a
  case Constant v =>
    have hv : WFvalue v := h
    have hsz : nsize (RMLNode.Constant v) = vsize v + 1 := rfl
    have hc := rml_constF_display fuel hv (by omega) hr
    apply sce_wrap_dropped
      (displayNode_good (n := RMLNode.Constant v) hv) hr
    exact altL_cons_ok hc
  case Reg rr =>
    have hw : WFsym rr := h
    have hregok := rml_reg_display hw hr
    obtain ⟨e, he⟩ := rml_constF_fail_on_reg fuel (r := rr) (s := r)
    apply sce_wrap_dropped (displayNode_good (n := RMLNode.Reg rr) hw) hr
    rw [altL_cons_err he, altL_single]
    exact hregok
  all_goals exact False.elim h

/-- Package the per-argument facts needed by the `many0` argument loop. -/
theorem opargs_all (fuel : ℕ) {args : List RMLNode} (h : WFopargs args)
    (hfuel : nsizes args ≤ fuel) :
    ∀ a ∈ args,
      (∀ r2, FollowOk r2 → operation_argF fuel ((displayRMLNode a).data ++ r2) =
        .ok (r2.dropWhile isMultispace, a)) ∧
      (displayRMLNode a).data ≠ [] ∧ GoodHead (displayRMLNode a).data := by
  intro a ha
  have hw : WFoparg a := WFopargs_mem ha h
  have hs : nsize a ≤ nsizes args := nsizes_mem_le ha
  have hnode : WFnode a := WFoparg_node hw
  exact ⟨fun r2 hr2 => operation_argF_display fuel hw (by omega) hr2,
    (displayNode_good hnode).1, (displayNode_good hnode).2⟩

/-- An `(op name) arg*` node re-parses from its rendering, stopping at the
enclosing instruction's closing parenthesis. -/
theorem operationF_display (fuel : ℕ) {op_name : String} {args : List RMLNode}
    (hname : WFsym op_name)
    (hall : ∀ a ∈ args,
      (∀ r2, FollowOk r2 → operation_argF fuel ((displayRMLNode a).data ++ r2) =
        .ok (r2.dropWhile isMultispace, a)) ∧
      (displayRMLNode a).data ≠ [] ∧ GoodHead (displayRMLNode a).data)
    {w : List Char} :
    operationF fuel ((displayRMLNode (RMLNode.Operation op_name args)).data ++
      (')' :: w)) = .ok (')' :: w, RMLNode.Operation op_name args) := by
  have hX : GoodHead ((String.intercalate " " (args.map displayRMLNode)).data ++
      (')' :: w)) := by
    cases args with
    | nil => exact goodHead_cons (by decide) (by decide)
    | cons b t =>
      obtain ⟨tj, htj⟩ := intercalate_head_decomp_str (displayRMLNode b)
        (t.map displayRMLNode)
      rw [show (b :: t).map displayRMLNode =
          displayRMLNode b :: t.map displayRMLNode from rfl, htj, List.append_assoc]
      have hb := hall b (by simp)
      exact goodHead_append_left hb.2.1 hb.2.2
  have hshape : (displayRMLNode (RMLNode.Operation op_name args)).data ++
      (')' :: w) =
      '(' :: (['o', 'p'] ++ (' ' :: (op_name.data ++ (')' :: (' ' ::
        ((String.intercalate " " (args.map displayRMLNode)).data ++
          (')' :: w))))))) := by
    simp [displayRMLNode, displayRMLNodes_eq_map]
  have hopname : operation_name ('(' :: (['o', 'p'] ++ (' ' :: (op_name.data ++
      (')' :: (' ' :: ((String.intercalate " " (args.map displayRMLNode)).data ++
        (')' :: w)))))))) =
      .ok ((String.intercalate " " (args.map displayRMLNode)).data ++
        (')' :: w), op_name.data) := by
    unfold operation_name delimitedP
    have hvs := valid_symbol_ok hname (w := ')' :: (' ' ::
        ((String.intercalate " " (args.map displayRMLNode)).data ++ (')' :: w))))
      (by intro c hc; simp at hc; subst hc; decide)
    have hbody : GoodHead (op_name.data ++ (')' :: (' ' ::
        ((String.intercalate " " (args.map displayRMLNode)).data ++
          (')' :: w))))) :=
      goodHead_append_left (WFsym_good hname).1 (WFsym_good hname).2
    have hclose : sce (charP ')') (')' :: (' ' ::
        ((String.intercalate " " (args.map displayRMLNode)).data ++
          (')' :: w)))) =
        .ok ((' ' :: ((String.intercalate " " (args.map displayRMLNode)).data ++
          (')' :: w))).dropWhile isMultispace, ')') :=
      sce_close_ok (followOk_space hX)
    have hdropX : (' ' :: ((String.intercalate " "
        (args.map displayRMLNode)).data ++ (')' :: w))).dropWhile isMultispace =
        (String.intercalate " " (args.map displayRMLNode)).data ++ (')' :: w) := by
      rw [show (' ' :: ((String.intercalate " "
          (args.map displayRMLNode)).data ++ (')' :: w))).dropWhile isMultispace =
          ((String.intercalate " " (args.map displayRMLNode)).data ++
            (')' :: w)).dropWhile isMultispace by
        simp [List.dropWhile, isMultispace]]
      exact dropWhile_ms_of_goodHead hX
    rw [hdropX] at hclose
    exact terminatedP_of_ok
      (precededP_of_ok (sce_open_ok (goodHead_cons (by decide) (by decide)))
        (precededP_of_ok
          (sce_tag_ok (z := ['o', 'p'])
            (goodHead_cons (by decide) (by decide)) (by simp) hbody) hvs))
      hclose
  have hmany : many0 (operation_argF fuel)
      ((String.intercalate " " (args.map displayRMLNode)).data ++ (')' :: w)) =
      .ok (')' :: w, args) := by
    unfold many0
    apply many0Go_items (operation_argF fuel) displayRMLNode args _ w hall
      (operation_argF_close_fail fuel w)
    have hlen := intercalate_length_ge_str (args.map displayRMLNode)
      (by intro a2 ha2
          rcases List.mem_map.mp ha2 with ⟨n2, hn2, rfl⟩
          exact (hall n2 hn2).2.1)
    simp only [List.length_append, List.length_cons, List.length_map] at *
    omega
  rw [hshape]
  unfold operationF
  rw [mapP_of_ok (pairP_of_ok hopname hmany), String_mk_data]

/-- `(test (op …) …)` and `(perform (op …) …)` re-parse from their
renderings. -/
theorem rml_apply_display (fuel : ℕ) {op_name : String} {args : List RMLNode}
    (hname : WFsym op_name) (hargs : WFopargs args) (hfuel : nsizes args ≤ fuel)
    {rest : List Char} (hrest : FollowOk rest) :
    rml_apply_operationF fuel
      ((displayRMLNode (RMLNode.TestOp (RMLNode.Operation op_name args))).data ++
        rest) =
      .ok (rest.dropWhile isMultispace,
        RMLNode.TestOp (RMLNode.Operation op_name args)) ∧
    rml_apply_operationF fuel
      ((displayRMLNode (RMLNode.PerformOp (RMLNode.Operation op_name args))).data ++
        rest) =
      .ok (rest.dropWhile isMultispace,
        RMLNode.PerformOp (RMLNode.Operation op_name args)) := by
  have hall := opargs_all fuel hargs hfuel
  have hop := operationF_display fuel hname hall (w := rest)
  have hopg := good_of_head
    (l := (displayRMLNode (RMLNode.Operation op_name args)).data)
    (c := '(') rfl (by decide) (by decide)
  have hopgood : GoodHead ((displayRMLNode
      (RMLNode.Operation op_name args)).data ++ (')' :: rest)) :=
    goodHead_append_left hopg.1 hopg.2
  constructor
  · have hshape : (displayRMLNode (RMLNode.TestOp
        (RMLNode.Operation op_name args))).data ++ rest =
        '(' :: (['t', 'e', 's', 't'] ++ (' ' ::
          ((displayRMLNode (RMLNode.Operation op_name args)).data ++
            (')' :: rest)))) := by
      simp [displayRMLNode]
    have htag := sce_alt2_tag_ok_1
      (a := ['t', 'e', 's', 't'])
      (b := ['p', 'e', 'r', 'f', 'o', 'r', 'm'])
      (goodHead_cons (by decide) (by decide)) (by simp) hopgood
    have hpair := pairP_of_ok htag hop
    have hres := paren_form_ok (β := RMLNode)
      (f := fun x => if x.1 = ['t', 'e', 's', 't'] then RMLNode.TestOp x.2
        else RMLNode.PerformOp x.2)
      (goodHead_cons (by decide) (by decide)) hpair hrest
    rw [hshape]
    unfold rml_apply_operationF
    simpa using hres
  · have hshape : (displayRMLNode (RMLNode.PerformOp
        (RMLNode.Operation op_name args))).data ++ rest =
        '(' :: (['p', 'e', 'r', 'f', 'o', 'r', 'm'] ++ (' ' ::
          ((displayRMLNode (RMLNode.Operation op_name args)).data ++
            (')' :: rest)))) := by
      simp [displayRMLNode]
    have htag := sce_alt2_tag_ok_2
      (a := ['t', 'e', 's', 't'])
      (b := ['p', 'e', 'r', 'f', 'o', 'r', 'm'])
      (goodHead_cons (by decide) (by decide)) (by simp) hopgood rfl
    have hpair := pairP_of_ok htag hop
    have hres := paren_form_ok (β := RMLNode)
      (f := fun x => if x.1 = ['t', 'e', 's', 't'] then RMLNode.TestOp x.2
        else RMLNode.PerformOp x.2)
      (goodHead_cons (by decide) (by decide)) hpair hrest
    rw [hshape]
    unfold rml_apply_operationF
    simpa using hres

/-- A well-formed assignment re-parses from its rendering. -/
theorem rml_assignF_display (fuel : ℕ) {r : String} {rhs : RMLNode}
    (hr : WFsym r) (hrhs : WFrhs rhs) (hfuel : nsize rhs ≤ fuel)
    {rest : List Char} (hrest : FollowOk rest) :
    rml_assignF fuel ((displayRMLNode (RMLNode.Assignment r rhs)).data ++ rest) =
      .ok (rest.dropWhile isMultispace, RMLNode.Assignment r rhs) := by
  have hfo : FollowOk (')' :: rest) :=
    followOk_close (goodHead_cons (by decide) (by decide))
  have hdropc : ((')' :: rest).dropWhile isMultispace) = ')' :: rest :=
    dropWhile_ms_of_goodHead (goodHead_cons (by decide) (by decide))
  have hrhsgood := WFrhs_display_good hrhs
  have halt : altL [rml_constF fuel, rml_reg, rml_label, operationF fuel]
      ((displayRMLNode rhs).data ++ (')' :: rest)) = .ok (')' :: rest, rhs) := by
    cases rhs
    case Constant v =>
      have hc := rml_constF_display fuel (show WFvalue v from hrhs)
        (by have hsz : nsize (RMLNode.Constant v) = vsize v + 1 := rfl; omega) hfo
      rw [hdropc] at hc
      exact altL_cons_ok hc
    case Reg rr =>
      have hregok := rml_reg_display (show WFsym rr from hrhs) hfo
      rw [hdropc] at hregok
      obtain ⟨e, he⟩ := rml_constF_fail_on_reg fuel (r := rr) (s := ')' :: rest)
      rw [altL_cons_err he]
      exact altL_cons_ok hregok
    case Label l =>
      have hlabok := rml_label_display (show WFsym l from hrhs) hfo
      rw [hdropc] at hlabok
      have hshape2 : (displayRMLNode (RMLNode.Label l)).data ++ (')' :: rest) =
          '(' :: (['l', 'a', 'b', 'e', 'l'] ++ (' ' :: (l.data ++ (')' :: (')' :: rest))))) := by
        simp [displayRMLNode]
      rw [hshape2] at hlabok ⊢
      have hf1 : rml_constF fuel ('(' :: (['l', 'a', 'b', 'e', 'l'] ++ (' ' :: (l.data ++ (')' :: (')' :: rest)))))) =
          .error (.err (.ParseFailure (['l', 'a', 'b', 'e', 'l'] ++ (' ' :: (l.data ++ (')' :: (')' :: rest))))) .tagK)) := by
        unfold rml_constF
        exact paren_kw_fail (goodHead_cons (by decide) (by decide)) rfl
      have hf2 : rml_reg ('(' :: (['l', 'a', 'b', 'e', 'l'] ++ (' ' :: (l.data ++ (')' :: (')' :: rest)))))) =
          .error (.err (.ParseFailure (['l', 'a', 'b', 'e', 'l'] ++ (' ' :: (l.data ++ (')' :: (')' :: rest))))) .tagK)) := by
        unfold rml_reg
        exact paren_kw_fail (goodHead_cons (by decide) (by decide)) rfl
      rw [altL_cons_err hf1, altL_cons_err hf2]
      exact altL_cons_ok hlabok
    case Operation nm args =>
      have hw : WFsym nm ∧ WFopargs args := hrhs
      have hsz : nsize (RMLNode.Operation nm args) = nsizes args + 1 := rfl
      have hop := operationF_display fuel hw.1 (opargs_all fuel hw.2 (by omega))
        (w := rest)
      have hshape2 : (displayRMLNode (RMLNode.Operation nm args)).data ++
          (')' :: rest) =
          '(' :: (['o', 'p'] ++ (' ' :: (nm.data ++ (')' :: (' ' :: ((String.intercalate " " (args.map displayRMLNode)).data ++ (')' :: rest))))))) := by
        simp [displayRMLNode, displayRMLNodes_eq_map]
      rw [hshape2] at hop ⊢
      have hg1 : rml_constF fuel ('(' :: (['o', 'p'] ++ (' ' :: (nm.data ++ (')' :: (' ' :: ((String.intercalate " " (args.map displayRMLNode)).data ++ (')' :: rest)))))))) =
          .error (.err (.ParseFailure (['o', 'p'] ++ (' ' :: (nm.data ++ (')' :: (' ' :: ((String.intercalate " " (args.map displayRMLNode)).data ++ (')' :: rest))))))) .tagK)) := by
        unfold rml_constF
        exact paren_kw_fail (goodHead_cons (by decide) (by decide)) rfl
      have hg2 : rml_reg ('(' :: (['o', 'p'] ++ (' ' :: (nm.data ++ (')' :: (' ' :: ((String.intercalate " " (args.map displayRMLNode)).data ++ (')' :: rest)))))))) =
          .error (.err (.ParseFailure (['o', 'p'] ++ (' ' :: (nm.data ++ (')' :: (' ' :: ((String.intercalate " " (args.map displayRMLNode)).data ++ (')' :: rest))))))) .tagK)) := by
        unfold rml_reg
        exact paren_kw_fail (goodHead_cons (by decide) (by decide)) rfl
      have hg3 : rml_label ('(' :: (['o', 'p'] ++ (' ' :: (nm.data ++ (')' :: (' ' :: ((String.intercalate " " (args.map displayRMLNode)).data ++ (')' :: rest)))))))) =
          .error (.err (.ParseFailure (['o', 'p'] ++ (' ' :: (nm.data ++ (')' :: (' ' :: ((String.intercalate " " (args.map displayRMLNode)).data ++ (')' :: rest))))))) .tagK)) := by
        unfold rml_label
        exact paren_kw_fail (goodHead_cons (by decide) (by decide)) rfl
      rw [altL_cons_err hg1, altL_cons_err hg2, altL_cons_err hg3, altL_single]
      exact hop
    all_goals exact False.elim hrhs
  have hsymok := valid_symbol_ok hr
    (w := ' ' :: ((displayRMLNode rhs).data ++ (')' :: rest)))
    (by intro c hc; simp at hc; subst hc; decide)
  have hb3 : GoodHead ((displayRMLNode rhs).data ++ (')' :: rest)) :=
    goodHead_append_left hrhsgood.1 hrhsgood.2
  have hsce_sym := sce_token_ok (WFsym_good hr).2 hr.1 hb3 hsymok
  have hpair := pairP_of_ok hsce_sym halt
  have hbody2 : GoodHead (r.data ++ (' ' ::
      ((displayRMLNode rhs).data ++ (')' :: rest)))) :=
    goodHead_append_left (WFsym_good hr).1 (WFsym_good hr).2
  have hinner := precededP_of_ok
    (sce_tag_ok (z := ['a', 's', 's', 'i', 'g', 'n'])
      (goodHead_cons (by decide) (by decide)) (by simp) hbody2) hpair
  have hres := paren_form_ok (β := RMLNode)
    (f := fun x => RMLNode.Assignment (String.mk x.1) x.2)
    (goodHead_cons (by decide) (by decide)) hinner hrest
  have hshape : (displayRMLNode (RMLNode.Assignment r rhs)).data ++ rest =
      '(' :: (['a', 's', 's', 'i', 'g', 'n'] ++ (' ' :: (r.data ++ (' ' ::
        ((displayRMLNode rhs).data ++ (')' :: rest)))))) := by
    simp [displayRMLNode]
  rw [hshape]
  unfold rml_assignF
  simpa [String_mk_data] using hres

/-- Instruction-level round trip: the rendering of any well-formed
instruction node, followed by a legal continuation, is re-parsed by
`rml_instruction` to exactly the original node. -/
theorem rml_instructionF_display (fuel : ℕ) {n : RMLNode} (h : WFnode n)
    (hfuel : nsize n ≤ fuel) {rest : List Char} (hrest : FollowOk rest) :
    rml_instructionF fuel ((displayRMLNode n).data ++ rest) =
      .ok (rest.dropWhile isMultispace, n) := by
  cases n
  case Constant v =>
      have hok := rml_constF_display fuel (show WFvalue v from h)
        (by have hsz : nsize (RMLNode.Constant v) = vsize v + 1 := rfl; omega) hrest
      have halt : altL [rml_constF fuel, rml_label, rml_reg, rml_branch, rml_goto,
          rml_save_and_restore, rml_apply_operationF fuel, rml_assignF fuel]
          ((displayRMLNode (RMLNode.Constant v)).data ++ rest) =
          .ok (rest.dropWhile isMultispace, RMLNode.Constant v) := by
        exact altL_cons_ok hok
      have hmain := sce_wrap_dropped
        (displayNode_good (n := RMLNode.Constant v) h) hrest halt
      simp only [rml_instructionF, hmain]
  case Label l =>
      have hok := rml_label_display (show WFsym l from h) hrest
      have hshape : (displayRMLNode (RMLNode.Label l)).data ++ rest =
          '(' :: (['l', 'a', 'b', 'e', 'l'] ++ (' ' :: (l.data ++ (')' :: rest)))) := by
        simp [displayRMLNode]
      have halt : altL [rml_constF fuel, rml_label, rml_reg, rml_branch, rml_goto,
          rml_save_and_restore, rml_apply_operationF fuel, rml_assignF fuel]
          ((displayRMLNode (RMLNode.Label l)).data ++ rest) =
          .ok (rest.dropWhile isMultispace, RMLNode.Label l) := by
        have hf1 : rml_constF fuel ('(' :: (['l', 'a', 'b', 'e', 'l'] ++ (' ' :: (l.data ++ (')' :: rest))))) =
            .error (.err (.ParseFailure (['l', 'a', 'b', 'e', 'l'] ++ (' ' :: (l.data ++ (')' :: rest)))) .tagK)) := by
          unfold rml_constF
          exact paren_kw_fail (goodHead_cons (by decide) (by decide)) rfl
        rw [hshape] at hok ⊢
        rw [altL_cons_err hf1]
        exact altL_cons_ok hok
      have hmain := sce_wrap_dropped
        (displayNode_good (n := RMLNode.Label l) h) hrest halt
      simp only [rml_instructionF, hmain]
  case Reg r =>
      have hok := rml_reg_display (show WFsym r from h) hrest
      have hshape : (displayRMLNode (RMLNode.Reg r)).data ++ rest =
          '(' :: (['r', 'e', 'g'] ++ (' ' :: (r.data ++ (')' :: rest)))) := by
        simp [displayRMLNode]
      have halt : altL [rml_constF fuel, rml_label, rml_reg, rml_branch, rml_goto,
          rml_save_and_restore, rml_apply_operationF fuel, rml_assignF fuel]
          ((displayRMLNode (RMLNode.Reg r)).data ++ rest) =
          .ok (rest.dropWhile isMultispace, RMLNode.Reg r) := by
        have hf1 : rml_constF fuel ('(' :: (['r', 'e', 'g'] ++ (' ' :: (r.data ++ (')' :: rest))))) =
            .error (.err (.ParseFailure (['r', 'e', 'g'] ++ (' ' :: (r.data ++ (')' :: rest)))) .tagK)) := by
          unfold rml_constF
          exact paren_kw_fail (goodHead_cons (by decide) (by decide)) rfl
        have hf2 : rml_label ('(' :: (['r', 'e', 'g'] ++ (' ' :: (r.data ++ (')' :: rest))))) =
            .error (.err (.ParseFailure (['r', 'e', 'g'] ++ (' ' :: (r.data ++ (')' :: rest)))) .tagK)) := by
          unfold rml_label
          exact paren_kw_fail (goodHead_cons (by decide) (by decide)) rfl
        rw [hshape] at hok ⊢
        rw [altL_cons_err hf1, altL_cons_err hf2]
        exact altL_cons_ok hok
      have hmain := sce_wrap_dropped
        (displayNode_good (n := RMLNode.Reg r) h) hrest halt
      simp only [rml_instructionF, hmain]
  case Branch lab =>
      cases lab
      case Label l =>
        have hok := rml_branch_display (show WFsym l from h) hrest
        have hshape : (displayRMLNode (RMLNode.Branch (RMLNode.Label l))).data ++ rest =
            '(' :: (['b', 'r', 'a', 'n', 'c', 'h'] ++ (' ' :: ((displayRMLNode (RMLNode.Label l)).data ++ (')' :: rest)))) := by
          simp [displayRMLNode]
        have halt : altL [rml_constF fuel, rml_label, rml_reg, rml_branch, rml_goto,
            rml_save_and_restore, rml_apply_operationF fuel, rml_assignF fuel]
            ((displayRMLNode (RMLNode.Branch (RMLNode.Label l))).data ++ rest) =
            .ok (rest.dropWhile isMultispace, RMLNode.Branch (RMLNode.Label l)) := by
          have hf1 : rml_constF fuel ('(' :: (['b', 'r', 'a', 'n', 'c', 'h'] ++ (' ' :: ((displayRMLNode (RMLNode.Label l)).data ++ (')' :: rest))))) =
              .error (.err (.ParseFailure (['b', 'r', 'a', 'n', 'c', 'h'] ++ (' ' :: ((displayRMLNode (RMLNode.Label l)).data ++ (')' :: rest)))) .tagK)) := by
            unfold rml_constF
            exact paren_kw_fail (goodHead_cons (by decide) (by decide)) rfl
          have hf2 : rml_label ('(' :: (['b', 'r', 'a', 'n', 'c', 'h'] ++ (' ' :: ((displayRMLNode (RMLNode.Label l)).data ++ (')' :: rest))))) =
              .error (.err (.ParseFailure (['b', 'r', 'a', 'n', 'c', 'h'] ++ (' ' :: ((displayRMLNode (RMLNode.Label l)).data ++ (')' :: rest)))) .tagK)) := by
            unfold rml_label
            exact paren_kw_fail (goodHead_cons (by decide) (by decide)) rfl
          have hf3 : rml_reg ('(' :: (['b', 'r', 'a', 'n', 'c', 'h'] ++ (' ' :: ((displayRMLNode (RMLNode.Label l)).data ++ (')' :: rest))))) =
              .error (.err (.ParseFailure (['b', 'r', 'a', 'n', 'c', 'h'] ++ (' ' :: ((displayRMLNode (RMLNode.Label l)).data ++ (')' :: rest)))) .tagK)) := by
            unfold rml_reg
            exact paren_kw_fail (goodHead_cons (by decide) (by decide)) rfl
          rw [hshape] at hok ⊢
          rw [altL_cons_err hf1, altL_cons_err hf2, altL_cons_err hf3]
          exact altL_cons_ok hok
        have hmain := sce_wrap_dropped
          (displayNode_good (n := RMLNode.Branch (RMLNode.Label l)) h) hrest halt
        simp only [rml_instructionF, hmain]
      all_goals exact False.elim h
  case GotoLabel target =>
      have hok := rml_goto_display (show WFgoto target from h) hrest
      have hshape : (displayRMLNode (RMLNode.GotoLabel target)).data ++ rest =
          '(' :: (['g', 'o', 't', 'o'] ++ (' ' :: ((displayRMLNode target).data ++ (')' :: rest)))) := by
        simp [displayRMLNode]
      have halt : altL [rml_constF fuel, rml_label, rml_reg, rml_branch, rml_goto,
          rml_save_and_restore, rml_apply_operationF fuel, rml_assignF fuel]
          ((displayRMLNode (RMLNode.GotoLabel target)).data ++ rest) =
          .ok (rest.dropWhile isMultispace, RMLNode.GotoLabel target) := by
        have hf1 : rml_constF fuel ('(' :: (['g', 'o', 't', 'o'] ++ (' ' :: ((displayRMLNode target).data ++ (')' :: rest))))) =
            .error (.err (.ParseFailure (['g', 'o', 't', 'o'] ++ (' ' :: ((displayRMLNode target).data ++ (')' :: rest)))) .tagK)) := by
          unfold rml_constF
          exact paren_kw_fail (goodHead_cons (by decide) (by decide)) rfl
        have hf2 : rml_label ('(' :: (['g', 'o', 't', 'o'] ++ (' ' :: ((displayRMLNode target).data ++ (')' :: rest))))) =
            .error (.err (.ParseFailure (['g', 'o', 't', 'o'] ++ (' ' :: ((displayRMLNode target).data ++ (')' :: rest)))) .tagK)) := by
          unfold rml_label
          exact paren_kw_fail (goodHead_cons (by decide) (by decide)) rfl
        have hf3 : rml_reg ('(' :: (['g', 'o', 't', 'o'] ++ (' ' :: ((displayRMLNode target).data ++ (')' :: rest))))) =
            .error (.err (.ParseFailure (['g', 'o', 't', 'o'] ++ (' ' :: ((displayRMLNode target).data ++ (')' :: rest)))) .tagK)) := by
          unfold rml_reg
          exact paren_kw_fail (goodHead_cons (by decide) (by decide)) rfl
        have hf4 : rml_branch ('(' :: (['g', 'o', 't', 'o'] ++ (' ' :: ((displayRMLNode target).data ++ (')' :: rest))))) =
            .error (.err (.ParseFailure (['g', 'o', 't', 'o'] ++ (' ' :: ((displayRMLNode target).data ++ (')' :: rest)))) .tagK)) := by
          unfold rml_branch
          exact paren_kw_fail (goodHead_cons (by decide) (by decide)) rfl
        rw [hshape] at hok ⊢
        rw [altL_cons_err hf1, altL_cons_err hf2, altL_cons_err hf3, altL_cons_err hf4]
        exact altL_cons_ok hok
      have hmain := sce_wrap_dropped
        (displayNode_good (n := RMLNode.GotoLabel target) h) hrest halt
      simp only [rml_instructionF, hmain]
  case Save r =>
      have hok := (rml_save_restore_display (show WFsym r from h) hrest).1
      have hshape : (displayRMLNode (RMLNode.Save r)).data ++ rest =
          '(' :: (['s', 'a', 'v', 'e'] ++ (' ' :: (r.data ++ (')' :: rest)))) := by
        simp [displayRMLNode]
      have halt : altL [rml_constF fuel, rml_label, rml_reg, rml_branch, rml_goto,
          rml_save_and_restore, rml_apply_operationF fuel, rml_assignF fuel]
          ((displayRMLNode (RMLNode.Save r)).data ++ rest) =
          .ok (rest.dropWhile isMultispace, RMLNode.Save r) := by
        have hf1 : rml_constF fuel ('(' :: (['s', 'a', 'v', 'e'] ++ (' ' :: (r.data ++ (')' :: rest))))) =
            .error (.err (.ParseFailure (['s', 'a', 'v', 'e'] ++ (' ' :: (r.data ++ (')' :: rest)))) .tagK)) := by
          unfold rml_constF
          exact paren_kw_fail (goodHead_cons (by decide) (by decide)) rfl
        have hf2 : rml_label ('(' :: (['s', 'a', 'v', 'e'] ++ (' ' :: (r.data ++ (')' :: rest))))) =
            .error (.err (.ParseFailure (['s', 'a', 'v', 'e'] ++ (' ' :: (r.data ++ (')' :: rest)))) .tagK)) := by
          unfold rml_label
          exact paren_kw_fail (goodHead_cons (by decide) (by decide)) rfl
        have hf3 : rml_reg ('(' :: (['s', 'a', 'v', 'e'] ++ (' ' :: (r.data ++ (')' :: rest))))) =
            .error (.err (.ParseFailure (['s', 'a', 'v', 'e'] ++ (' ' :: (r.data ++ (')' :: rest)))) .tagK)) := by
          unfold rml_reg
          exact paren_kw_fail (goodHead_cons (by decide) (by decide)) rfl
        have hf4 : rml_branch ('(' :: (['s', 'a', 'v', 'e'] ++ (' ' :: (r.data ++ (')' :: rest))))) =
            .error (.err (.ParseFailure (['s', 'a', 'v', 'e'] ++ (' ' :: (r.data ++ (')' :: rest)))) .tagK)) := by
          unfold rml_branch
          exact paren_kw_fail (goodHead_cons (by decide) (by decide)) rfl
        have hf5 : rml_goto ('(' :: (['s', 'a', 'v', 'e'] ++ (' ' :: (r.data ++ (')' :: rest))))) =
            .error (.err (.ParseFailure (['s', 'a', 'v', 'e'] ++ (' ' :: (r.data ++ (')' :: rest)))) .tagK)) := by
          unfold rml_goto
          exact paren_kw_fail (goodHead_cons (by decide) (by decide)) rfl
        rw [hshape] at hok ⊢
        rw [altL_cons_err hf1, altL_cons_err hf2, altL_cons_err hf3, altL_cons_err hf4, altL_cons_err hf5]
        exact altL_cons_ok hok
      have hmain := sce_wrap_dropped
        (displayNode_good (n := RMLNode.Save r) h) hrest halt
      simp only [rml_instructionF, hmain]
  case Restore r =>
      have hok := (rml_save_restore_display (show WFsym r from h) hrest).2
      have hshape : (displayRMLNode (RMLNode.Restore r)).data ++ rest =
          '(' :: (['r', 'e', 's', 't', 'o', 'r', 'e'] ++ (' ' :: (r.data ++ (')' :: rest)))) := by
        simp [displayRMLNode]
      have halt : altL [rml_constF fuel, rml_label, rml_reg, rml_branch, rml_goto,
          rml_save_and_restore, rml_apply_operationF fuel, rml_assignF fuel]
          ((displayRMLNode (RMLNode.Restore r)).data ++ rest) =
          .ok (rest.dropWhile isMultispace, RMLNode.Restore r) := by
        have hf1 : rml_constF fuel ('(' :: (['r', 'e', 's', 't', 'o', 'r', 'e'] ++ (' ' :: (r.data ++ (')' :: rest))))) =
            .error (.err (.ParseFailure (['r', 'e', 's', 't', 'o', 'r', 'e'] ++ (' ' :: (r.data ++ (')' :: rest)))) .tagK)) := by
          unfold rml_constF
          exact paren_kw_fail (goodHead_cons (by decide) (by decide)) rfl
        have hf2 : rml_label ('(' :: (['r', 'e', 's', 't', 'o', 'r', 'e'] ++ (' ' :: (r.data ++ (')' :: rest))))) =
            .error (.err (.ParseFailure (['r', 'e', 's', 't', 'o', 'r', 'e'] ++ (' ' :: (r.data ++ (')' :: rest)))) .tagK)) := by
          unfold rml_label
          exact paren_kw_fail (goodHead_cons (by decide) (by decide)) rfl
        have hf3 : rml_reg ('(' :: (['r', 'e', 's', 't', 'o', 'r', 'e'] ++ (' ' :: (r.data ++ (')' :: rest))))) =
            .error (.err (.ParseFailure (['r', 'e', 's', 't', 'o', 'r', 'e'] ++ (' ' :: (r.data ++ (')' :: rest)))) .tagK)) := by
          unfold rml_reg
          exact paren_kw_fail (goodHead_cons (by decide) (by decide)) rfl
        have hf4 : rml_branch ('(' :: (['r', 'e', 's', 't', 'o', 'r', 'e'] ++ (' ' :: (r.data ++ (')' :: rest))))) =
            .error (.err (.ParseFailure (['r', 'e', 's', 't', 'o', 'r', 'e'] ++ (' ' :: (r.data ++ (')' :: rest)))) .tagK)) := by
          unfold rml_branch
          exact paren_kw_fail (goodHead_cons (by decide) (by decide)) rfl
        have hf5 : rml_goto ('(' :: (['r', 'e', 's', 't', 'o', 'r', 'e'] ++ (' ' :: (r.data ++ (')' :: rest))))) =
            .error (.err (.ParseFailure (['r', 'e', 's', 't', 'o', 'r', 'e'] ++ (' ' :: (r.data ++ (')' :: rest)))) .tagK)) := by
          unfold rml_goto
          exact paren_kw_fail (goodHead_cons (by decide) (by decide)) rfl
        rw [hshape] at hok ⊢
        rw [altL_cons_err hf1, altL_cons_err hf2, altL_cons_err hf3, altL_cons_err hf4, altL_cons_err hf5]
        exact altL_cons_ok hok
      have hmain := sce_wrap_dropped
        (displayNode_good (n := RMLNode.Restore r) h) hrest halt
      simp only [rml_instructionF, hmain]
  case TestOp op =>
      cases op
      case Operation nm args =>
        have hw : WFsym nm ∧ WFopargs args := h
        have hok := (rml_apply_display fuel hw.1 hw.2
          (by have hsz : nsize (RMLNode.TestOp (RMLNode.Operation nm args)) =
                nsizes args + 1 + 1 := rfl
              omega) hrest).1
        have hshape : (displayRMLNode (RMLNode.TestOp (RMLNode.Operation nm args))).data ++ rest =
            '(' :: (['t', 'e', 's', 't'] ++ (' ' :: ((displayRMLNode (RMLNode.Operation nm args)).data ++ (')' :: rest)))) := by
          simp [displayRMLNode]
        have halt : altL [rml_constF fuel, rml_label, rml_reg, rml_branch, rml_goto,
            rml_save_and_restore, rml_apply_operationF fuel, rml_assignF fuel]
            ((displayRMLNode (RMLNode.TestOp (RMLNode.Operation nm args))).data ++ rest) =
            .ok (rest.dropWhile isMultispace, RMLNode.TestOp (RMLNode.Operation nm args)) := by
          have hf1 : rml_constF fuel ('(' :: (['t', 'e', 's', 't'] ++ (' ' :: ((displayRMLNode (RMLNode.Operation nm args)).data ++ (')' :: rest))))) =
              .error (.err (.ParseFailure (['t', 'e', 's', 't'] ++ (' ' :: ((displayRMLNode (RMLNode.Operation nm args)).data ++ (')' :: rest)))) .tagK)) := by
            unfold rml_constF
            exact paren_kw_fail (goodHead_cons (by decide) (by decide)) rfl
          have hf2 : rml_label ('(' :: (['t', 'e', 's', 't'] ++ (' ' :: ((displayRMLNode (RMLNode.Operation nm args)).data ++ (')' :: rest))))) =
              .error (.err (.ParseFailure (['t', 'e', 's', 't'] ++ (' ' :: ((displayRMLNode (RMLNode.Operation nm args)).data ++ (')' :: rest)))) .tagK)) := by
            unfold rml_label
            exact paren_kw_fail (goodHead_cons (by decide) (by decide)) rfl
          have hf3 : rml_reg ('(' :: (['t', 'e', 's', 't'] ++ (' ' :: ((displayRMLNode (RMLNode.Operation nm args)).data ++ (')' :: rest))))) =
              .error (.err (.ParseFailure (['t', 'e', 's', 't'] ++ (' ' :: ((displayRMLNode (RMLNode.Operation nm args)).data ++ (')' :: rest)))) .tagK)) := by
            unfold rml_reg
            exact paren_kw_fail (goodHead_cons (by decide) (by decide)) rfl
          have hf4 : rml_branch ('(' :: (['t', 'e', 's', 't'] ++ (' ' :: ((displayRMLNode (RMLNode.Operation nm args)).data ++ (')' :: rest))))) =
              .error (.err (.ParseFailure (['t', 'e', 's', 't'] ++ (' ' :: ((displayRMLNode (RMLNode.Operation nm args)).data ++ (')' :: rest)))) .tagK)) := by
            unfold rml_branch
            exact paren_kw_fail (goodHead_cons (by decide) (by decide)) rfl
          have hf5 : rml_goto ('(' :: (['t', 'e', 's', 't'] ++ (' ' :: ((displayRMLNode (RMLNode.Operation nm args)).data ++ (')' :: rest))))) =
              .error (.err (.ParseFailure (['t', 'e', 's', 't'] ++ (' ' :: ((displayRMLNode (RMLNode.Operation nm args)).data ++ (')' :: rest)))) .tagK)) := by
            unfold rml_goto
            exact paren_kw_fail (goodHead_cons (by decide) (by decide)) rfl
          have hf6 : rml_save_and_restore ('(' :: (['t', 'e', 's', 't'] ++ (' ' :: ((displayRMLNode (RMLNode.Operation nm args)).data ++ (')' :: rest))))) =
              .error (.err (.ParseFailure (['t', 'e', 's', 't'] ++ (' ' :: ((displayRMLNode (RMLNode.Operation nm args)).data ++ (')' :: rest)))) .tagK)) := by
            unfold rml_save_and_restore
            exact paren_2kw_fail (goodHead_cons (by decide) (by decide)) rfl rfl
          rw [hshape] at hok ⊢
          rw [altL_cons_err hf1, altL_cons_err hf2, altL_cons_err hf3, altL_cons_err hf4, altL_cons_err hf5, altL_cons_err hf6]
          exact altL_cons_ok hok
        have hmain := sce_wrap_dropped
          (displayNode_good (n := RMLNode.TestOp (RMLNode.Operation nm args)) h) hrest halt
        simp only [rml_instructionF, hmain]
      all_goals exact False.elim h
  case PerformOp op =>
      cases op
      case Operation nm args =>
        have hw : WFsym nm ∧ WFopargs args := h
        have hok := (rml_apply_display fuel hw.1 hw.2
          (by have hsz : nsize (RMLNode.PerformOp (RMLNode.Operation nm args)) =
                nsizes args + 1 + 1 := rfl
              omega) hrest).2
        have hshape : (displayRMLNode (RMLNode.PerformOp (RMLNode.Operation nm args))).data ++ rest =
            '(' :: (['p', 'e', 'r', 'f', 'o', 'r', 'm'] ++ (' ' :: ((displayRMLNode (RMLNode.Operation nm args)).data ++ (')' :: rest)))) := by
          simp [displayRMLNode]
        have halt : altL [rml_constF fuel, rml_label, rml_reg, rml_branch, rml_goto,
            rml_save_and_restore, rml_apply_operationF fuel, rml_assignF fuel]
            ((displayRMLNode (RMLNode.PerformOp (RMLNode.Operation nm args))).data ++ rest) =
            .ok (rest.dropWhile isMultispace, RMLNode.PerformOp (RMLNode.Operation nm args)) := by
          have hf1 : rml_constF fuel ('(' :: (['p', 'e', 'r', 'f', 'o', 'r', 'm'] ++ (' ' :: ((displayRMLNode (RMLNode.Operation nm args)).data ++ (')' :: rest))))) =
              .error (.err (.ParseFailure (['p', 'e', 'r', 'f', 'o', 'r', 'm'] ++ (' ' :: ((displayRMLNode (RMLNode.Operation nm args)).data ++ (')' :: rest)))) .tagK)) := by
            unfold rml_constF
            exact paren_kw_fail (goodHead_cons (by decide) (by decide)) rfl
          have hf2 : rml_label ('(' :: (['p', 'e', 'r', 'f', 'o', 'r', 'm'] ++ (' ' :: ((displayRMLNode (RMLNode.Operation nm args)).data ++ (')' :: rest))))) =
              .error (.err (.ParseFailure (['p', 'e', 'r', 'f', 'o', 'r', 'm'] ++ (' ' :: ((displayRMLNode (RMLNode.Operation nm args)).data ++ (')' :: rest)))) .tagK)) := by
            unfold rml_label
            exact paren_kw_fail (goodHead_cons (by decide) (by decide)) rfl
          have hf3 : rml_reg ('(' :: (['p', 'e', 'r', 'f', 'o', 'r', 'm'] ++ (' ' :: ((displayRMLNode (RMLNode.Operation nm args)).data ++ (')' :: rest))))) =
              .error (.err (.ParseFailure (['p', 'e', 'r', 'f', 'o', 'r', 'm'] ++ (' ' :: ((displayRMLNode (RMLNode.Operation nm args)).data ++ (')' :: rest)))) .tagK)) := by
            unfold rml_reg
            exact paren_kw_fail (goodHead_cons (by decide) (by decide)) rfl
          have hf4 : rml_branch ('(' :: (['p', 'e', 'r', 'f', 'o', 'r', 'm'] ++ (' ' :: ((displayRMLNode (RMLNode.Operation nm args)).data ++ (')' :: rest))))) =
              .error (.err (.ParseFailure (['p', 'e', 'r', 'f', 'o', 'r', 'm'] ++ (' ' :: ((displayRMLNode (RMLNode.Operation nm args)).data ++ (')' :: rest)))) .tagK)) := by
            unfold rml_branch
            exact paren_kw_fail (goodHead_cons (by decide) (by decide)) rfl
          have hf5 : rml_goto ('(' :: (['p', 'e', 'r', 'f', 'o', 'r', 'm'] ++ (' ' :: ((displayRMLNode (RMLNode.Operation nm args)).data ++ (')' :: rest))))) =
              .error (.err (.ParseFailure (['p', 'e', 'r', 'f', 'o', 'r', 'm'] ++ (' ' :: ((displayRMLNode (RMLNode.Operation nm args)).data ++ (')' :: rest)))) .tagK)) := by
            unfold rml_goto
            exact paren_kw_fail (goodHead_cons (by decide) (by decide)) rfl
          have hf6 : rml_save_and_restore ('(' :: (['p', 'e', 'r', 'f', 'o', 'r', 'm'] ++ (' ' :: ((displayRMLNode (RMLNode.Operation nm args)).data ++ (')' :: rest))))) =
              .error (.err (.ParseFailure (['p', 'e', 'r', 'f', 'o', 'r', 'm'] ++ (' ' :: ((displayRMLNode (RMLNode.Operation nm args)).data ++ (')' :: rest)))) .tagK)) := by
            unfold rml_save_and_restore
            exact paren_2kw_fail (goodHead_cons (by decide) (by decide)) rfl rfl
          rw [hshape] at hok ⊢
          rw [altL_cons_err hf1, altL_cons_err hf2, altL_cons_err hf3, altL_cons_err hf4, altL_cons_err hf5, altL_cons_err hf6]
          exact altL_cons_ok hok
        have hmain := sce_wrap_dropped
          (displayNode_good (n := RMLNode.PerformOp (RMLNode.Operation nm args)) h) hrest halt
        simp only [rml_instructionF, hmain]
      all_goals exact False.elim h
  case Assignment r rhs =>
      have hw : WFsym r ∧ WFrhs rhs := h
      have hok := rml_assignF_display fuel hw.1 hw.2
        (by have hsz : nsize (RMLNode.Assignment r rhs) = nsize rhs + 1 := rfl
            omega) hrest
      have hshape : (displayRMLNode (RMLNode.Assignment r rhs)).data ++ rest =
          '(' :: (['a', 's', 's', 'i', 'g', 'n'] ++ (' ' :: (r.data ++ (' ' :: ((displayRMLNode rhs).data ++ (')' :: rest)))))) := by
        simp [displayRMLNode]
      have halt : altL [rml_constF fuel, rml_label, rml_reg, rml_branch, rml_goto,
          rml_save_and_restore, rml_apply_operationF fuel, rml_assignF fuel]
          ((displayRMLNode (RMLNode.Assignment r rhs)).data ++ rest) =
          .ok (rest.dropWhile isMultispace, RMLNode.Assignment r rhs) := by
        have hf1 : rml_constF fuel ('(' :: (['a', 's', 's', 'i', 'g', 'n'] ++ (' ' :: (r.data ++ (' ' :: ((displayRMLNode rhs).data ++ (')' :: rest))))))) =
            .error (.err (.ParseFailure (['a', 's', 's', 'i', 'g', 'n'] ++ (' ' :: (r.data ++ (' ' :: ((displayRMLNode rhs).data ++ (')' :: rest)))))) .tagK)) := by
          unfold rml_constF
          exact paren_kw_fail (goodHead_cons (by decide) (by decide)) rfl
        have hf2 : rml_label ('(' :: (['a', 's', 's', 'i', 'g', 'n'] ++ (' ' :: (r.data ++ (' ' :: ((displayRMLNode rhs).data ++ (')' :: rest))))))) =
            .error (.err (.ParseFailure (['a', 's', 's', 'i', 'g', 'n'] ++ (' ' :: (r.data ++ (' ' :: ((displayRMLNode rhs).data ++ (')' :: rest)))))) .tagK)) := by
          unfold rml_label
          exact paren_kw_fail (goodHead_cons (by decide) (by decide)) rfl
        have hf3 : rml_reg ('(' :: (['a', 's', 's', 'i', 'g', 'n'] ++ (' ' :: (r.data ++ (' ' :: ((displayRMLNode rhs).data ++ (')' :: rest))))))) =
            .error (.err (.ParseFailure (['a', 's', 's', 'i', 'g', 'n'] ++ (' ' :: (r.data ++ (' ' :: ((displayRMLNode rhs).data ++ (')' :: rest)))))) .tagK)) := by
          unfold rml_reg
          exact paren_kw_fail (goodHead_cons (by decide) (by decide)) rfl
        have hf4 : rml_branch ('(' :: (['a', 's', 's', 'i', 'g', 'n'] ++ (' ' :: (r.data ++ (' ' :: ((displayRMLNode rhs).data ++ (')' :: rest))))))) =
            .error (.err (.ParseFailure (['a', 's', 's', 'i', 'g', 'n'] ++ (' ' :: (r.data ++ (' ' :: ((displayRMLNode rhs).data ++ (')' :: rest)))))) .tagK)) := by
          unfold rml_branch
          exact paren_kw_fail (goodHead_cons (by decide) (by decide)) rfl
        have hf5 : rml_goto ('(' :: (['a', 's', 's', 'i', 'g', 'n'] ++ (' ' :: (r.data ++ (' ' :: ((displayRMLNode rhs).data ++ (')' :: rest))))))) =
            .error (.err (.ParseFailure (['a', 's', 's', 'i', 'g', 'n'] ++ (' ' :: (r.data ++ (' ' :: ((displayRMLNode rhs).data ++ (')' :: rest)))))) .tagK)) := by
          unfold rml_goto
          exact paren_kw_fail (goodHead_cons (by decide) (by decide)) rfl
        have hf6 : rml_save_and_restore ('(' :: (['a', 's', 's', 'i', 'g', 'n'] ++ (' ' :: (r.data ++ (' ' :: ((displayRMLNode rhs).data ++ (')' :: rest))))))) =
            .error (.err (.ParseFailure (['a', 's', 's', 'i', 'g', 'n'] ++ (' ' :: (r.data ++ (' ' :: ((displayRMLNode rhs).data ++ (')' :: rest)))))) .tagK)) := by
          unfold rml_save_and_restore
          exact paren_2kw_fail (goodHead_cons (by decide) (by decide)) rfl rfl
        have hf7 : rml_apply_operationF fuel ('(' :: (['a', 's', 's', 'i', 'g', 'n'] ++ (' ' :: (r.data ++ (' ' :: ((displayRMLNode rhs).data ++ (')' :: rest))))))) =
            .error (.err (.ParseFailure (['a', 's', 's', 'i', 'g', 'n'] ++ (' ' :: (r.data ++ (' ' :: ((displayRMLNode rhs).data ++ (')' :: rest)))))) .tagK)) := by
          unfold rml_apply_operationF
          exact paren_2kw_fail (goodHead_cons (by decide) (by decide)) rfl rfl
        rw [hshape] at hok ⊢
        rw [altL_cons_err hf1, altL_cons_err hf2, altL_cons_err hf3, altL_cons_err hf4, altL_cons_err hf5, altL_cons_err hf6, altL_cons_err hf7]
        exact altL_cons_ok hok
      have hmain := sce_wrap_dropped
        (displayNode_good (n := RMLNode.Assignment r rhs) h) hrest halt
      simp only [rml_instructionF, hmain]
  case Symbol sym =>
      have hw : WFsym sym := h
      have hgood := WFsym_good hw
      have hinput_good : GoodHead (sym.data ++ rest) :=
        goodHead_append_left hgood.1 hgood.2
      have hne_paren : ∀ c, (sym.data ++ rest).head? = some c → c ≠ '(' := by
        cases hd : sym.data with
        | nil => exact absurd hd hgood.1
        | cons c0 t =>
          intro c hc
          simp only [List.cons_append, List.head?_cons, Option.some.injEq] at hc
          subst hc
          have hv : isValidSymbolChar c0 = true := by
            apply hw.2.1
            rw [hd]
            simp
          exact (validChar_facts hv).2.2.1
      have hdropI : (sym.data ++ rest).dropWhile isMultispace = sym.data ++ rest :=
        dropWhile_ms_of_goodHead hinput_good
      have hsemiI := goodHead_ne_semi hinput_good
      have hf1 : rml_constF fuel (sym.data ++ rest) =
          .error (.err (.ParseFailure (sym.data ++ rest) .charK)) := by
        unfold rml_constF
        exact paren_nohead_fail hdropI hsemiI hne_paren
      have hf2 : rml_label (sym.data ++ rest) =
          .error (.err (.ParseFailure (sym.data ++ rest) .charK)) := by
        unfold rml_label
        exact paren_nohead_fail hdropI hsemiI hne_paren
      have hf3 : rml_reg (sym.data ++ rest) =
          .error (.err (.ParseFailure (sym.data ++ rest) .charK)) := by
        unfold rml_reg
        exact paren_nohead_fail hdropI hsemiI hne_paren
      have hf4 : rml_branch (sym.data ++ rest) =
          .error (.err (.ParseFailure (sym.data ++ rest) .charK)) := by
        unfold rml_branch
        exact paren_nohead_fail hdropI hsemiI hne_paren
      have hf5 : rml_goto (sym.data ++ rest) =
          .error (.err (.ParseFailure (sym.data ++ rest) .charK)) := by
        unfold rml_goto
        exact paren_nohead_fail hdropI hsemiI hne_paren
      have hf6 : rml_save_and_restore (sym.data ++ rest) =
          .error (.err (.ParseFailure (sym.data ++ rest) .charK)) := by
        unfold rml_save_and_restore
        exact paren_nohead_fail hdropI hsemiI hne_paren
      have hf7 : rml_apply_operationF fuel (sym.data ++ rest) =
          .error (.err (.ParseFailure (sym.data ++ rest) .charK)) := by
        unfold rml_apply_operationF
        exact paren_nohead_fail hdropI hsemiI hne_paren
      have hf8 : rml_assignF fuel (sym.data ++ rest) =
          .error (.err (.ParseFailure (sym.data ++ rest) .charK)) := by
        unfold rml_assignF
        exact paren_nohead_fail hdropI hsemiI hne_paren
      have haltE : altL [rml_constF fuel, rml_label, rml_reg, rml_branch, rml_goto,
          rml_save_and_restore, rml_apply_operationF fuel, rml_assignF fuel]
          (sym.data ++ rest) =
          .error (.err (.ParseFailure (sym.data ++ rest) .charK)) := by
        rw [altL_cons_err hf1, altL_cons_err hf2, altL_cons_err hf3,
          altL_cons_err hf4, altL_cons_err hf5, altL_cons_err hf6,
          altL_cons_err hf7, altL_single]
        exact hf8
      have hsceE := sce_of_err hdropI hsemiI haltE
      have hsymtok := rml_symbol_ok hw (w := rest) (by
        intro c hc
        rcases followOk_head hrest c hc with rfl | rfl <;> decide)
      have hs := sce_wrap ⟨hgood.1, hgood.2⟩ hrest hsymtok
      have hfb : mapP (sce rml_symbol) symbolFallback (sym.data ++ rest) =
          .ok (rest.dropWhile isMultispace, RMLNode.Symbol sym) := by
        rw [mapP_of_ok hs]
        rfl
      show rml_instructionF fuel (sym.data ++ rest) =
        .ok (rest.dropWhile isMultispace, RMLNode.Symbol sym)
      simp only [rml_instructionF, hsceE]
      exact hfb
  case List vs => exact False.elim h
  case Operation nm args => exact False.elim h

/-- C4 (amended): the Display/parse round trip fails at the level of
`parse` (see the counterexample), but holds at the level of the
single-instruction grammar: for every well-formed instruction node — any
node the instruction grammar can produce whose symbol names are valid
symbols, whose constants are float-free, in-range, and not
number-shaped — an all-consuming run of `rml_instruction` on the node's
`Display` rendering succeeds and returns exactly the original node. -/
theorem C4_instruction_display_roundtrip (n : RMLNode) (fuel : ℕ)
    (h : WFnode n) (hfuel : nsize n ≤ fuel) :
    all_consuming (rml_instructionF fuel) (displayRMLNode n).data =
      .ok ([], n) := by
  have hmain := rml_instructionF_display fuel h hfuel followOk_nil
  rw [List.append_nil] at hmain
  have hdrop : (([] : List Char).dropWhile isMultispace) = [] := rfl
  rw [hdrop] at hmain
  unfold all_consuming
  simp [hmain]

/-- Witness for C4: the assignment `(assign x (const 42))` round-trips
through `Display` and `rml_instruction`. -/
theorem C4_instruction_display_roundtrip_witness :
    all_consuming (rml_instructionF 3)
      (displayRMLNode (RMLNode.Assignment "x"
        (RMLNode.Constant (RMLValue.Num 42)))).data =
      .ok ([], RMLNode.Assignment "x" (RMLNode.Constant (RMLValue.Num 42))) :=
  C4_instruction_display_roundtrip
    (RMLNode.Assignment "x" (RMLNode.Constant (RMLValue.Num 42))) 3
    ⟨⟨by decide, by decide, by decide⟩, by decide, by decide⟩ (by decide)

/-- C4 counterexample, two independent failures of the round-trip claim:
(a) the float constant `42.0` parses to `Constant(Float(42.0))`, whose
`Display` form `"(const 42)"` re-parses as the **integer** constant
`Constant(Num(42))`; (b) the node `Restore("x")` (a top-level node of the
parse of `"(controller (restore x))"`) renders as `"(restore x)"`, which
`parse` re-reads as the two bare symbols `restore` and `x`, not as the
original node. -/
theorem C4_counterexample :
    (parse "(const 42.0)" = .ok [RMLNode.Constant (RMLValue.Float 42)] ∧
      displayRMLNode (RMLNode.Constant (RMLValue.Float 42)) = "(const 42)" ∧
      parse "(const 42)" = .ok [RMLNode.Constant (RMLValue.Num 42)] ∧
      ∀ v : ℚ, RMLNode.Constant (RMLValue.Num 42) ≠ RMLNode.Constant (RMLValue.Float v)) ∧
    (parse "(controller (restore x))" =
        .ok [RMLNode.Symbol "controller", RMLNode.Restore "x"] ∧
      displayRMLNode (RMLNode.Restore "x") = "(restore x)" ∧
      parse "(restore x)" = .ok [RMLNode.Symbol "restore", RMLNode.Symbol "x"] ∧
      [RMLNode.Symbol "restore", RMLNode.Symbol "x"] ≠ [RMLNode.Restore "x"]) := by
  have hq : decimalValQ "42.0".data = 42 := by
    have hform : decimalValQ "42.0".data =
        1 * ((digitsVal ['4', '2'] : ℚ) +
          (digitsVal ['0'] : ℚ) / (10 : ℚ) ^ (['0'] : List Char).length) := rfl
    rw [hform, show digitsVal ['4', '2'] = 42 from by decide,
      show digitsVal ['0'] = 0 from by decide]
    norm_num
  constructor
  · refine ⟨?_, ?_, by rfl, ?_⟩
    · rw [← hq]; rfl
    · show "(const " ++ displayF64 (42 : ℚ) ++ ")" = "(const 42)"
      rw [show displayF64 (42 : ℚ) = "42" from by decide]
      rfl
    · intro v h
      exact RMLValue.noConfusion (RMLNode.Constant.inj h)
  · refine ⟨by rfl, by rfl, by rfl, ?_⟩
    intro h
    have h2 := List.head_eq_of_cons_eq h
    exact RMLNode.noConfusion h2

end RegMachine
